import Mathlib

/-!
# grpc-end: dispatcher, request context and client caller

A shallow embedding of `engine.go`, `context.go`, `middleware/recover.go`,
`middleware/log.go`, `example/main.go` and `client/client.go`.

* Go's `int8` cursor is an `Int` kept in `[-128, 127]` by `wrap8`.
* A `HandleFunc` is a finite program (`Prog`) over the operations a handler can
  perform on its `*GRpcContext`; `Next` re-enters the chain, so execution is
  bounded by fuel and running out of fuel is an outcome of its own.
* `json.Marshal` / `json.Unmarshal` come from json-iterator, which is not part
  of the repository: every definition takes them as the parameter `J`, and
  `stdJson` is the codec as json-iterator behaves in its default configuration.
* A Go `string` is any sequence of bytes. The strings that carry request data,
  payloads and the message of the error handed to `ErrResponse` are `GoString`s,
  which keep the bytes that are not part of well-formed UTF-8; names, map keys,
  panic values and the errors the repository creates itself are `String`s, that
  is, valid UTF-8.
-/

namespace GrpcEnd

/-! ## Values -/

/-- A `[]byte` holding text, kept as the characters it encodes. -/
abbrev Bytes := List Char

/-- One unit of a Go `string`, as Go reads it when it decodes the string as
UTF-8 (`utf8.DecodeRuneInString`): a character whose encoding is well formed, or
a single byte that belongs to no well-formed encoding. -/
inductive GoUnit where
  | char (c : Char) : GoUnit
  | byte (b : Nat) : GoUnit
deriving DecidableEq, Repr

/-- A Go `string`: any sequence of bytes, kept as the units Go reads from it. -/
abbrev GoString := List GoUnit

/-- The Go string holding the UTF-8 encoding of a text. -/
def GoString.ofString (s : String) : GoString := s.data.map GoUnit.char

def GoUnit.isChar : GoUnit → Bool
  | GoUnit.char _ => true
  | GoUnit.byte _ => false

/-- The string is valid UTF-8: `utf8.ValidString`. -/
def GoString.valid (s : GoString) : Bool := s.all GoUnit.isChar

/-- What a reader of UTF-8 sees of a unit: the character, or U+FFFD in the place
of a byte that is not part of well-formed UTF-8. -/
def GoUnit.toChar : GoUnit → Char
  | GoUnit.char c => c
  | GoUnit.byte _ => Char.ofNat 0xFFFD

/-- The text a reader of UTF-8 sees in a Go string. -/
def GoString.toValid (s : GoString) : String := String.mk (s.map GoUnit.toChar)

/-- Go `map[string]V`, an association list read by its first matching key. The
nil map and the empty map are both `[]` where only reads are made. -/
abbrev GoMap (V : Type) := List (String × V)

/-- `m[key]` with the comma-ok flag: `none` when the key is absent. -/
def GoMap.find {V : Type} (m : GoMap V) (key : String) : Option V :=
  match m with
  | [] => none
  | (k, v) :: rest => if k = key then some v else GoMap.find rest key

/-- `m[key] = v` on a map. -/
def GoMap.put {V : Type} (m : GoMap V) (key : String) (v : V) : GoMap V :=
  (key, v) :: m.filter (fun kv => !(kv.1 == key))

/-- A `map[string]string` whose values are texts. -/
def GoMap.ofStrings (m : List (String × String)) : GoMap GoString :=
  m.map (fun kv => (kv.1, GoString.ofString kv.2))

/-- A value of type `interface{}`, as far as the context handles one: nil, a
bool, an int, a string, a `map[string]string` or `map[string]interface{}` that
has been made (`strMap`, `anyMap`) or is nil (`nilStrMap`, `nilAnyMap`), and a
func. -/
inductive GoVal where
  | nil : GoVal
  | bool (b : Bool) : GoVal
  | int (n : Int) : GoVal
  | str (s : GoString) : GoVal
  | strMap (m : GoMap GoString) : GoVal
  | anyMap (m : List (String × GoVal)) : GoVal
  | nilStrMap : GoVal
  | nilAnyMap : GoVal
  | func (id : Nat) : GoVal

/-- A value of type `error`: `none` is the nil error, `some msg` an error whose
`Error()` is `msg`. -/
abbrev GoError := Option String

/-- The generated message `Request`. -/
structure Request where
  Controller : String
  Action : String
  Params : GoMap GoString
  Header : GoMap GoString
  Files : GoMap Bytes

/-- The generated message `Response`. -/
structure Response where
  Data : Bytes
deriving DecidableEq, Repr

/-- The struct `SResponse`. -/
structure SResponse where
  Success : Bool
  PayLoad : GoVal

/-- The struct `Error`. -/
structure Error where
  Code : Int
  Message : GoString

/-- The struct `EResponse`. -/
structure EResponse where
  Success : Bool
  Err : Error

/-- What the context passes to `json.Marshal`. -/
inductive MarshalArg where
  | s (r : SResponse) : MarshalArg
  | e (r : EResponse) : MarshalArg

/-- A decoded JSON document. -/
inductive Json where
  | null : Json
  | bool (b : Bool) : Json
  | num (n : Int) : Json
  | str (s : String) : Json
  | arr (xs : List Json) : Json
  | obj (kvs : List (String × Json)) : Json

/-- The two json-iterator entry points the repository calls. `Marshal` returns
the pair `([]byte, error)`; `Unmarshal` into an `interface{}` gives the decoded
document, or `none` on a decoding error. -/
structure JsonApi where
  Marshal : MarshalArg → Bytes × GoError
  Unmarshal : Bytes → Option Json

/-! ## Handlers -/

/-- What a handler can read of its context: every field of `GRpcContext` but
the chain and the engine. -/
structure CtxView where
  index : Int
  ctx : Option Nat
  req : Option Request
  resp : Response
  Keys : Option (GoMap GoVal)
  appName : String

/-- One record written through logrus. -/
inductive LogEntry where
  | error (app : String) (err : String) : LogEntry
  | info (appName controller action : String) (param header : GoMap GoString)
      (response : GoString) (responseSize : Nat) : LogEntry

/-- A call a handler makes that changes the context or the world. -/
inductive Op where
  | Next : Op
  | Abort : Op
  | Set (key : String) (val : GoVal) : Op
  | SuccessResponse (v : GoVal) : Op
  | ErrResponse (code : Int) (err : Option GoString) : Op
  | setData (data : Bytes) : Op
  | setKeys (keys : Option (GoMap GoVal)) : Op
  | log (entry : LogEntry) : Op

/-- The body of a `HandleFunc`: a finite program over the context.
`recover body k` is `func() { defer func() { r := recover(); ... }(); body }()`
followed by `k r`, with `r = none` when `body` did not panic. -/
inductive Prog where
  | ret : Prog
  | panic (v : String) : Prog
  | call (op : Op) (k : Prog) : Prog
  | read (k : CtxView → Prog) : Prog
  | recover (body : Prog) (k : Option String → Prog) : Prog

abbrev HandleFunc := Prog
abbrev HandlersChain := List HandleFunc

/-- Calling a nil `HandleFunc`. -/
def nilHandler : HandleFunc :=
  Prog.panic "runtime error: invalid memory address or nil pointer dereference"

/-- The struct `GRpcEngine`, without its `sync.Pool`: the context the pool hands
out is an argument of `newContext` and `DoRequest`. -/
structure GRpcEngine where
  funcMap : GoMap HandleFunc
  handlers : HandlersChain
  appName : String

/-- The struct `GRpcContext`. -/
structure GRpcContext where
  handlers : HandlersChain
  index : Int
  ctx : Option Nat
  engine : Option GRpcEngine
  req : Option Request
  resp : Response
  Keys : Option (GoMap GoVal)
  appName : String

def GRpcContext.view (c : GRpcContext) : CtxView :=
  { index := c.index, ctx := c.ctx, req := c.req, resp := c.resp, Keys := c.Keys,
    appName := c.appName }

/-- `int8(x)`: two's-complement truncation to 8 bits. -/
def wrap8 (x : Int) : Int := (x + 128) % 256 - 128

/-- `const abortIndex int8 = math.MaxInt8 / 2`. -/
def abortIndex : Int := 127 / 2

/-- `&GRpcContext{}`, what `pool.New` returns. -/
def GRpcContext.zero : GRpcContext :=
  { handlers := [], index := 0, ctx := none, engine := none, req := none,
    resp := { Data := [] }, Keys := none, appName := "" }

/-- `func (c *GRpcContext) reset()`. -/
def GRpcContext.reset (c : GRpcContext) : GRpcContext :=
  { c with handlers := [], index := -1, ctx := none, engine := none, req := none,
           resp := { Data := [] }, Keys := none }

/-- `func (c *GRpcContext) Set(key string, val interface{})`. -/
def GRpcContext.Set (c : GRpcContext) (key : String) (val : GoVal) : GRpcContext :=
  let keys := match c.Keys with
    | none => ([] : GoMap GoVal)
    | some m => m
  { c with Keys := some (GoMap.put keys key val) }

/-- `func (c *GRpcContext) Get(key string) interface{}`. -/
def GRpcContext.Get (c : GRpcContext) (key : String) : GoVal :=
  match c.Keys with
  | none => GoVal.nil
  | some m => (GoMap.find m key).getD GoVal.nil

/-- `func (c *GRpcContext) GetString(key string) string`. -/
def GRpcContext.GetString (c : GRpcContext) (key : String) : GoString :=
  match c.Keys with
  | none => []
  | some m =>
    match GoMap.find m key with
    | some (GoVal.str s) => s
    | _ => []

/-- `func (c *GRpcContext) GetStringMap(key string) map[string]string`; `none`
is the nil map. -/
def GRpcContext.GetStringMap (c : GRpcContext) (key : String) : Option (GoMap GoString) :=
  match c.Keys with
  | none => none
  | some m =>
    match GoMap.find m key with
    | some (GoVal.strMap sm) => some sm
    | _ => none

/-- `func (c *GRpcContext) IsParamExist(key string) bool`, on the request
`c.req` points to. -/
def IsParamExist (req : Request) (key : String) : Bool := (GoMap.find req.Params key).isSome

/-- `func (c *GRpcContext) StringParam(key string) string`. -/
def StringParam (req : Request) (key : String) : GoString :=
  let val := (GoMap.find req.Params key).getD []
  if val = [] then (GoMap.find req.Header key).getD [] else val

/-- `func (c *GRpcContext) StringParamDefault(key string, defVal string) string`. -/
def StringParamDefault (req : Request) (key : String) (defVal : GoString) : GoString :=
  let val := StringParam req key
  if val ≠ [] then val else defVal

/-- The value of a non-empty run of decimal digits; `none` when it is empty or
holds another character. -/
def digitsValue (cs : List Char) : Option Nat :=
  if cs.isEmpty then none
  else if cs.all (fun c => decide (48 ≤ c.toNat ∧ c.toNat ≤ 57)) then
    some (cs.foldl (fun n c => n * 10 + (c.toNat - 48)) 0)
  else none

/-- The characters of a string, unless it holds a byte that is not part of
well-formed UTF-8. -/
def GoString.text (s : GoString) : Option (List Char) :=
  if s.valid then some (s.map GoUnit.toChar) else none

/-- `strconv.ParseInt` on the characters of a well-formed string: an optional
sign, then decimal digits only; `none` is a syntax or range error. -/
def parseIntText (cs : List Char) (bitSize : Nat) : Option Int :=
  let sd : Bool × List Char :=
    match cs with
    | '+' :: r => (false, r)
    | '-' :: r => (true, r)
    | r => (false, r)
  match digitsValue sd.2 with
  | none => none
  | some un =>
    let cutoff := 2 ^ (bitSize - 1)
    if sd.1 then (if un > cutoff then none else some (-(un : Int)))
    else if un ≥ cutoff then none else some (un : Int)

/-- `strconv.ParseInt(s, 10, bitSize)` of the Go standard library; `none` is a
syntax or range error. A byte that is not part of well-formed UTF-8 is neither a
sign nor a digit: a syntax error. -/
def ParseInt (s : GoString) (bitSize : Nat) : Option Int :=
  match s.text with
  | none => none
  | some cs => parseIntText cs bitSize

/-- `strconv.IntSize` on a 64-bit platform: the size of `int`. -/
def intSize : Nat := 64

/-- `strconv.Atoi(s)`. -/
def Atoi (s : GoString) : Option Int := ParseInt s intSize

/-- `func (c *GRpcContext) IntParam(key string) int`. -/
def IntParam (req : Request) (key : String) : Int :=
  let val := StringParam req key
  if val ≠ [] then
    match Atoi val with
    | some n => n
    | none => 0
  else 0

/-- `func (c *GRpcContext) IntParamDefault(key string, defVal int) int`. -/
def IntParamDefault (req : Request) (key : String) (defVal : Int) : Int :=
  let val := StringParam req key
  if val ≠ [] then
    match Atoi val with
    | some n => n
    | none => defVal
  else defVal

/-- `func (c *GRpcContext) Int64Param(key string) int64`. -/
def Int64Param (req : Request) (key : String) : Int :=
  let val := StringParam req key
  if val ≠ [] then
    match ParseInt val 64 with
    | some n => n
    | none => 0
  else 0

/-- `func (c *GRpcContext) Int64ParamDefault(key string, defVal int64) int64`. -/
def Int64ParamDefault (req : Request) (key : String) (defVal : Int) : Int :=
  let val := StringParam req key
  if val ≠ [] then
    match ParseInt val 64 with
    | some n => n
    | none => defVal
  else defVal

/-- `func (c *GRpcContext) Abort()`. -/
def GRpcContext.Abort (c : GRpcContext) : GRpcContext := { c with index := abortIndex }

/-- `func (c *GRpcContext) IsAbort() bool`. -/
def GRpcContext.IsAbort (c : GRpcContext) : Bool := decide (c.index ≥ abortIndex)

/-- What `c.IsAbort()` tells a handler that reads its context. -/
def CtxView.IsAbort (v : CtxView) : Bool := decide (v.index ≥ abortIndex)

/-- `if v == nil { v = make(map[string]interface{}) }` of `SuccessResponse`. -/
def GoVal.orEmptyMap (v : GoVal) : GoVal :=
  match v with
  | GoVal.nil => GoVal.anyMap []
  | w => w

/-- `func (c *GRpcContext) SuccessResponse(v interface{})`. -/
def GRpcContext.SuccessResponse (J : JsonApi) (c : GRpcContext) (v : GoVal) : GRpcContext :=
  let v := v.orEmptyMap
  let jsonStr := (J.Marshal (MarshalArg.s { Success := true, PayLoad := v })).1
  { c with resp := { Data := jsonStr } }

/-- `func (c *GRpcContext) ErrResponse(code int, err error)`. The error is given
by the string its `Error()` returns, `none` being the nil error; the result `none`
is the nil pointer dereference of `err.Error()` on a nil error. -/
def GRpcContext.ErrResponse (J : JsonApi) (c : GRpcContext) (code : Int)
    (err : Option GoString) : Option GRpcContext :=
  match err with
  | none => none
  | some msg =>
    let jsonStr := (J.Marshal (MarshalArg.e
      { Success := false, Err := { Code := code, Message := msg } })).1
    some { c with resp := { Data := jsonStr } }

/-! ## Execution -/

/-- What is recorded of a call, in order. -/
inductive Event where
  | start (i : Nat) : Event
  | finish (i : Nat) : Event
  | abort : Event
  | panic (v : String) : Event
  | logError (app : String) (err : String) : Event
  | logInfo (appName controller action : String) (response : GoString) (responseSize : Nat) :
      Event
deriving DecidableEq, Repr

/-- How a piece of code ends. -/
inductive Outcome where
  | returned : Outcome
  | panicked (v : String) : Outcome
  | outOfFuel : Outcome
deriving DecidableEq, Repr

/-- The context being served and the record of the call so far. -/
structure St where
  c : GRpcContext
  trace : List Event

/-- The state at the start of a call on the context `c`. -/
def St.init (c : GRpcContext) : St := { c := c, trace := [] }

def St.emit (st : St) (e : Event) : St := { st with trace := st.trace ++ [e] }

/-- `c.index++`. -/
def St.incIndex (st : St) : St := { st with c := { st.c with index := wrap8 (st.c.index + 1) } }

def LogEntry.event : LogEntry → Event
  | LogEntry.error app err => Event.logError app err
  | LogEntry.info appName controller action _ _ response responseSize =>
      Event.logInfo appName controller action response responseSize

/-- One call of a handler on its context; `next` is `c.Next()`. -/
def doOp (J : JsonApi) (next : St → Outcome × St) (op : Op) (st : St) : Outcome × St :=
  match op with
  | Op.Next => next st
  | Op.Abort => (Outcome.returned, { c := st.c.Abort, trace := st.trace ++ [Event.abort] })
  | Op.Set key val => (Outcome.returned, { st with c := st.c.Set key val })
  | Op.SuccessResponse v => (Outcome.returned, { st with c := st.c.SuccessResponse J v })
  | Op.ErrResponse code err =>
    match st.c.ErrResponse J code err with
    | some c => (Outcome.returned, { st with c := c })
    | none =>
      let v := "runtime error: invalid memory address or nil pointer dereference"
      (Outcome.panicked v, st.emit (Event.panic v))
  | Op.setData data => (Outcome.returned, { st with c := { st.c with resp := { Data := data } } })
  | Op.setKeys keys => (Outcome.returned, { st with c := { st.c with Keys := keys } })
  | Op.log entry => (Outcome.returned, st.emit entry.event)

/-- Running the body of a handler. -/
def runProg (J : JsonApi) (next : St → Outcome × St) : Prog → St → Outcome × St
  | Prog.ret, st => (Outcome.returned, st)
  | Prog.panic v, st => (Outcome.panicked v, st.emit (Event.panic v))
  | Prog.call op k, st =>
    match doOp J next op st with
    | (Outcome.returned, st1) => runProg J next k st1
    | r => r
  | Prog.read k, st => runProg J next (k st.c.view) st
  | Prog.recover body k, st =>
    match runProg J next body st with
    | (Outcome.returned, st1) => runProg J next (k none) st1
    | (Outcome.panicked v, st1) => runProg J next (k (some v)) st1
    | (Outcome.outOfFuel, st1) => (Outcome.outOfFuel, st1)

/-- `c.handlers[c.index]` with an `int8` index: `none` is the runtime panic
"index out of range". -/
def handlerAt (hs : HandlersChain) (index : Int) : Option HandleFunc :=
  if index < 0 then none else hs.get? index.toNat

/-- The loop of `Next`: `for ; c.index < s; c.index++ { c.handlers[c.index](c) }`.
Each handler call costs one unit of fuel. -/
def NextLoop (J : JsonApi) (s : Int) : Nat → St → Outcome × St
  | 0, st => if st.c.index < s then (Outcome.outOfFuel, st) else (Outcome.returned, st)
  | fuel + 1, st =>
    if st.c.index < s then
      match handlerAt st.c.handlers st.c.index with
      | none =>
        let v := "runtime error: index out of range"
        (Outcome.panicked v, st.emit (Event.panic v))
      | some h =>
        match runProg J (fun st1 => NextLoop J s fuel st1.incIndex) h
            (st.emit (Event.start st.c.index.toNat)) with
        | (Outcome.returned, st1) =>
          NextLoop J s fuel (st1.emit (Event.finish st.c.index.toNat)).incIndex
        | r => r
    else (Outcome.returned, st)

/-- `func (c *GRpcContext) Next()`. -/
def Next (J : JsonApi) (fuel : Nat) (st : St) : Outcome × St :=
  let st1 := st.incIndex
  NextLoop J (wrap8 (st1.c.handlers.length : Int)) fuel st1

/-! ## Engine -/

/-- `func NewGRpcEngine(appName string) *GRpcEngine`. -/
def NewGRpcEngine (appName : String) : GRpcEngine :=
  { funcMap := [], handlers := [], appName := appName }

/-- `func (e *GRpcEngine) RegisterFunc(controller, action string, f HandleFunc)`;
`Except.error` is the panic. -/
def GRpcEngine.RegisterFunc (e : GRpcEngine) (controller action : String) (f : HandleFunc) :
    Except String GRpcEngine :=
  let key := controller ++ "/" ++ action
  match GoMap.find e.funcMap key with
  | some _ => Except.error ("func " ++ key ++ " already exists")
  | none => Except.ok { e with funcMap := GoMap.put e.funcMap key f }

/-- `func (e *GRpcEngine) Use(f ...HandleFunc)`. -/
def GRpcEngine.Use (e : GRpcEngine) (f : List HandleFunc) : GRpcEngine :=
  { e with handlers := e.handlers ++ f }

/-- `func (e *GRpcEngine) newContext(ctx, key, in) *GRpcContext`; `pooled` is
what `e.pool.Get()` hands out. -/
def GRpcEngine.newContext (e : GRpcEngine) (pooled : GRpcContext) (ctx : Nat) (key : String)
    (req : Request) : GRpcContext :=
  let c := pooled.reset
  let c := { c with handlers := [] ++ e.handlers }
  let c := { c with handlers := c.handlers ++ [(GoMap.find e.funcMap key).getD nilHandler] }
  let c := { c with ctx := some ctx }
  let c := { c with engine := some e }
  let c := { c with req := some req }
  { c with appName := e.appName }

/-- What a call of `DoRequest` leaves behind: how it ended, the pair it returned,
the record of the call, and the context its deferred `e.pool.Put(c)` gave back. -/
structure DoResult where
  outcome : Outcome
  resp : Option Response
  err : GoError
  trace : List Event
  pooled : Option GRpcContext

/-- What `DoRequest` returns once `c.Next()` has ended: `c.resp` and a nil error
when it returned, the panic passed on when it panicked; the deferred
`e.pool.Put(c)` runs either way. -/
def DoResult.ofRun (r : Outcome × St) : DoResult :=
  match r with
  | (Outcome.returned, st) =>
    { outcome := Outcome.returned, resp := some st.c.resp, err := none, trace := st.trace,
      pooled := some st.c }
  | (o, st) =>
    { outcome := o, resp := none, err := none, trace := st.trace, pooled := some st.c }

/-- `func (e *GRpcEngine) DoRequest(ctx, in) (*Response, error)`. -/
def GRpcEngine.DoRequest (J : JsonApi) (fuel : Nat) (e : GRpcEngine) (pooled : GRpcContext)
    (ctx : Nat) (req : Request) : DoResult :=
  let key := req.Controller ++ "/" ++ req.Action
  match GoMap.find e.funcMap key with
  | none =>
    { outcome := Outcome.returned, resp := none, err := some "404", trace := [], pooled := none }
  | some _ =>
    let c := e.newContext pooled ctx key req
    DoResult.ofRun (Next J fuel (St.init c))

/-! ## Middleware and the example server -/

/-- `func Recover(c *grpc_end.GRpcContext)` of `middleware/recover.go`. -/
def Recover : HandleFunc :=
  Prog.recover (Prog.call Op.Next Prog.ret) (fun r =>
    match r with
    | none => Prog.ret
    | some err => Prog.read (fun v => Prog.call (Op.log (LogEntry.error v.appName err)) Prog.ret))

/-- `len(b)` of a `[]byte` holding text: the number of bytes of its UTF-8
encoding. -/
def byteLen (data : Bytes) : Nat :=
  (data.map (fun c => (String.utf8EncodeChar c).length)).sum

/-- `string(b[:n])` for a `[]byte` holding text of more than `n` bytes: the
characters that lie within the first `n` bytes, then the leading bytes of a
character the cut falls into, which no longer form a character. -/
def takeBytes : Nat → Bytes → GoString
  | _, [] => []
  | n, c :: cs =>
    if (String.utf8EncodeChar c).length ≤ n then
      GoUnit.char c :: takeBytes (n - (String.utf8EncodeChar c).length) cs
    else ((String.utf8EncodeChar c).take n).map (fun b => GoUnit.byte b.toNat)

/-- The copy of the response `Logger` writes out, as the string it logs: cut at
2048 bytes, with "..." after the cut. -/
def logResp (data : Bytes) : GoString :=
  let l := [] ++ data
  if byteLen l > 1024 * 2 then takeBytes (1024 * 2) l ++ GoString.ofString "..."
  else l.map GoUnit.char

/-- `func Logger(c *grpc_end.GRpcContext)` of `middleware/log.go`. -/
def Logger : HandleFunc :=
  Prog.call Op.Next (Prog.read (fun v =>
    match v.req with
    | none => nilHandler
    | some r =>
      Prog.call (Op.log (LogEntry.info v.appName r.Controller r.Action r.Params r.Header
        (logResp v.resp.Data) (byteLen v.resp.Data))) Prog.ret))

/-- `func sayHi(c *grpc_end.GRpcContext)` of `example/main.go`. -/
def sayHi : HandleFunc :=
  Prog.read (fun v =>
    match v.req with
    | none => nilHandler
    | some r =>
      let name := StringParamDefault r "name" (GoString.ofString "")
      Prog.call (Op.SuccessResponse (GoVal.str (GoString.ofString "hi " ++ name))) Prog.ret)

/-- `func newGRpcEngine() *grpc_end.GRpcEngine` of `example/main.go`. -/
def newGRpcEngine : Except String GRpcEngine :=
  let engine := NewGRpcEngine "MyAppName"
  match engine.RegisterFunc "hello" "world" sayHi with
  | Except.error v => Except.error v
  | Except.ok engine =>
    let engine := engine.Use [Recover]
    let engine := engine.Use [Logger]
    Except.ok engine

/-! ## Client -/

/-- The pool (`MapPool`, `Pool`) and the generated gRPC client that
`CallEndApi` calls; neither is among the sources, so their operations are
parameters acting on a world `W`. -/
structure ClientEnv (W P Conn : Type) where
  GetPool : String → W → P × W
  Get : P → W → Except String Conn × W
  Put : P → Conn → W → GoError × W
  DelErrorClient : P → Conn → W → W
  DoRequest : Conn → Request → W → Except String Response × W

/-- What `CallEndApi` returns, and the world it leaves. -/
structure CallResult (W : Type) where
  data : Option Bytes
  err : GoError
  world : W

/-- `func CallEndApi(serverAddress, controller, action string, params map[string]string)
([]byte, error)`. -/
def CallEndApi {W P Conn : Type} (env : ClientEnv W P Conn) (serverAddress controller
    action : String) (params : GoMap GoString) (w : W) : CallResult W :=
  let request : Request :=
    { Controller := controller, Action := action, Params := params, Header := [], Files := [] }
  let (pool, w) := env.GetPool serverAddress w
  match env.Get pool w with
  | (Except.error err, w) => { data := none, err := some err, world := w }
  | (Except.ok conn, w) =>
    match env.DoRequest conn request w with
    | (Except.error err, w) =>
      let w := env.DelErrorClient pool conn w
      { data := none, err := some err, world := w }
    | (Except.ok resp, w) =>
      let (_, w) := env.Put pool conn w
      { data := some resp.Data, err := none, world := w }

/-! ## A reference JSON codec

json-iterator's `Marshal` and `Unmarshal` in the default configuration (HTML
escaping on, map keys not sorted), on the values the two envelopes hold: used
wherever a concrete `JsonApi` is called for. -/

mutual
/-- The document a reader decodes from the encoding of a Go value: a byte of a
string that is not part of well-formed UTF-8 reads as U+FFFD, a nil map as null;
`none` for a value with no JSON encoding (a func). -/
def GoVal.toJson : GoVal → Option Json
  | GoVal.nil => some Json.null
  | GoVal.bool b => some (Json.bool b)
  | GoVal.int n => some (Json.num n)
  | GoVal.str s => some (Json.str s.toValid)
  | GoVal.strMap m => some (Json.obj (m.map (fun kv => (kv.1, Json.str kv.2.toValid))))
  | GoVal.anyMap m => (GoVal.fieldsToJson m).map Json.obj
  | GoVal.nilStrMap => some Json.null
  | GoVal.nilAnyMap => some Json.null
  | GoVal.func _ => none
def GoVal.fieldsToJson : List (String × GoVal) → Option (List (String × Json))
  | [] => some []
  | (k, v) :: rest =>
    match GoVal.toJson v, GoVal.fieldsToJson rest with
    | some j, some js => some ((k, j) :: js)
    | _, _ => none
end

/-- The document an envelope decodes to, field by field in the order and under
the names of its `json` tags. -/
def MarshalArg.toJson : MarshalArg → Option Json
  | MarshalArg.s r =>
    (GoVal.toJson r.PayLoad).map (fun p =>
      Json.obj [("success", Json.bool r.Success), ("payload", p)])
  | MarshalArg.e r =>
    some (Json.obj [("success", Json.bool r.Success),
      ("error", Json.obj [("code", Json.num r.Err.Code),
        ("message", Json.str r.Err.Message.toValid)])])

def dquote : Char := Char.ofNat 34
def backslash : Char := Char.ofNat 92
def lbrace : Char := Char.ofNat 123
def rbrace : Char := Char.ofNat 125

/-- The digit `hex[n]` with `hex = "0123456789abcdef"`. -/
def hexDigit (n : Nat) : Char := if n < 10 then Char.ofNat (48 + n) else Char.ofNat (87 + n)

/-- One unit of a string inside a JSON string, as `WriteStringWithHTMLEscaped`
writes it: the quote and the backslash behind a backslash, newline, carriage
return and tab as their two-character escapes, the other control characters and
the HTML characters `<`, `>`, `&` as `u00xx` escapes, U+2028 and U+2029 escaped,
a byte that is not part of well-formed UTF-8 as the escape of U+FFFD, every other
character as it is. -/
def escapeUnit : GoUnit → List Char
  | GoUnit.byte _ => [backslash, 'u', 'f', 'f', 'f', 'd']
  | GoUnit.char c =>
    if c = dquote ∨ c = backslash then [backslash, c]
    else if c = Char.ofNat 10 then [backslash, 'n']
    else if c = Char.ofNat 13 then [backslash, 'r']
    else if c = Char.ofNat 9 then [backslash, 't']
    else if c.toNat < 32 ∨ c = '<' ∨ c = '>' ∨ c = '&' then
      [backslash, 'u', '0', '0', hexDigit (c.toNat / 16), hexDigit (c.toNat % 16)]
    else if c = Char.ofNat 0x2028 then [backslash, 'u', '2', '0', '2', '8']
    else if c = Char.ofNat 0x2029 then [backslash, 'u', '2', '0', '2', '9']
    else [c]

def renderString (s : GoString) : List Char :=
  [dquote] ++ s.flatMap escapeUnit ++ [dquote]

def renderBool (b : Bool) : List Char := if b then "true".data else "false".data

def renderInt (n : Int) : List Char :=
  match n with
  | Int.ofNat k => Nat.toDigits 10 k
  | Int.negSucc k => '-' :: Nat.toDigits 10 (k + 1)

/-- The members of an object, each given by its name and the text of its value,
in the order they are written. -/
def joinMembers : List (String × List Char) → List Char
  | [] => []
  | [(k, t)] => renderString (GoString.ofString k) ++ ':' :: t
  | (k, t) :: kt :: rest =>
    renderString (GoString.ofString k) ++ ':' :: t ++ ',' :: joinMembers (kt :: rest)

/-- The text of an object with the given members. -/
def renderObject (kts : List (String × List Char)) : List Char :=
  lbrace :: joinMembers kts ++ [rbrace]

mutual
/-- The compact JSON text of a Go value; `none` for a value with no JSON
encoding. A map is written in the order of its association list. -/
def GoVal.render : GoVal → Option (List Char)
  | GoVal.nil => some "null".data
  | GoVal.bool b => some (renderBool b)
  | GoVal.int n => some (renderInt n)
  | GoVal.str s => some (renderString s)
  | GoVal.strMap m => some (renderObject (m.map (fun kv => (kv.1, renderString kv.2))))
  | GoVal.anyMap m => (GoVal.renderFields m).map renderObject
  | GoVal.nilStrMap => some "null".data
  | GoVal.nilAnyMap => some "null".data
  | GoVal.func _ => none
def GoVal.renderFields : List (String × GoVal) → Option (List (String × List Char))
  | [] => some []
  | (k, v) :: rest =>
    match GoVal.render v, GoVal.renderFields rest with
    | some t, some ts => some ((k, t) :: ts)
    | _, _ => none
end

/-- The JSON text of an envelope, field by field in the order and under the
names of its `json` tags. -/
def MarshalArg.render : MarshalArg → Option (List Char)
  | MarshalArg.s r =>
    (GoVal.render r.PayLoad).map (fun p =>
      renderObject [("success", renderBool r.Success), ("payload", p)])
  | MarshalArg.e r =>
    some (renderObject [("success", renderBool r.Success),
      ("error", renderObject [("code", renderInt r.Err.Code),
        ("message", renderString r.Err.Message)])])

def isWs (c : Char) : Bool := c.toNat = 32 || c.toNat = 9 || c.toNat = 10 || c.toNat = 13

def skipWs : List Char → List Char
  | [] => []
  | c :: cs => if isWs c then skipWs cs else c :: cs

def hexVal (c : Char) : Option Nat :=
  let n := c.toNat
  if 48 ≤ n ∧ n ≤ 57 then some (n - 48)
  else if 97 ≤ n ∧ n ≤ 102 then some (n - 87)
  else if 65 ≤ n ∧ n ≤ 70 then some (n - 55)
  else none

/-- The character a one-letter escape stands for. -/
def unescape (d : Char) : Option Char :=
  if d = 'n' then some (Char.ofNat 10)
  else if d = 't' then some (Char.ofNat 9)
  else if d = 'r' then some (Char.ofNat 13)
  else if d = 'b' then some (Char.ofNat 8)
  else if d = 'f' then some (Char.ofNat 12)
  else if d = dquote ∨ d = backslash ∨ d = '/' then some d
  else none

/-- The four hex digits of a `u` escape. -/
def parseHex4 : List Char → Option (Char × List Char)
  | h1 :: h2 :: h3 :: h4 :: rest =>
    match hexVal h1, hexVal h2, hexVal h3, hexVal h4 with
    | some a, some b, some e, some f =>
      some (Char.ofNat (((a * 16 + b) * 16 + e) * 16 + f), rest)
    | _, _, _, _ => none
  | _ => none

/-- The rest of a string after its opening quote: the decoded characters
(collected in reverse in `acc`) and what follows the closing quote. The fuel
bounds the number of characters decoded. -/
def parseStringBody : Nat → List Char → List Char → Option (String × List Char)
  | 0, _, _ => none
  | _ + 1, [], _ => none
  | fuel + 1, c :: rest, acc =>
    if c = dquote then some (String.mk acc.reverse, rest)
    else if c = backslash then
      match rest with
      | [] => none
      | d :: rest1 =>
        if d = 'u' then
          match parseHex4 rest1 with
          | some (e, rest4) => parseStringBody fuel rest4 (e :: acc)
          | none => none
        else
          match unescape d with
          | some e => parseStringBody fuel rest1 (e :: acc)
          | none => none
    else if c.toNat < 32 then none
    else parseStringBody fuel rest (c :: acc)

def parseDigits : List Char → Nat → Nat → Nat × Nat × List Char
  | [], n, k => (n, k, [])
  | c :: cs, n, k =>
    if 48 ≤ c.toNat ∧ c.toNat ≤ 57 then parseDigits cs (n * 10 + (c.toNat - 48)) (k + 1)
    else (n, k, c :: cs)

/-- An integer literal. -/
def parseInt (cs : List Char) : Option (Int × List Char) :=
  match cs with
  | '-' :: rest =>
    match parseDigits rest 0 0 with
    | (_, 0, _) => none
    | (n, _, rest1) => some (-(n : Int), rest1)
  | _ =>
    match parseDigits cs 0 0 with
    | (_, 0, _) => none
    | (n, _, rest1) => some ((n : Int), rest1)

mutual
/-- A JSON value at the head of the text, and the text after it. The fuel
bounds the number of values, members and elements read. -/
def parseValue : Nat → List Char → Option (Json × List Char)
  | 0, _ => none
  | fuel + 1, cs =>
    match skipWs cs with
    | [] => none
    | c :: rest =>
      if c = 'n' then
        match rest with
        | 'u' :: 'l' :: 'l' :: r => some (Json.null, r)
        | _ => none
      else if c = 't' then
        match rest with
        | 'r' :: 'u' :: 'e' :: r => some (Json.bool true, r)
        | _ => none
      else if c = 'f' then
        match rest with
        | 'a' :: 'l' :: 's' :: 'e' :: r => some (Json.bool false, r)
        | _ => none
      else if c = dquote then
        (parseStringBody rest.length rest []).map (fun p => (Json.str p.1, p.2))
      else if c = '[' then
        match skipWs rest with
        | ']' :: r => some (Json.arr [], r)
        | _ => parseElems fuel rest []
      else if c = lbrace then
        match skipWs rest with
        | [] => none
        | c1 :: r => if c1 = rbrace then some (Json.obj [], r) else parseMembers fuel rest []
      else (parseInt (c :: rest)).map (fun p => (Json.num p.1, p.2))
/-- The elements of an array after its opening bracket. -/
def parseElems : Nat → List Char → List Json → Option (Json × List Char)
  | 0, _, _ => none
  | fuel + 1, t, acc =>
    match parseValue fuel t with
    | none => none
    | some (j, t1) =>
      match skipWs t1 with
      | ',' :: t2 => parseElems fuel t2 (j :: acc)
      | ']' :: t2 => some (Json.arr (j :: acc).reverse, t2)
      | _ => none
/-- The members of an object after its opening brace. -/
def parseMembers : Nat → List Char → List (String × Json) → Option (Json × List Char)
  | 0, _, _ => none
  | fuel + 1, t, acc =>
    match skipWs t with
    | [] => none
    | q :: t0 =>
      if q = dquote then
        match parseStringBody t0.length t0 [] with
        | none => none
        | some (k, t1) =>
          match skipWs t1 with
          | ':' :: t2 =>
            match parseValue fuel t2 with
            | none => none
            | some (j, t3) =>
              match skipWs t3 with
              | [] => none
              | c3 :: t4 =>
                if c3 = ',' then parseMembers fuel t4 ((k, j) :: acc)
                else if c3 = rbrace then some (Json.obj ((k, j) :: acc).reverse, t4)
                else none
          | _ => none
      else none
end

/-- A whole text as one JSON document. -/
def parseJson (data : Bytes) : Option Json :=
  match parseValue (2 * data.length + 2) data with
  | some (j, rest) => if (skipWs rest).isEmpty then some j else none
  | none => none

/-- The reference codec: `Marshal` fails, returning nil bytes, on a value with
no JSON encoding. -/
def stdJson : JsonApi :=
  { Marshal := fun a =>
      match a.render with
      | some t => (t, none)
      | none => ([], some "unsupported type")
    Unmarshal := parseJson }
/-! ## Connection pool -/

/-- Modelled from the spec: the `Pool` of `client/pool.go`, which is not among
the sources: the idle connections of one address, each stamped with the time it
was returned, the configured max-idle-duration, and the number of connections
dialled so far. Times are readings of one clock, in nanoseconds. -/
structure Pool where
  maxIdle : Nat
  idle : List (Nat × Nat)
  dialed : Nat

/-- Modelled from the spec: the pool that `NewMapPool(dial, size, maxIdle)`
creates for an address on its first use; there is no capacity ceiling. -/
def NewPool (maxIdle : Nat) : Pool := { maxIdle := maxIdle, idle := [], dialed := 0 }

/-- The pool of `InitClient`: `NewMapPool(dial, 0, 5*time.Minute)`. -/
def initClientPool : Pool := NewPool (5 * 60 * 1000000000)

/-- A connection handed out by `Pool.Get()`, with the time it had been idle
(zero for a connection just dialled). -/
structure HandOut where
  conn : Nat
  idleFor : Nat
  fresh : Bool
deriving DecidableEq, Repr

/-- Modelled from the spec: `Pool.Get()` "returns an idle connection not older
than max-idle-duration if one exists; otherwise dials a new one", where a
connection is handed out only if it "has been idle strictly less than the
configured max-idle-duration"; the others are reclaimed. A dial failure is
returned as the error. -/
def Pool.Get (p : Pool) (now : Nat) (dialOk : Bool) : Except String HandOut × Pool :=
  match p.idle.filter (fun e => decide (now - e.2 < p.maxIdle)) with
  | (conn, t) :: rest =>
    (Except.ok { conn := conn, idleFor := now - t, fresh := false }, { p with idle := rest })
  | [] =>
    if dialOk then
      (Except.ok { conn := p.dialed, idleFor := 0, fresh := true },
        { p with idle := [], dialed := p.dialed + 1 })
    else (Except.error "dial failed", { p with idle := [] })

/-- Modelled from the spec: `Pool.Put(connection)` "returns a healthy connection
to the idle set, stamping its idle-start time". -/
def Pool.Put (p : Pool) (conn now : Nat) : Pool := { p with idle := p.idle ++ [(conn, now)] }

/-- Modelled from the spec: `Pool.DelErrorClient(connection)` "permanently
removes and closes a connection". -/
def Pool.DelErrorClient (p : Pool) (conn : Nat) : Pool :=
  { p with idle := p.idle.filter (fun e => !(e.1 == conn)) }

/-- A call on a pool, with the clock reading at the call. -/
inductive PoolOp where
  | Get (now : Nat) (dialOk : Bool) : PoolOp
  | Put (conn now : Nat) : PoolOp
  | DelErrorClient (conn : Nat) : PoolOp

/-- The connections handed out by a sequence of calls, in order. -/
def Pool.handOuts : Pool → List PoolOp → List HandOut
  | _, [] => []
  | p, PoolOp.Get now dialOk :: ops =>
    match p.Get now dialOk with
    | (Except.ok h, p1) => h :: Pool.handOuts p1 ops
    | (Except.error _, p1) => Pool.handOuts p1 ops
  | p, PoolOp.Put conn now :: ops => Pool.handOuts (p.Put conn now) ops
  | p, PoolOp.DelErrorClient conn :: ops => Pool.handOuts (p.DelErrorClient conn) ops

/-! ## Reading the record of a call -/

/-- The positions of the handlers started, in order. -/
def starts (t : List Event) : List Nat :=
  t.filterMap (fun e =>
    match e with
    | Event.start i => some i
    | _ => none)

/-- No `Abort()` was called and no panic was raised. -/
def clean (t : List Event) : Bool :=
  t.all (fun e =>
    match e with
    | Event.abort => false
    | Event.panic _ => false
    | _ => true)

/-- The second state continues the first: same chain, and a record that
extends the first one. -/
def St.Ext (st st1 : St) : Prop :=
  (∃ evs, st1.trace = st.trace ++ evs) ∧ st1.c.handlers = st.c.handlers

/-- At the test of the loop of `Next` on the chain `hs` with cursor `m`: the
handlers started so far are those at positions below `m`, in order. -/
def AtLoop (hs : HandlersChain) (st : St) (m : Nat) : Prop :=
  st.c.handlers = hs ∧ st.c.index = (m : Int) ∧ m ≤ 127 ∧
    starts st.trace = List.range (min m hs.length)

/-- Inside the handler started at position `j` of the chain `hs`: the cursor is
some `m` from `j` to 127 and the handlers started so far are those at positions
up to `m`, in order. -/
def InHandler (hs : HandlersChain) (j : Nat) (st : St) : Prop :=
  st.c.handlers = hs ∧ ∃ m : Nat, st.c.index = (m : Int) ∧ j ≤ m ∧ m ≤ 127 ∧
    starts st.trace = List.range (min (m + 1) hs.length)

/-- A piece of handler `j` ended well: it returned inside handler `j`, unless
an abort or a panic is on record. -/
def RanOn (hs : HandlersChain) (j : Nat) (r : Outcome × St) : Prop :=
  clean r.2.trace = false ∨ (r.1 = Outcome.returned ∧ InHandler hs j r.2)

/-- The loop of `Next` ended well: it returned with the cursor past the chain
and every handler started once, in order, unless an abort or a panic is on
record. -/
def RanDone (hs : HandlersChain) (r : Outcome × St) : Prop :=
  clean r.2.trace = false ∨
    (r.1 = Outcome.returned ∧ r.2.c.handlers = hs ∧
      ∃ m : Nat, r.2.c.index = (m : Int) ∧ hs.length ≤ m ∧ m ≤ 127 ∧
        starts r.2.trace = List.range hs.length)

/-- `Abort()` is on record. -/
def aborted (t : List Event) : Bool :=
  t.any (fun e =>
    match e with
    | Event.abort => true
    | _ => false)

/-- No panic is on record: none raised by a handler, and no access
`c.handlers[c.index]` out of range. -/
def noPanic (t : List Event) : Bool :=
  t.all (fun e =>
    match e with
    | Event.panic _ => false
    | _ => true)

/-- The positions of the handlers that returned, in order. -/
def finishes (t : List Event) : List Nat :=
  t.filterMap (fun e =>
    match e with
    | Event.finish i => some i
    | _ => none)

/-- No handler is started after the first `Abort()` on record. -/
def noStartAfterAbort : List Event → Bool
  | [] => true
  | Event.abort :: rest => (starts rest).isEmpty
  | _ :: rest => noStartAfterAbort rest

/-- The number of calls of `c.Next()` a handler body makes in its run from
`st`. -/
def nextCalls (J : JsonApi) (next : St → Outcome × St) : Prog → St → Nat
  | Prog.ret, _ => 0
  | Prog.panic _, _ => 0
  | Prog.call op k, st =>
    (match op with
      | Op.Next => 1
      | _ => 0) +
    (match doOp J next op st with
      | (Outcome.returned, st1) => nextCalls J next k st1
      | _ => 0)
  | Prog.read k, st => nextCalls J next (k st.c.view) st
  | Prog.recover body k, st =>
    nextCalls J next body st +
    (match runProg J next body st with
      | (Outcome.returned, st1) => nextCalls J next (k none) st1
      | (Outcome.panicked v, st1) => nextCalls J next (k (some v)) st1
      | (Outcome.outOfFuel, _) => 0)

/-- The events recorded after the first `n`. -/
def eventsFrom (n : Nat) (t : List Event) : List Event := t.drop n

/-- A call a handler may make in a tame run: `c.Next()` in a state where `nextOk`
holds, and any other call but `ErrResponse` with a nil error, which panics. -/
def Op.okAt (nextOk : St → Bool) (op : Op) (st : St) : Bool :=
  match op with
  | Op.Next => nextOk st
  | Op.ErrResponse _ none => false
  | _ => true

/-- In the run of a handler body from `st`, the body raises no panic (none of
its own, and none by calling `ErrResponse` with a nil error), and every call of
`c.Next()` it makes is made in a state where `nextOk` holds. -/
def progTame (J : JsonApi) (next : St → Outcome × St) (nextOk : St → Bool) : Prog → St → Bool
  | Prog.ret, _ => true
  | Prog.panic _, _ => false
  | Prog.call op k, st =>
    op.okAt nextOk st &&
    (match doOp J next op st with
      | (Outcome.returned, st1) => progTame J next nextOk k st1
      | _ => true)
  | Prog.read k, st => progTame J next nextOk (k st.c.view) st
  | Prog.recover body k, st =>
    progTame J next nextOk body st &&
    (match runProg J next body st with
      | (Outcome.returned, st1) => progTame J next nextOk (k none) st1
      | (Outcome.panicked v, st1) => progTame J next nextOk (k (some v)) st1
      | (Outcome.outOfFuel, _) => true)

/-- In the run of the loop of `Next` from `st`, every handler invocation calls
`c.Next()` at most once and no handler raises a panic: this holds of the
handlers the loop calls, and of those called by the loops of the calls of
`Next()` they make. -/
def loopTame (J : JsonApi) (s : Int) : Nat → St → Bool
  | 0, _ => true
  | fuel + 1, st =>
    if st.c.index < s then
      match handlerAt st.c.handlers st.c.index with
      | none => true
      | some h =>
        decide (nextCalls J (fun st1 => NextLoop J s fuel st1.incIndex) h
          (st.emit (Event.start st.c.index.toNat)) ≤ 1) &&
        progTame J (fun st1 => NextLoop J s fuel st1.incIndex)
          (fun st1 => loopTame J s fuel st1.incIndex) h
          (st.emit (Event.start st.c.index.toNat)) &&
        (match runProg J (fun st1 => NextLoop J s fuel st1.incIndex) h
            (st.emit (Event.start st.c.index.toNat)) with
          | (Outcome.returned, st1) =>
            loopTame J s fuel (st1.emit (Event.finish st.c.index.toNat)).incIndex
          | _ => true)
    else true

/-- In the run of `c.Next()` from `st`, every handler invocation calls
`c.Next()` at most once and no handler raises a panic. -/
def NextTame (J : JsonApi) (fuel : Nat) (st : St) : Bool :=
  let st1 := st.incIndex
  loopTame J (wrap8 (st1.c.handlers.length : Int)) fuel st1

/-- The predicate `P` holds in every state a handler body passes through, from
its first statement to its last; `nextPts` says so for the handlers run by its
calls of `Next()`. -/
def progPts (J : JsonApi) (next : St → Outcome × St) (nextPts : St → Prop) (P : St → Prop) :
    Prog → St → Prop
  | Prog.ret, st => P st
  | Prog.panic _, st => P st
  | Prog.call op k, st =>
    P st ∧
    (match op with
      | Op.Next => nextPts st
      | _ => True) ∧
    (match doOp J next op st with
      | (Outcome.returned, st1) => progPts J next nextPts P k st1
      | _ => True)
  | Prog.read k, st => P st ∧ progPts J next nextPts P (k st.c.view) st
  | Prog.recover body k, st =>
    progPts J next nextPts P body st ∧
    (match runProg J next body st with
      | (Outcome.returned, st1) => progPts J next nextPts P (k none) st1
      | (Outcome.panicked v, st1) => progPts J next nextPts P (k (some v)) st1
      | (Outcome.outOfFuel, _) => True)

/-- The predicate `P` holds in every state the loop of `Next` passes through:
at each test of the loop and throughout the handlers it runs. -/
def loopPts (J : JsonApi) (s : Int) (P : St → Prop) : Nat → St → Prop
  | 0, st => P st
  | fuel + 1, st =>
    P st ∧
    (if st.c.index < s then
      match handlerAt st.c.handlers st.c.index with
      | none => True
      | some h =>
        progPts J (fun st1 => NextLoop J s fuel st1.incIndex)
          (fun st1 => loopPts J s P fuel st1.incIndex) P h
          (st.emit (Event.start st.c.index.toNat)) ∧
        (match runProg J (fun st1 => NextLoop J s fuel st1.incIndex) h
            (st.emit (Event.start st.c.index.toNat)) with
          | (Outcome.returned, st1) =>
            loopPts J s P fuel (st1.emit (Event.finish st.c.index.toNat)).incIndex
          | _ => True)
    else True)

/-- The predicate `P` holds in every state the run of `c.Next()` from `st`
passes through after its first `c.index++`. -/
def NextPts (J : JsonApi) (P : St → Prop) (fuel : Nat) (st : St) : Prop :=
  let st1 := st.incIndex
  loopPts J (wrap8 (st1.c.handlers.length : Int)) P fuel st1

/-- What the record of a call looks like when no handler panics and every
handler invocation calls `Next()` at most once. -/
def TraceOK (t : List Event) : Prop :=
  noPanic t = true ∧ noStartAfterAbort t = true ∧ ∃ k, starts t = List.range k

/-- Inside handler `m` of the chain `hs`, before its call of `Next()`: the cursor
is `m`, or 63 after an `Abort()`. -/
def In1 (hs : HandlersChain) (m : Nat) (st : St) : Prop :=
  st.c.handlers = hs ∧ TraceOK st.trace ∧ m < hs.length ∧
    (aborted st.trace = true → st.c.index = 63) ∧
    (aborted st.trace = false → st.c.index = (m : Int) ∧ starts st.trace = List.range (m + 1))

/-- Inside handler `m` of the chain `hs`, at any point: the cursor `c` satisfies
`m ≤ c` and `c + m ≤ K1` before any `Abort()`, and `63 ≤ c` and `c + m ≤ 126`
after one. -/
def In0 (hs : HandlersChain) (K1 m : Nat) (st : St) : Prop :=
  st.c.handlers = hs ∧ TraceOK st.trace ∧ m < hs.length ∧
    ∃ c : Nat, st.c.index = (c : Int) ∧
      (aborted st.trace = true → 63 ≤ c ∧ c + m ≤ 126) ∧
      (aborted st.trace = false → m ≤ c ∧ c + m ≤ K1 ∧
        starts st.trace = List.range (min (c + 1) hs.length))

/-- At a test of a loop of `Next` on the chain `hs`, with cursor `c`: `B1`
bounds the cursor before any `Abort()` and `B2` after one. -/
def LoopI (hs : HandlersChain) (K1 B1 B2 : Nat) (st : St) (c : Nat) : Prop :=
  st.c.handlers = hs ∧ TraceOK st.trace ∧ st.c.index = (c : Int) ∧
    (aborted st.trace = true → 63 ≤ c ∧ c ≤ B2) ∧
    (aborted st.trace = false → c ≤ B1 ∧ starts st.trace = List.range (min c hs.length) ∧
      (c < hs.length → K1 + 1 ≤ c + B1 ∧ 127 ≤ c + B2))

/-- What holds in every state of such a call: the cursor has not wrapped, no
panic is on record, the cursor is at least 63 after an `Abort()` and at most
`K1 + 1` before any. -/
def Vis (K1 : Nat) (st : St) : Prop :=
  ∃ c : Nat, st.c.index = (c : Int) ∧ c ≤ 127 ∧ noPanic st.trace = true ∧
    (aborted st.trace = true → 63 ≤ c) ∧ (aborted st.trace = false → c ≤ K1 + 1)

/-- A state predicate that the calls other than `Next()` preserve when they
return, and that implies `P`. -/
structure Closed (P : St → Prop) (Inv : St → Prop) : Prop where
  pt : ∀ st, Inv st → P st
  ctx : ∀ st c1, Inv st → c1.index = st.c.index → c1.handlers = st.c.handlers →
    Inv { c := c1, trace := st.trace }
  log : ∀ st e, Inv st → starts [e] = [] → aborted [e] = false → noPanic [e] = true →
    Inv (st.emit e)
  abort : ∀ st, Inv st → Inv { c := st.c.Abort, trace := st.trace ++ [Event.abort] }

/-! ## The record of the pool calls -/

/-- A call made on the pool. -/
inductive PoolCall (Conn : Type) where
  | Get : PoolCall Conn
  | Put (conn : Conn) : PoolCall Conn
  | DelErrorClient (conn : Conn) : PoolCall Conn
deriving DecidableEq, Repr

/-- The environment `env` with a record kept of the calls made on its pool: each
pool operation runs the operation of `env` on the world and adds itself to the
record, so the record holds exactly the pool operations that were invoked, in
order. -/
def ClientEnv.logged {W P Conn : Type} (env : ClientEnv W P Conn) :
    ClientEnv (W × List (PoolCall Conn)) P Conn :=
  { GetPool := fun addr w => ((env.GetPool addr w.1).1, ((env.GetPool addr w.1).2, w.2))
    Get := fun p w => ((env.Get p w.1).1, ((env.Get p w.1).2, w.2 ++ [PoolCall.Get]))
    Put := fun p conn w =>
      ((env.Put p conn w.1).1, ((env.Put p conn w.1).2, w.2 ++ [PoolCall.Put conn]))
    DelErrorClient := fun p conn w =>
      (env.DelErrorClient p conn w.1, w.2 ++ [PoolCall.DelErrorClient conn])
    DoRequest := fun conn req w =>
      ((env.DoRequest conn req w.1).1, ((env.DoRequest conn req w.1).2, w.2)) }

/-! ## Reading back what the reference codec wrote -/

/-- What may follow the text of a value: nothing, a comma or a closing brace. -/
def Sep (tail : List Char) : Prop :=
  tail = [] ∨ ∃ r, tail = ',' :: r ∨ tail = rbrace :: r

/-- The text `t` is read back as the document `d`, whatever separator follows
it, with fuel from the length of `t` on. -/
def Reads (t : List Char) (d : Json) : Prop :=
  t ≠ [] ∧ ∀ f tail, t.length ≤ f → Sep tail → parseValue f (t ++ tail) = some (d, tail)

/-- The value of a run of decimal digits read after the value `m`. -/
def digitsFold (m : Nat) (cs : List Char) : Nat :=
  cs.foldl (fun a c => a * 10 + (c.toNat - 48)) m

/-- All characters are decimal digits. -/
def allDigits (cs : List Char) : Prop := ∀ c ∈ cs, 48 ≤ c.toNat ∧ c.toNat ≤ 57
/-! ## Concrete inputs -/

/-- An engine with `Recover` as global middleware and no route. -/
def engineNoRoute : GRpcEngine := (NewGRpcEngine "app").Use [Recover]

/-- A request for the route `foo/bar`. -/
def reqFooBar : Request :=
  { Controller := "foo", Action := "bar", Params := [], Header := [], Files := [] }

/-- A pool double over a world that counts the live connections: `Get` dials
connection `n` when `n` are live, or fails when the flag is off. -/
def poolDouble (dialOk callOk : Bool) : ClientEnv Nat String Nat :=
  { GetPool := fun addr w => (addr, w)
    Get := fun _ w => if dialOk then (Except.ok w, w + 1) else (Except.error "dial failed", w)
    Put := fun _ _ w => (none, w)
    DelErrorClient := fun _ _ w => w - 1
    DoRequest := fun _ _ w =>
      if callOk then (Except.ok { Data := "ok".data }, w) else (Except.error "unavailable", w) }

/-- A request for the route `a/b`. -/
def reqAB : Request :=
  { Controller := "a", Action := "b", Params := [], Header := [], Files := [] }

/-- A middleware that aborts and returns. -/
def abortFirst : HandleFunc := Prog.call Op.Abort Prog.ret

/-- An engine with 64 global handlers, the first of which aborts, and the route
`a/b`: a chain of 65 handlers. -/
def engineLong : GRpcEngine :=
  { funcMap := [("a/b", Prog.ret)], handlers := abortFirst :: List.replicate 63 Prog.ret,
    appName := "app" }

/-- An engine with `Recover` first, a middleware that panics, and a route `a/b`
whose handler panics. -/
def enginePanics : GRpcEngine :=
  { funcMap := [("a/b", Prog.panic "bang")], handlers := [Recover, Prog.panic "boom"],
    appName := "app" }

/-- An engine with `Recover` as its only middleware and a route `a/b` whose
handler panics. -/
def engineRecoverPanic : GRpcEngine :=
  { funcMap := [("a/b", Prog.panic "boom")], handlers := [Recover], appName := "app" }

/-- The state in which `Recover` runs as handler 0 of the chain of
`engineRecoverPanic`. -/
def stRecover : St :=
  { c := { engineRecoverPanic.newContext GRpcContext.zero 0 "a/b" reqAB with index := 0 },
    trace := [Event.start 0] }

/-- The request `CallEndApi` builds for `hello/world` with the one parameter
`name`. -/
def helloReq (name : GoString) : Request :=
  { Controller := "hello", Action := "world", Params := [("name", name)], Header := [],
    Files := [] }

/-- The engine `newGRpcEngine` builds. -/
def exampleEngine : GRpcEngine :=
  { funcMap := [("hello/world", sayHi)], handlers := [Recover, Logger], appName := "MyAppName" }

/-- The envelope `sayHi` hands to `json.Marshal`: `SResponse` with `Success`
true and `PayLoad` "hi " + name. -/
def hiEnvelope (name : GoString) : MarshalArg :=
  MarshalArg.s { Success := true, PayLoad := GoVal.str (GoString.ofString "hi " ++ name) }

/-- An engine whose only middleware panics, with a route `a/b`. -/
def enginePanicFirst : GRpcEngine :=
  { funcMap := [("a/b", Prog.ret)], handlers := [Prog.panic "boom"], appName := "app" }

/-- An engine with 127 global handlers and a route `a/b`: a chain of 128. -/
def engine128 : GRpcEngine :=
  { funcMap := [("a/b", Prog.ret)], handlers := List.replicate 127 Prog.ret, appName := "app" }

/-- An engine with one middleware that returns at once, and a route `a/b`. -/
def engineTwo : GRpcEngine :=
  { funcMap := [("a/b", Prog.ret)], handlers := [Prog.ret], appName := "app" }

/-- The state at the test of the loop of `Next` when `DoRequest` on `engineTwo`
has just entered it. -/
def stTwo : St :=
  { c := { engineTwo.newContext GRpcContext.zero 0 "a/b" reqAB with index := 0 }, trace := [] }

/-- A request whose parameter `k` is present and empty, with a header `k`. -/
def reqEmptyParam : Request :=
  { Controller := "a", Action := "b", Params := GoMap.ofStrings [("k", ""), ("n", "42"), ("bad", "4x2")],
    Header := GoMap.ofStrings [("k", "h"), ("only", "7")], Files := [] }

/-- A request whose parameter `k` is present and empty, without any header. -/
def reqEmptyOnly : Request :=
  { Controller := "a", Action := "b", Params := GoMap.ofStrings [("k", "")], Header := [], Files := [] }

/-- A route handler that answers with the bytes `one`. -/
def handlerOne : HandleFunc := Prog.call (Op.setData "one".data) Prog.ret

/-- A route handler that answers with the bytes `two`. -/
def handlerTwo : HandleFunc := Prog.call (Op.setData "two".data) Prog.ret

/-- The engine with `handlerOne` registered for controller `a/b`, action `c`. -/
def engineSlash : GRpcEngine :=
  { funcMap := [("a/b/c", handlerOne)], handlers := [], appName := "app" }

/-- A request for controller `a`, action `b/c`. -/
def reqSlash : Request :=
  { Controller := "a", Action := "b/c", Params := [], Header := [], Files := [] }

/-- A request for the route `hello/moon`. -/
def reqMoon : Request :=
  { Controller := "hello", Action := "moon", Params := [], Header := [], Files := [] }


/-- A middleware that runs the rest of the chain and returns:
`func(c) { c.Next() }`. -/
def wrapNext : HandleFunc := Prog.call Op.Next Prog.ret

/-- A middleware that runs the rest of the chain and then answers with what
`c.IsAbort()` tells it:
`func(c) { c.Next(); if c.IsAbort() { aborted } else { running } }`. -/
def probeAbort : HandleFunc :=
  Prog.call Op.Next (Prog.read (fun v =>
    if v.IsAbort then Prog.call (Op.setData "aborted".data) Prog.ret
    else Prog.call (Op.setData "running".data) Prog.ret))

/-- An engine with 32 middlewares, each of which calls `Next()` once, the first
being `probeAbort`, and a route `a/b`: a chain of 33. -/
def engineProbe : GRpcEngine :=
  { funcMap := [("a/b", Prog.ret)], handlers := probeAbort :: List.replicate 31 wrapNext,
    appName := "app" }

/-- The state in which `DoRequest` on `enginePanicFirst` calls `Next()`: the
chain `[panic, return]` with the cursor at -1. -/
def stPanicFirst : St := St.init (enginePanicFirst.newContext GRpcContext.zero 0 "a/b" reqAB)

/-- An engine with the middleware `wrapNext` and a route `a/b` whose handler
aborts and then panics. -/
def engineAbortPanic : GRpcEngine :=
  { funcMap := [("a/b", Prog.call Op.Abort (Prog.panic "boom"))], handlers := [wrapNext],
    appName := "app" }

/-- The state in which `DoRequest` on `engineAbortPanic` calls `Next()`. -/
def stAbortPanic : St := St.init (engineAbortPanic.newContext GRpcContext.zero 0 "a/b" reqAB)

/-- The state in which `DoRequest` on the example engine calls `Next()` for the
request `hello/world` with the name `bob`: the chain `[Recover, Logger, sayHi]`
with the cursor at -1. -/
def stHello : St :=
  St.init (exampleEngine.newContext GRpcContext.zero 0 "hello/world" (helloReq (GoString.ofString "bob")))

/-- A middleware that aborts and then calls `Next()`:
`func(c) { c.Abort(); c.Next() }`. -/
def abortThenNext : HandleFunc := Prog.call Op.Abort (Prog.call Op.Next Prog.ret)

/-- The example engine with `abortThenNext` as a third middleware. -/
def engineAbortNext : GRpcEngine :=
  { funcMap := [("hello/world", sayHi)], handlers := [Recover, Logger, abortThenNext],
    appName := "MyAppName" }

/-- The state in which `DoRequest` on `engineAbortNext` calls `Next()`. -/
def stAbortNext : St :=
  St.init (engineAbortNext.newContext GRpcContext.zero 0 "hello/world" (helloReq (GoString.ofString "bob")))

/-- An engine with `sayHi` as its only middleware and a route `hello/world`
answering `one`. -/
def engineGreet : GRpcEngine :=
  { funcMap := [("hello/world", handlerOne)], handlers := [sayHi], appName := "app" }

/-- The state at the test of the loop of `Next` when `DoRequest` on
`engineGreet` has just entered it. -/
def stGreet : St :=
  { c := { engineGreet.newContext GRpcContext.zero 0 "hello/world" (helloReq (GoString.ofString "bob")) with
      index := 0 },
    trace := [] }
/-! ## Properties -/

/-! ## Fuel -/

/-- More fuel in `c.Next()` does not change a handler body that ended. -/
theorem runProg_fuel (J : JsonApi) (next1 next2 : St → Outcome × St)
    (h : ∀ st, (next1 st).1 ≠ Outcome.outOfFuel → next2 st = next1 st) (p : Prog) :
    ∀ st, (runProg J next1 p st).1 ≠ Outcome.outOfFuel →
      runProg J next2 p st = runProg J next1 p st := by
  induction p with
  | ret => intro st _; rfl
  | panic v => intro st _; rfl
  | call op k ih =>
    intro st hne
    have hop : (doOp J next1 op st).1 ≠ Outcome.outOfFuel →
        doOp J next2 op st = doOp J next1 op st := by
      cases op <;> first | exact h st | (intro _; rfl)
    simp only [runProg] at hne ⊢
    rcases hd : doOp J next1 op st with ⟨o, st1⟩
    rw [hd] at hne hop
    cases o with
    | returned =>
      rw [hop (by simp)]
      exact ih st1 hne
    | panicked v => rw [hop (by simp)]
    | outOfFuel => exact absurd rfl hne
  | read k ih =>
    intro st hne
    simp only [runProg] at hne ⊢
    exact ih _ st hne
  | recover body k ihb ihk =>
    intro st hne
    simp only [runProg] at hne ⊢
    rcases hd : runProg J next1 body st with ⟨o, st1⟩
    rw [hd] at hne
    have hb := ihb st
    rw [hd] at hb
    cases o with
    | returned =>
      rw [hb (by simp)]
      exact ihk none st1 hne
    | panicked v =>
      rw [hb (by simp)]
      exact ihk (some v) st1 hne
    | outOfFuel => exact absurd rfl hne

/-- A loop of `Next` that ended ends the same way on more fuel. -/
theorem NextLoop_fuel_succ (J : JsonApi) (s : Int) (fuel : Nat) :
    ∀ st, (NextLoop J s fuel st).1 ≠ Outcome.outOfFuel →
      NextLoop J s (fuel + 1) st = NextLoop J s fuel st := by
  induction fuel with
  | zero =>
    intro st hne
    by_cases hlt : st.c.index < s
    · simp [NextLoop, hlt] at hne
    · simp [NextLoop, hlt]
  | succ n ih =>
    intro st hne
    by_cases hlt : st.c.index < s
    · rw [NextLoop] at hne
      rw [NextLoop, NextLoop]
      simp only [hlt, if_true] at hne ⊢
      cases hh : handlerAt st.c.handlers st.c.index with
      | none => rfl
      | some hd =>
        rw [hh] at hne
        simp only at hne ⊢
        have hcb := runProg_fuel J (fun st1 => NextLoop J s n st1.incIndex)
          (fun st1 => NextLoop J s (n + 1) st1.incIndex) (fun st1 hn => ih st1.incIndex hn) hd
          (st.emit (Event.start st.c.index.toNat))
        rcases hr : runProg J (fun st1 => NextLoop J s n st1.incIndex) hd
          (st.emit (Event.start st.c.index.toNat)) with ⟨o, st1⟩
        rw [hr] at hne hcb
        cases o with
        | returned =>
          rw [hcb (by simp)]
          exact ih _ hne
        | panicked v => rw [hcb (by simp)]
        | outOfFuel => exact absurd rfl hne
    · simp [NextLoop, hlt]

theorem NextLoop_fuel_add (J : JsonApi) (s : Int) (fuel k : Nat) (st : St)
    (h : (NextLoop J s fuel st).1 ≠ Outcome.outOfFuel) :
    NextLoop J s (fuel + k) st = NextLoop J s fuel st := by
  induction k with
  | zero => rfl
  | succ k ih =>
    rw [← Nat.add_assoc, NextLoop_fuel_succ J s (fuel + k) st (by rw [ih]; exact h), ih]

theorem Next_fuel_add (J : JsonApi) (fuel k : Nat) (st : St)
    (h : (Next J fuel st).1 ≠ Outcome.outOfFuel) :
    Next J (fuel + k) st = Next J fuel st :=
  NextLoop_fuel_add J _ fuel k st.incIndex h

theorem DoResult.ofRun_outcome (r : Outcome × St) : (DoResult.ofRun r).outcome = r.1 := by
  rcases r with ⟨o, st⟩
  cases o <;> rfl

theorem DoResult.ofRun_trace (r : Outcome × St) : (DoResult.ofRun r).trace = r.2.trace := by
  rcases r with ⟨o, st⟩
  cases o <;> rfl

/-- A call of `DoRequest` that ended is the same on any larger fuel. -/
theorem DoRequest_fuel_add (J : JsonApi) (fuel k : Nat) (e : GRpcEngine) (pooled : GRpcContext)
    (ctx : Nat) (req : Request)
    (h : (e.DoRequest J fuel pooled ctx req).outcome ≠ Outcome.outOfFuel) :
    e.DoRequest J (fuel + k) pooled ctx req = e.DoRequest J fuel pooled ctx req := by
  unfold GRpcEngine.DoRequest at h ⊢
  simp only at h ⊢
  split
  · rfl
  · rename_i f hf
    rw [hf] at h
    simp only [DoResult.ofRun_outcome] at h
    rw [Next_fuel_add J fuel k _ h]

/-! ## The record only grows -/

theorem St.Ext.refl (st : St) : St.Ext st st := ⟨⟨[], by simp⟩, rfl⟩

theorem St.Ext.trans {a b c : St} (h1 : St.Ext a b) (h2 : St.Ext b c) : St.Ext a c := by
  obtain ⟨⟨e1, h1t⟩, h1h⟩ := h1
  obtain ⟨⟨e2, h2t⟩, h2h⟩ := h2
  exact ⟨⟨e1 ++ e2, by rw [h2t, h1t, List.append_assoc]⟩, by rw [h2h, h1h]⟩

theorem St.Ext.emit (st : St) (e : Event) : St.Ext st (st.emit e) := ⟨⟨[e], rfl⟩, rfl⟩

theorem St.Ext.incIndex (st : St) : St.Ext st st.incIndex := ⟨⟨[], by simp [St.incIndex]⟩, rfl⟩

theorem doOp_ext (J : JsonApi) (next : St → Outcome × St)
    (hn : ∀ st, St.Ext st (next st).2) (op : Op) (st : St) :
    St.Ext st (doOp J next op st).2 := by
  cases op with
  | Next => exact hn st
  | Abort => exact ⟨⟨[Event.abort], rfl⟩, rfl⟩
  | Set key val => exact ⟨⟨[], by simp [doOp]⟩, rfl⟩
  | SuccessResponse v => exact ⟨⟨[], by simp [doOp]⟩, rfl⟩
  | ErrResponse code err =>
    cases err with
    | none => exact St.Ext.emit st _
    | some msg => exact ⟨⟨[], by simp [doOp, GRpcContext.ErrResponse]⟩, rfl⟩
  | setData data => exact ⟨⟨[], by simp [doOp]⟩, rfl⟩
  | setKeys keys => exact ⟨⟨[], by simp [doOp]⟩, rfl⟩
  | log entry => exact St.Ext.emit st _

theorem runProg_ext (J : JsonApi) (next : St → Outcome × St)
    (hn : ∀ st, St.Ext st (next st).2) (p : Prog) :
    ∀ st, St.Ext st (runProg J next p st).2 := by
  induction p with
  | ret => intro st; exact St.Ext.refl st
  | panic v => intro st; exact St.Ext.emit st _
  | call op k ih =>
    intro st
    have hop := doOp_ext J next hn op st
    simp only [runProg]
    rcases hd : doOp J next op st with ⟨o, st1⟩
    rw [hd] at hop
    cases o with
    | returned => exact hop.trans (ih st1)
    | panicked v => exact hop
    | outOfFuel => exact hop
  | read k ih =>
    intro st
    simp only [runProg]
    exact ih _ st
  | recover body k ihb ihk =>
    intro st
    have hb := ihb st
    simp only [runProg]
    rcases hd : runProg J next body st with ⟨o, st1⟩
    rw [hd] at hb
    cases o with
    | returned => exact hb.trans (ihk none st1)
    | panicked v => exact hb.trans (ihk (some v) st1)
    | outOfFuel => exact hb

theorem NextLoop_ext (J : JsonApi) (s : Int) (fuel : Nat) :
    ∀ st, St.Ext st (NextLoop J s fuel st).2 := by
  induction fuel with
  | zero =>
    intro st
    by_cases hlt : st.c.index < s <;> simp [NextLoop, hlt, St.Ext.refl]
  | succ n ih =>
    intro st
    by_cases hlt : st.c.index < s
    · rw [NextLoop]
      simp only [hlt, if_true]
      cases hh : handlerAt st.c.handlers st.c.index with
      | none => exact St.Ext.emit st _
      | some hd =>
        simp only
        have hr := runProg_ext J (fun st1 => NextLoop J s n st1.incIndex)
          (fun st1 => (St.Ext.incIndex st1).trans (ih st1.incIndex)) hd
          (st.emit (Event.start st.c.index.toNat))
        rcases hrun : runProg J (fun st1 => NextLoop J s n st1.incIndex) hd
          (st.emit (Event.start st.c.index.toNat)) with ⟨o, st1⟩
        rw [hrun] at hr
        have h1 : St.Ext st st1 := (St.Ext.emit st _).trans hr
        cases o with
        | returned =>
          exact h1.trans (((St.Ext.emit st1 _).trans (St.Ext.incIndex _)).trans (ih _))
        | panicked v => exact h1
        | outOfFuel => exact h1
    · simp [NextLoop, hlt, St.Ext.refl]

theorem clean_append (t evs : List Event) : clean (t ++ evs) = (clean t && clean evs) := by
  simp [clean, List.all_append]

theorem St.Ext.unclean {st st1 : St} (h : St.Ext st st1) (hc : clean st.trace = false) :
    clean st1.trace = false := by
  obtain ⟨⟨evs, ht⟩, _⟩ := h
  rw [ht, clean_append, hc]
  rfl

/-! ## The reference codec reads back what it writes -/

theorem hexVal_hexDigit (n : Nat) (h : n < 16) : hexVal (hexDigit n) = some n := by
  revert n
  decide

theorem parseStringBody_esc (fuel : Nat) (d e : Char) (tail acc : List Char)
    (hd : unescape d = some e) (hu : d ≠ 'u') :
    parseStringBody (fuel + 1) (backslash :: d :: tail) acc
      = parseStringBody fuel tail (e :: acc) := by
  have hb : backslash ≠ dquote := by decide
  simp [parseStringBody, hd, hu, hb]

theorem parseStringBody_hex (fuel : Nat) (c : Char) (tail acc : List Char) (h : c.toNat < 256) :
    parseStringBody (fuel + 1)
      (backslash :: 'u' :: '0' :: '0' :: hexDigit (c.toNat / 16) :: hexDigit (c.toNat % 16) :: tail)
      acc = parseStringBody fuel tail (c :: acc) := by
  have hb : backslash ≠ dquote := by decide
  have h0 : hexVal '0' = some 0 := by decide
  have hc : Char.ofNat (c.toNat / 16 * 16 + c.toNat % 16) = c := by
    have : c.toNat / 16 * 16 + c.toNat % 16 = c.toNat := by omega
    rw [this]
    exact Char.ofNat_toNat c
  simp [parseStringBody, hb, parseHex4, h0, hexVal_hexDigit (c.toNat / 16) (by omega),
    hexVal_hexDigit (c.toNat % 16) (by omega), hc]

theorem parseStringBody_hex4 (fuel : Nat) (h1 h2 h3 h4 : Char) (a b e f : Nat)
    (tail acc : List Char) (ha : hexVal h1 = some a) (hb : hexVal h2 = some b)
    (he : hexVal h3 = some e) (hf : hexVal h4 = some f) :
    parseStringBody (fuel + 1) (backslash :: 'u' :: h1 :: h2 :: h3 :: h4 :: tail) acc
      = parseStringBody fuel tail (Char.ofNat (((a * 16 + b) * 16 + e) * 16 + f) :: acc) := by
  have hq : backslash ≠ dquote := by decide
  simp [parseStringBody, hq, parseHex4, ha, hb, he, hf]

theorem parseStringBody_escape (fuel : Nat) (u : GoUnit) (tail acc : List Char) :
    parseStringBody (fuel + 1) (escapeUnit u ++ tail) acc
      = parseStringBody fuel tail (u.toChar :: acc) := by
  cases u with
  | byte b =>
    exact parseStringBody_hex4 fuel 'f' 'f' 'f' 'd' 15 15 15 13 tail acc (by decide) (by decide)
      (by decide) (by decide)
  | char c =>
    simp only [escapeUnit, GoUnit.toChar]
    by_cases h1 : c = dquote ∨ c = backslash
    · rw [if_pos h1]
      rcases h1 with h | h
      · subst h
        exact parseStringBody_esc fuel dquote dquote tail acc (by decide) (by decide)
      · subst h
        exact parseStringBody_esc fuel backslash backslash tail acc (by decide) (by decide)
    · rw [if_neg h1]
      by_cases h2 : c = Char.ofNat 10
      · rw [if_pos h2]
        subst h2
        exact parseStringBody_esc fuel 'n' _ tail acc (by decide) (by decide)
      · rw [if_neg h2]
        by_cases h3 : c = Char.ofNat 13
        · rw [if_pos h3]
          subst h3
          exact parseStringBody_esc fuel 'r' _ tail acc (by decide) (by decide)
        · rw [if_neg h3]
          by_cases h4 : c = Char.ofNat 9
          · rw [if_pos h4]
            subst h4
            exact parseStringBody_esc fuel 't' _ tail acc (by decide) (by decide)
          · rw [if_neg h4]
            by_cases h5 : c.toNat < 32 ∨ c = '<' ∨ c = '>' ∨ c = '&'
            · rw [if_pos h5]
              refine parseStringBody_hex fuel c tail acc ?_
              rcases h5 with h | h | h | h
              · omega
              · subst h
                decide
              · subst h
                decide
              · subst h
                decide
            · rw [if_neg h5]
              by_cases h6 : c = Char.ofNat 0x2028
              · rw [if_pos h6]
                subst h6
                exact parseStringBody_hex4 fuel '2' '0' '2' '8' 2 0 2 8 tail acc (by decide)
                  (by decide) (by decide) (by decide)
              · rw [if_neg h6]
                by_cases h7 : c = Char.ofNat 0x2029
                · rw [if_pos h7]
                  subst h7
                  exact parseStringBody_hex4 fuel '2' '0' '2' '9' 2 0 2 9 tail acc (by decide)
                    (by decide) (by decide) (by decide)
                · rw [if_neg h7]
                  have hq : c ≠ dquote := fun h => h1 (Or.inl h)
                  have hb : c ≠ backslash := fun h => h1 (Or.inr h)
                  have hl : ¬ c.toNat < 32 := fun h => h5 (Or.inl h)
                  simp [parseStringBody, hq, hb, hl]

theorem parseStringBody_render (s : GoString) :
    ∀ (fuel : Nat) (tail acc : List Char), s.length + 1 ≤ fuel →
      parseStringBody fuel (s.flatMap escapeUnit ++ dquote :: tail) acc
        = some (String.mk (acc.reverse ++ s.map GoUnit.toChar), tail) := by
  induction s with
  | nil =>
    intro fuel tail acc hf
    obtain ⟨f, rfl⟩ : ∃ f, fuel = f + 1 := ⟨fuel - 1, by simp at hf; omega⟩
    simp [parseStringBody]
  | cons c cs ih =>
    intro fuel tail acc hf
    obtain ⟨f, rfl⟩ : ∃ f, fuel = f + 1 := ⟨fuel - 1, by simp at hf; omega⟩
    rw [List.flatMap_cons, List.append_assoc, parseStringBody_escape,
      ih f tail (c.toChar :: acc) (by simp at hf ⊢; omega)]
    simp

theorem length_le_flatMap_escape (s : GoString) : s.length ≤ (s.flatMap escapeUnit).length := by
  induction s with
  | nil => simp
  | cons c cs ih =>
    have h1 : 1 ≤ (escapeUnit c).length := by
      cases c with
      | byte b => simp [escapeUnit]
      | char c =>
        simp only [escapeUnit]
        split_ifs <;> simp
    simp only [List.flatMap_cons, List.length_append, List.length_cons]
    omega

theorem GoString.toValid_ofString (s : String) : (GoString.ofString s).toValid = s := by
  simp [GoString.toValid, GoString.ofString, GoUnit.toChar, Function.comp_def]

theorem GoString.ofString_toValid (s : GoString) (h : s.valid = true) :
    GoString.ofString s.toValid = s := by
  induction s with
  | nil => rfl
  | cons u us ih =>
    simp only [GoString.valid, List.all_cons, Bool.and_eq_true] at h
    have ih2 := ih h.2
    cases u with
    | byte b => simp [GoUnit.isChar] at h
    | char c =>
      simp only [GoString.ofString, GoString.toValid, List.map_cons, GoUnit.toChar] at ih2 ⊢
      rw [ih2]

theorem GoString.valid_ofString (s : String) : (GoString.ofString s).valid = true := by
  simp [GoString.valid, GoString.ofString, GoUnit.isChar]

theorem GoString.valid_append (s t : GoString) (hs : s.valid = true) (ht : t.valid = true) :
    GoString.valid (s ++ t) = true := by
  simp only [GoString.valid, List.all_append, Bool.and_eq_true] at hs ht ⊢
  exact ⟨hs, ht⟩

theorem parseValue_string (f : Nat) (t : List Char) :
    parseValue (f + 1) (dquote :: t)
      = (parseStringBody t.length t []).map (fun p => (Json.str p.1, p.2)) := rfl

theorem Sep.skipWs {tail : List Char} (h : Sep tail) : skipWs tail = tail := by
  rcases h with h | ⟨r, h | h⟩
  · subst h
    rfl
  · subst h
    rfl
  · subst h
    rfl

/-- A string is read back as the text a reader of UTF-8 sees in it. -/
theorem renderString_reads (s : GoString) : Reads (renderString s) (Json.str s.toValid) := by
  refine ⟨by simp [renderString], fun f tail hf _ => ?_⟩
  obtain ⟨g, rfl⟩ : ∃ g, f = g + 1 := ⟨f - 1, by simp [renderString] at hf; omega⟩
  have ht : renderString s ++ tail = dquote :: (s.flatMap escapeUnit ++ dquote :: tail) := by
    simp [renderString]
  rw [ht, parseValue_string, parseStringBody_render s _ tail [] (by
    have := length_le_flatMap_escape s
    simp only [List.length_append, List.length_cons]
    omega)]
  simp [GoString.toValid]

theorem null_reads : Reads "null".data Json.null := by
  refine ⟨by decide, fun f tail hf _ => ?_⟩
  obtain ⟨g, rfl⟩ : ∃ g, f = g + 1 := ⟨f - 1, by
    have : "null".data.length = 4 := rfl
    omega⟩
  rfl

theorem renderBool_reads (b : Bool) : Reads (renderBool b) (Json.bool b) := by
  cases b with
  | true =>
    refine ⟨by decide, fun f tail hf _ => ?_⟩
    obtain ⟨g, rfl⟩ : ∃ g, f = g + 1 := ⟨f - 1, by
      have : (renderBool true).length = 4 := rfl
      omega⟩
    rfl
  | false =>
    refine ⟨by decide, fun f tail hf _ => ?_⟩
    obtain ⟨g, rfl⟩ : ∃ g, f = g + 1 := ⟨f - 1, by
      have : (renderBool false).length = 5 := rfl
      omega⟩
    rfl

theorem digitChar_toNat (d : Nat) (h : d < 10) : (Nat.digitChar d).toNat = 48 + d := by
  revert d
  decide

/-- The digits `Nat.toDigits` writes: a non-empty run of decimal digits whose
value is the number. -/
theorem toDigitsCore_spec (fuel : Nat) :
    ∀ (n : Nat) (ds : List Char), n < fuel →
      ∃ L, Nat.toDigitsCore 10 fuel n ds = L ++ ds ∧ L ≠ [] ∧ allDigits L ∧
        ∀ m, digitsFold m L = m * 10 ^ L.length + n := by
  induction fuel with
  | zero => intro n ds h; omega
  | succ f ih =>
    intro n ds hn
    have hd : (Nat.digitChar (n % 10)).toNat = 48 + n % 10 :=
      digitChar_toNat _ (Nat.mod_lt _ (by decide))
    by_cases h0 : n / 10 = 0
    · refine ⟨[Nat.digitChar (n % 10)], ?_, by simp, ?_, ?_⟩
      · simp [Nat.toDigitsCore, h0]
      · intro c hc
        simp only [List.mem_singleton] at hc
        subst hc
        rw [hd]
        omega
      · intro m
        simp only [digitsFold, List.foldl_cons, List.foldl_nil, hd, List.length_singleton,
          pow_one]
        omega
    · obtain ⟨L, hL, hne, hall, hval⟩ := ih (n / 10) (Nat.digitChar (n % 10) :: ds) (by omega)
      refine ⟨L ++ [Nat.digitChar (n % 10)], ?_, by simp, ?_, ?_⟩
      · simp [Nat.toDigitsCore, h0, hL]
      · intro c hc
        rcases List.mem_append.mp hc with hc | hc
        · exact hall c hc
        · simp only [List.mem_singleton] at hc
          subst hc
          rw [hd]
          omega
      · intro m
        have hv := hval m
        simp only [digitsFold] at hv ⊢
        rw [List.foldl_append, hv]
        simp only [List.foldl_cons, List.foldl_nil, hd, List.length_append,
          List.length_singleton, pow_succ]
        have : n / 10 * 10 + n % 10 = n := by omega
        calc (m * 10 ^ L.length + n / 10) * 10 + (48 + n % 10 - 48)
            = m * 10 ^ L.length * 10 + (n / 10 * 10 + n % 10) := by
              rw [Nat.add_sub_cancel_left]
              ring
          _ = m * 10 ^ L.length * 10 + n := by rw [this]
          _ = m * (10 ^ L.length * 10) + n := by ring

theorem toDigits_spec (n : Nat) :
    ∃ L, Nat.toDigits 10 n = L ∧ L ≠ [] ∧ allDigits L ∧ digitsFold 0 L = n := by
  obtain ⟨L, hL, hne, hall, hval⟩ := toDigitsCore_spec (n + 1) n [] (by omega)
  refine ⟨L, by simp [Nat.toDigits, hL], hne, hall, ?_⟩
  rw [hval 0]
  simp

theorem parseDigits_run (L : List Char) (hall : allDigits L) (tail : List Char) (hs : Sep tail) :
    ∀ m k, parseDigits (L ++ tail) m k = (digitsFold m L, k + L.length, tail) := by
  induction L with
  | nil =>
    intro m k
    rcases hs with h | ⟨r, h | h⟩
    · subst h
      rfl
    · subst h
      rfl
    · subst h
      rfl
  | cons c cs ih =>
    intro m k
    have hc := hall c (List.mem_cons_self _ _)
    have ih2 := ih (fun x hx => hall x (List.mem_cons_of_mem _ hx)) (m * 10 + (c.toNat - 48))
      (k + 1)
    have hstep : parseDigits (c :: cs ++ tail) m k
        = parseDigits (cs ++ tail) (m * 10 + (c.toNat - 48)) (k + 1) := by
      simp only [List.cons_append, parseDigits, hc, and_self, if_true]
      rfl
    rw [hstep, ih2]
    simp only [digitsFold, List.foldl_cons, List.length_cons, Prod.mk.injEq, true_and, and_true]
    omega

theorem parseInt_digits (L : List Char) (hne : L ≠ []) (hall : allDigits L) (tail : List Char)
    (hs : Sep tail) : parseInt (L ++ tail) = some (((digitsFold 0 L : Nat) : Int), tail) := by
  obtain ⟨c, cs, rfl⟩ : ∃ c cs, L = c :: cs := by
    cases L with
    | nil => exact absurd rfl hne
    | cons c cs => exact ⟨c, cs, rfl⟩
  have hc := hall c (List.mem_cons_self _ _)
  have hrun := parseDigits_run (c :: cs) hall tail hs 0 0
  unfold parseInt
  split
  · rename_i rest heq
    simp only [List.cons_append, List.cons.injEq] at heq
    have : c = '-' := heq.1
    subst this
    exact absurd hc (by decide)
  · rw [hrun]
    simp

theorem parseInt_minus (L : List Char) (hne : L ≠ []) (hall : allDigits L) (tail : List Char)
    (hs : Sep tail) : parseInt ('-' :: L ++ tail) = some (-((digitsFold 0 L : Nat) : Int), tail) := by
  obtain ⟨c, cs, rfl⟩ : ∃ c cs, L = c :: cs := by
    cases L with
    | nil => exact absurd rfl hne
    | cons c cs => exact ⟨c, cs, rfl⟩
  have hrun := parseDigits_run (c :: cs) hall tail hs 0 0
  simp only [parseInt, List.cons_append] at hrun ⊢
  rw [hrun]
  simp

/-- A value that starts with a digit or a minus sign is read as an integer. -/
theorem parseValue_int (g : Nat) (c : Char) (rest : List Char)
    (hc : (48 ≤ c.toNat ∧ c.toNat ≤ 57) ∨ c = '-') :
    parseValue (g + 1) (c :: rest) = (parseInt (c :: rest)).map (fun p => (Json.num p.1, p.2)) := by
  have hw : isWs c = false := by
    rcases hc with h | h
    · simp only [isWs, Bool.or_eq_false_iff, decide_eq_false_iff_not]
      omega
    · subst h
      decide
  have h1 : c ≠ 'n' := by
    rcases hc with h | h
    · intro e
      subst e
      exact absurd h (by decide)
    · subst h
      decide
  have h2 : c ≠ 't' := by
    rcases hc with h | h
    · intro e
      subst e
      exact absurd h (by decide)
    · subst h
      decide
  have h3 : c ≠ 'f' := by
    rcases hc with h | h
    · intro e
      subst e
      exact absurd h (by decide)
    · subst h
      decide
  have h4 : c ≠ dquote := by
    rcases hc with h | h
    · intro e
      subst e
      exact absurd h (by decide)
    · subst h
      decide
  have h5 : c ≠ '[' := by
    rcases hc with h | h
    · intro e
      subst e
      exact absurd h (by decide)
    · subst h
      decide
  have h6 : c ≠ lbrace := by
    rcases hc with h | h
    · intro e
      subst e
      exact absurd h (by decide)
    · subst h
      decide
  simp [parseValue, skipWs, hw, h1, h2, h3, h4, h5, h6]

theorem renderInt_reads (n : Int) : Reads (renderInt n) (Json.num n) := by
  cases n with
  | ofNat k =>
    obtain ⟨L, hL, hne, hall, hval⟩ := toDigits_spec k
    have hr : renderInt (Int.ofNat k) = L := hL
    rw [hr]
    refine ⟨hne, fun f tail hf hs => ?_⟩
    obtain ⟨c, cs, rfl⟩ : ∃ c cs, L = c :: cs := by
      cases L with
      | nil => exact absurd rfl hne
      | cons c cs => exact ⟨c, cs, rfl⟩
    obtain ⟨g, rfl⟩ : ∃ g, f = g + 1 := ⟨f - 1, by simp at hf; omega⟩
    have hp := parseInt_digits (c :: cs) hne hall tail hs
    rw [List.cons_append] at hp ⊢
    rw [parseValue_int g c _ (Or.inl (hall c (List.mem_cons_self _ _))), hp, hval]
    rfl
  | negSucc k =>
    obtain ⟨L, hL, hne, hall, hval⟩ := toDigits_spec (k + 1)
    have hr : renderInt (Int.negSucc k) = '-' :: L := by
      simp [renderInt, hL]
    rw [hr]
    refine ⟨by simp, fun f tail hf hs => ?_⟩
    obtain ⟨g, rfl⟩ : ∃ g, f = g + 1 := ⟨f - 1, by simp at hf; omega⟩
    have hp := parseInt_minus L hne hall tail hs
    rw [List.cons_append] at hp ⊢
    rw [parseValue_int g '-' _ (Or.inr rfl), hp, hval]
    rfl

/-- One member of an object, followed by a comma or the closing brace. -/
theorem parseMembers_step (g : Nat) (k : String) (t : List Char) (d : Json) (c3 : Char)
    (t4 : List Char) (acc : List (String × Json)) (hr : Reads t d) (hg : t.length ≤ g)
    (hc3 : c3 = ',' ∨ c3 = rbrace) :
    parseMembers (g + 1) (renderString (GoString.ofString k) ++ ':' :: (t ++ c3 :: t4)) acc
      = if c3 = ',' then parseMembers g t4 ((k, d) :: acc)
        else some (Json.obj ((k, d) :: acc).reverse, t4) := by
  have hsep : Sep (c3 :: t4) := by
    rcases hc3 with h | h
    · exact Or.inr ⟨t4, Or.inl (by rw [h])⟩
    · exact Or.inr ⟨t4, Or.inr (by rw [h])⟩
  have hv := hr.2 g (c3 :: t4) hg hsep
  have hsk := hsep.skipWs
  have htxt : renderString (GoString.ofString k) ++ ':' :: (t ++ c3 :: t4)
      = dquote :: ((GoString.ofString k).flatMap escapeUnit
          ++ dquote :: (':' :: (t ++ c3 :: t4))) := by
    simp [renderString]
  have hbody := parseStringBody_render (GoString.ofString k)
    ((GoString.ofString k).flatMap escapeUnit ++ dquote :: (':' :: (t ++ c3 :: t4))).length
    (':' :: (t ++ c3 :: t4)) [] (by
      have := length_le_flatMap_escape (GoString.ofString k)
      simp only [List.length_append, List.length_cons]
      omega)
  have hk : String.mk (([] : List Char).reverse ++ (GoString.ofString k).map GoUnit.toChar) = k := by
    have := GoString.toValid_ofString k
    simpa [GoString.toValid] using this
  rw [hk] at hbody
  have hq : isWs dquote = false := by decide
  have hcolon : isWs ':' = false := by decide
  rw [htxt]
  simp only [parseMembers, skipWs, hq, hcolon, Bool.false_eq_true, if_false, if_true, hbody, hv,
    hsk]
  have hwc : isWs ',' = false := by decide
  have hwr : isWs rbrace = false := by decide
  rcases hc3 with h | h
  · subst h
    simp [hwc]
  · subst h
    have : rbrace ≠ ',' := by decide
    simp [this, hwr]

/-- The members of a non-empty object, each read back by its own text, are read
back in order up to the closing brace. -/
theorem joinMembers_reads (l : List (String × List Char × Json)) :
    (∀ x ∈ l, Reads x.2.1 x.2.2) → l ≠ [] →
    ∀ f tail acc, (joinMembers (l.map (fun x => (x.1, x.2.1)))).length ≤ f →
      parseMembers f (joinMembers (l.map (fun x => (x.1, x.2.1))) ++ rbrace :: tail) acc
        = some (Json.obj (acc.reverse ++ l.map (fun x => (x.1, x.2.2))), tail) := by
  induction l with
  | nil => intro _ h; exact absurd rfl h
  | cons x rest ih =>
    intro hall _ f tail acc hf
    obtain ⟨k, t, d⟩ := x
    have hx : Reads t d := hall (k, t, d) (List.mem_cons_self _ _)
    cases rest with
    | nil =>
      simp only [List.map_cons, List.map_nil, joinMembers] at hf ⊢
      obtain ⟨g, rfl⟩ : ∃ g, f = g + 1 := ⟨f - 1, by
        simp [renderString] at hf
        omega⟩
      rw [List.append_assoc, List.cons_append,
        parseMembers_step g k t d rbrace tail acc hx (by
          simp [renderString] at hf
          omega) (Or.inr rfl)]
      have : rbrace ≠ ',' := by decide
      simp [this]
    | cons y r =>
      have ih2 := ih (fun z hz => hall z (List.mem_cons_of_mem _ hz)) (by simp)
      simp only [List.map_cons, joinMembers] at hf ih2 ⊢
      obtain ⟨g, rfl⟩ : ∃ g, f = g + 1 := ⟨f - 1, by
        simp [renderString] at hf
        omega⟩
      have e : renderString (GoString.ofString k) ++ ':' :: t ++
            ',' :: joinMembers ((y.1, y.2.1) :: List.map (fun x => (x.1, x.2.1)) r) ++
            rbrace :: tail
          = renderString (GoString.ofString k) ++ ':' :: (t ++ ',' ::
            (joinMembers ((y.1, y.2.1) :: List.map (fun x => (x.1, x.2.1)) r) ++
              rbrace :: tail)) := by
        simp
      rw [e, parseMembers_step g k t d ',' _ acc hx (by
          simp [renderString] at hf
          omega) (Or.inl rfl), if_pos rfl,
        ih2 g tail ((k, d) :: acc) (by
          simp [renderString] at hf
          omega)]
      simp

/-- An object whose members are read back by their own texts is read back. -/
theorem renderObject_reads (l : List (String × List Char × Json))
    (hall : ∀ x ∈ l, Reads x.2.1 x.2.2) :
    Reads (renderObject (l.map (fun x => (x.1, x.2.1))))
      (Json.obj (l.map (fun x => (x.1, x.2.2)))) := by
  refine ⟨by simp [renderObject], fun f tail hf _ => ?_⟩
  obtain ⟨g, rfl⟩ : ∃ g, f = g + 1 := ⟨f - 1, by simp [renderObject] at hf; omega⟩
  have hl : isWs lbrace = false := by decide
  have h1 : lbrace ≠ 'n' := by decide
  have h2 : lbrace ≠ 't' := by decide
  have h3 : lbrace ≠ 'f' := by decide
  have h4 : lbrace ≠ dquote := by decide
  have h5 : lbrace ≠ '[' := by decide
  cases l with
  | nil =>
    have hr : isWs rbrace = false := by decide
    simp [renderObject, joinMembers, parseValue, skipWs, hl, hr, h1, h2, h3, h4, h5]
  | cons x rest =>
    have hj := joinMembers_reads (x :: rest) hall (by simp) g tail [] (by
      simp only [renderObject, List.length_cons, List.length_append, List.length_singleton,
        List.length_nil] at hf
      omega)
    obtain ⟨c, cs, hcs, hcq⟩ : ∃ c cs, joinMembers ((x :: rest).map (fun x => (x.1, x.2.1)))
        = c :: cs ∧ c = dquote := by
      obtain ⟨k, t, d⟩ := x
      cases rest with
      | nil => exact ⟨dquote, _, rfl, rfl⟩
      | cons y r => exact ⟨dquote, _, rfl, rfl⟩
    have hne : dquote ≠ rbrace := by decide
    have hq : isWs dquote = false := by decide
    have e : renderObject ((x :: rest).map (fun x => (x.1, x.2.1))) ++ tail
        = lbrace :: (joinMembers ((x :: rest).map (fun x => (x.1, x.2.1))) ++ rbrace :: tail) := by
      simp [renderObject]
    rw [e]
    subst hcq
    have hskip : skipWs (joinMembers ((x :: rest).map (fun x => (x.1, x.2.1))) ++ rbrace :: tail)
        = dquote :: (cs ++ rbrace :: tail) := by
      rw [hcs]
      simp [skipWs, hq]
    simp only [parseValue, skipWs, hl, Bool.false_eq_true, if_false, h1, h2, h3, h4, h5, hskip,
      hne, if_true]
    simpa using hj

theorem strMap_reads (m : GoMap GoString) :
    Reads (renderObject (m.map (fun kv => (kv.1, renderString kv.2))))
      (Json.obj (m.map (fun kv => (kv.1, Json.str kv.2.toValid)))) := by
  have h := renderObject_reads
    (m.map (fun kv => (kv.1, renderString kv.2, Json.str kv.2.toValid))) (by
      intro x hx
      obtain ⟨kv, _, rfl⟩ := List.mem_map.mp hx
      exact renderString_reads kv.2)
  simpa [List.map_map, Function.comp_def] using h

mutual
/-- Every value the codec can write is read back as the document it stands
for. -/
theorem GoVal.render_reads : ∀ (v : GoVal) (t : List Char), v.render = some t →
    ∃ d, v.toJson = some d ∧ Reads t d
  | GoVal.nil, t, h => by
    simp only [GoVal.render, Option.some.injEq] at h
    subst h
    exact ⟨Json.null, rfl, null_reads⟩
  | GoVal.bool b, t, h => by
    simp only [GoVal.render, Option.some.injEq] at h
    subst h
    exact ⟨Json.bool b, rfl, renderBool_reads b⟩
  | GoVal.int n, t, h => by
    simp only [GoVal.render, Option.some.injEq] at h
    subst h
    exact ⟨Json.num n, rfl, renderInt_reads n⟩
  | GoVal.str s, t, h => by
    simp only [GoVal.render, Option.some.injEq] at h
    subst h
    exact ⟨Json.str s.toValid, rfl, renderString_reads s⟩
  | GoVal.strMap m, t, h => by
    simp only [GoVal.render, Option.some.injEq] at h
    subst h
    exact ⟨_, rfl, strMap_reads m⟩
  | GoVal.nilStrMap, t, h => by
    simp only [GoVal.render, Option.some.injEq] at h
    subst h
    exact ⟨Json.null, rfl, null_reads⟩
  | GoVal.nilAnyMap, t, h => by
    simp only [GoVal.render, Option.some.injEq] at h
    subst h
    exact ⟨Json.null, rfl, null_reads⟩
  | GoVal.func _, t, h => by
    simp [GoVal.render] at h
  | GoVal.anyMap m, t, h => by
    simp only [GoVal.render, Option.map_eq_some'] at h
    obtain ⟨ts, hts, rfl⟩ := h
    obtain ⟨l, hl1, hl2, hl3⟩ := GoVal.renderFields_reads m ts hts
    subst hl1
    exact ⟨Json.obj (l.map (fun x => (x.1, x.2.2))), by simp [GoVal.toJson, hl2],
      renderObject_reads l hl3⟩
theorem GoVal.renderFields_reads : ∀ (m : List (String × GoVal))
    (ts : List (String × List Char)), GoVal.renderFields m = some ts →
    ∃ l : List (String × List Char × Json), l.map (fun x => (x.1, x.2.1)) = ts ∧
      GoVal.fieldsToJson m = some (l.map (fun x => (x.1, x.2.2))) ∧
      ∀ x ∈ l, Reads x.2.1 x.2.2
  | [], ts, h => by
    simp only [GoVal.renderFields, Option.some.injEq] at h
    subst h
    exact ⟨[], rfl, rfl, fun x hx => absurd hx (List.not_mem_nil x)⟩
  | (k, v) :: rest, ts, h => by
    simp only [GoVal.renderFields] at h
    cases hv : GoVal.render v with
    | none => simp [hv] at h
    | some t =>
      cases hr : GoVal.renderFields rest with
      | none => simp [hv, hr] at h
      | some ts1 =>
        simp only [hv, hr, Option.some.injEq] at h
        subst h
        obtain ⟨d, hd, hrd⟩ := GoVal.render_reads v t hv
        obtain ⟨l, hl1, hl2, hl3⟩ := GoVal.renderFields_reads rest ts1 hr
        subst hl1
        refine ⟨(k, t, d) :: l, rfl, by simp [GoVal.fieldsToJson, hd, hl2], ?_⟩
        intro x hx
        rcases List.mem_cons.mp hx with hx | hx
        · subst hx
          exact hrd
        · exact hl3 x hx
end

mutual
/-- A value that stands for a document can be written. -/
theorem GoVal.render_of_toJson : ∀ (v : GoVal) (d : Json), v.toJson = some d →
    ∃ t, v.render = some t
  | GoVal.nil, _, _ => ⟨_, rfl⟩
  | GoVal.bool _, _, _ => ⟨_, rfl⟩
  | GoVal.int _, _, _ => ⟨_, rfl⟩
  | GoVal.str _, _, _ => ⟨_, rfl⟩
  | GoVal.strMap _, _, _ => ⟨_, rfl⟩
  | GoVal.nilStrMap, _, _ => ⟨_, rfl⟩
  | GoVal.nilAnyMap, _, _ => ⟨_, rfl⟩
  | GoVal.func _, d, h => by simp [GoVal.toJson] at h
  | GoVal.anyMap m, d, h => by
    simp only [GoVal.toJson, Option.map_eq_some'] at h
    obtain ⟨ds, hds, _⟩ := h
    obtain ⟨ts, hts⟩ := GoVal.renderFields_of_toJson m ds hds
    exact ⟨renderObject ts, by simp [GoVal.render, hts]⟩
theorem GoVal.renderFields_of_toJson : ∀ (m : List (String × GoVal))
    (ds : List (String × Json)), GoVal.fieldsToJson m = some ds →
    ∃ ts, GoVal.renderFields m = some ts
  | [], _, _ => ⟨[], rfl⟩
  | (k, v) :: rest, ds, h => by
    simp only [GoVal.fieldsToJson] at h
    cases hv : GoVal.toJson v with
    | none => simp [hv] at h
    | some d =>
      cases hr : GoVal.fieldsToJson rest with
      | none => simp [hv, hr] at h
      | some ds1 =>
        obtain ⟨t, ht⟩ := GoVal.render_of_toJson v d hv
        obtain ⟨ts, hts⟩ := GoVal.renderFields_of_toJson rest ds1 hr
        exact ⟨(k, t) :: ts, by simp [GoVal.renderFields, ht, hts]⟩
end

/-- A text that is read back is decoded as a whole document. -/
theorem Reads.parseJson {t : List Char} {d : Json} (h : Reads t d) : parseJson t = some d := by
  have hv := h.2 (2 * t.length + 2) [] (by omega) (Or.inl rfl)
  rw [List.append_nil] at hv
  simp [GrpcEnd.parseJson, hv, skipWs]

/-- The reference codec reads back every envelope it can write: the bytes of
`Marshal` decode to the document the envelope stands for. -/
theorem stdJson_decodes (a : MarshalArg) (d : Json) (hd : a.toJson = some d) :
    (stdJson.Marshal a).2 = none ∧ stdJson.Unmarshal (stdJson.Marshal a).1 = some d := by
  cases a with
  | s r =>
    simp only [MarshalArg.toJson, Option.map_eq_some'] at hd
    obtain ⟨p, hp, rfl⟩ := hd
    obtain ⟨t, ht⟩ := GoVal.render_of_toJson r.PayLoad p hp
    obtain ⟨p1, hp1, hr⟩ := GoVal.render_reads r.PayLoad t ht
    rw [hp] at hp1
    cases hp1
    have hobj := renderObject_reads
      [("success", renderBool r.Success, Json.bool r.Success), ("payload", t, p)] (by
        intro x hx
        simp only [List.mem_cons, List.mem_singleton, List.not_mem_nil, or_false] at hx
        rcases hx with rfl | rfl
        · exact renderBool_reads r.Success
        · exact hr)
    have hm : stdJson.Marshal (MarshalArg.s r)
        = (renderObject [("success", renderBool r.Success), ("payload", t)], none) := by
      simp [stdJson, MarshalArg.render, ht]
    rw [hm]
    exact ⟨rfl, hobj.parseJson⟩
  | e r =>
    simp only [MarshalArg.toJson, Option.some.injEq] at hd
    subst hd
    have hinner := renderObject_reads
      [("code", renderInt r.Err.Code, Json.num r.Err.Code),
        ("message", renderString r.Err.Message, Json.str r.Err.Message.toValid)] (by
        intro x hx
        simp only [List.mem_cons, List.mem_singleton, List.not_mem_nil, or_false] at hx
        rcases hx with rfl | rfl
        · exact renderInt_reads r.Err.Code
        · exact renderString_reads r.Err.Message)
    have hobj := renderObject_reads
      [("success", renderBool r.Success, Json.bool r.Success),
        ("error", renderObject [("code", renderInt r.Err.Code),
          ("message", renderString r.Err.Message)],
          Json.obj [("code", Json.num r.Err.Code),
            ("message", Json.str r.Err.Message.toValid)])] (by
        intro x hx
        simp only [List.mem_cons, List.mem_singleton, List.not_mem_nil, or_false] at hx
        rcases hx with rfl | rfl
        · exact renderBool_reads r.Success
        · exact hinner)
    exact ⟨rfl, hobj.parseJson⟩

/-- The reference codec fails, returning nil bytes, on every envelope that
stands for no document. -/
theorem stdJson_fails (a : MarshalArg) (hd : a.toJson = none) :
    stdJson.Marshal a = ([], some "unsupported type") := by
  cases a with
  | s r =>
    cases hr : GoVal.render r.PayLoad with
    | none => simp [stdJson, MarshalArg.render, hr]
    | some t =>
      obtain ⟨p, hp, _⟩ := GoVal.render_reads r.PayLoad t hr
      simp [MarshalArg.toJson, hp] at hd
  | e r => simp [MarshalArg.toJson] at hd

/-! ## Maps -/

theorem GoMap.find_filter_ne {V : Type} (m : GoMap V) (key k1 : String) (h : k1 ≠ key) :
    GoMap.find (m.filter (fun kv => !(kv.1 == key))) k1 = GoMap.find m k1 := by
  induction m with
  | nil => rfl
  | cons kv rest ih =>
    obtain ⟨k, v⟩ := kv
    by_cases hk : k = key
    · subst hk
      have hne : ¬ k = k1 := fun h1 => h h1.symm
      simp [List.filter_cons, GoMap.find, hne, ih]
    · by_cases hk1 : k = k1
      · subst hk1
        simp [List.filter_cons, GoMap.find, hk]
      · simp [List.filter_cons, GoMap.find, hk, hk1, ih]

theorem GoMap.find_put_same {V : Type} (m : GoMap V) (key : String) (v : V) :
    GoMap.find (GoMap.put m key v) key = some v := by
  simp [GoMap.put, GoMap.find]

theorem GoMap.find_put_other {V : Type} (m : GoMap V) (key k1 : String) (v : V)
    (h : k1 ≠ key) : GoMap.find (GoMap.put m key v) k1 = GoMap.find m k1 := by
  have hne : ¬ key = k1 := fun h1 => h h1.symm
  simp [GoMap.put, GoMap.find, hne, GoMap.find_filter_ne m key k1 h]

theorem slash_split (l1 l2 r1 r2 : List Char) (h1 : '/' ∉ l1) (h2 : '/' ∉ l2)
    (h : l1 ++ '/' :: r1 = l2 ++ '/' :: r2) : l1 = l2 ∧ r1 = r2 := by
  induction l1 generalizing l2 with
  | nil =>
    cases l2 with
    | nil => simpa using h
    | cons b l2 =>
      simp only [List.nil_append, List.cons_append, List.cons.injEq] at h
      exact absurd (h.1 ▸ List.mem_cons_self _ _) h2
  | cons a l1 ih =>
    cases l2 with
    | nil =>
      simp only [List.nil_append, List.cons_append, List.cons.injEq] at h
      exact absurd (h.1 ▸ List.mem_cons_self _ _) h1
    | cons b l2 =>
      simp only [List.cons_append, List.cons.injEq] at h
      obtain ⟨hl, hr⟩ := ih l2 (fun hm => h1 (List.mem_cons_of_mem _ hm))
        (fun hm => h2 (List.mem_cons_of_mem _ hm)) h.2
      exact ⟨by rw [h.1, hl], hr⟩

/-- The routing key tells two pairs apart when no controller holds a slash. -/
theorem routingKey_injective (c1 a1 c2 a2 : String) (h1 : '/' ∉ c1.data) (h2 : '/' ∉ c2.data)
    (h : c1 ++ "/" ++ a1 = c2 ++ "/" ++ a2) : c1 = c2 ∧ a1 = a2 := by
  have hd : c1.data ++ '/' :: a1.data = c2.data ++ '/' :: a2.data := by
    have := congrArg String.data h
    simpa [String.data_append] using this
  obtain ⟨hc, ha⟩ := slash_split _ _ _ _ h1 h2 hd
  exact ⟨String.ext hc, String.ext ha⟩

/-! ## Running a chain without abort or panic -/

theorem starts_append (t evs : List Event) : starts (t ++ evs) = starts t ++ starts evs := by
  simp [starts, List.filterMap_append]

theorem wrap8_succ (m : Nat) (h : m ≤ 126) : wrap8 ((m : Int) + 1) = ((m + 1 : Nat) : Int) := by
  unfold wrap8
  push_cast
  omega

theorem wrap8_len (n : Nat) (h : n ≤ 127) : wrap8 (n : Int) = (n : Int) := by
  unfold wrap8
  omega

theorem handlerAt_nat (hs : HandlersChain) (m : Nat) : handlerAt hs (m : Int) = hs.get? m := by
  simp [handlerAt]

/-- After the cursor wrapped to -128 the loop of `Next` indexes the chain out
of range and panics. -/
theorem NextLoop_wrapped (J : JsonApi) (n fuel : Nat) (st : St) (h : st.c.index = 127) :
    clean (NextLoop J (n : Int) (fuel + 1) st.incIndex).2.trace = false := by
  have hi : st.incIndex.c.index = -128 := by
    simp only [St.incIndex, h]
    rfl
  rw [NextLoop]
  have hlt : st.incIndex.c.index < (n : Int) := by
    rw [hi]
    omega
  simp only [hlt, if_true]
  have hh : handlerAt st.incIndex.c.handlers st.incIndex.c.index = none := by
    rw [hi]
    rfl
  rw [hh]
  simp [St.emit, clean_append, clean]

theorem clean_emit (st : St) (e : Event) (hc : clean st.trace = true) (he : clean [e] = true) :
    clean (st.emit e).trace = true := by
  simp only [St.emit, clean_append, hc, he]
  rfl

theorem RanDone.ranOn {hs : HandlersChain} {r : Outcome × St} (j : Nat) (hj : j ≤ hs.length)
    (h : RanDone hs r) : RanOn hs j r := by
  rcases h with h | ⟨ho, hh, m, hm, hle, h127, hst⟩
  · exact Or.inl h
  · refine Or.inr ⟨ho, hh, m, hm, by omega, h127, ?_⟩
    rw [hst, Nat.min_eq_right (by omega)]

theorem doOp_ranOn (J : JsonApi) (next : St → Outcome × St) (hs : HandlersChain) (j : Nat)
    (hcb : ∀ st, InHandler hs j st → clean st.trace = true → RanOn hs j (next st))
    (op : Op) (st : St) (hI : InHandler hs j st) (hc : clean st.trace = true) :
    RanOn hs j (doOp J next op st) := by
  cases op with
  | Next => exact hcb st hI hc
  | Abort => exact Or.inl (by simp [doOp, clean_append, clean])
  | Set key val => exact Or.inr ⟨rfl, hI⟩
  | SuccessResponse v => exact Or.inr ⟨rfl, hI⟩
  | ErrResponse code err =>
    cases err with
    | none => exact Or.inl (by simp [doOp, GRpcContext.ErrResponse, St.emit, clean_append, clean])
    | some msg => exact Or.inr ⟨rfl, hI⟩
  | setData data => exact Or.inr ⟨rfl, hI⟩
  | setKeys keys => exact Or.inr ⟨rfl, hI⟩
  | log entry =>
    refine Or.inr ⟨rfl, ?_⟩
    obtain ⟨hh, m, hm, hj, h127, hst⟩ := hI
    refine ⟨hh, m, hm, hj, h127, ?_⟩
    cases entry <;> simpa [doOp, St.emit, LogEntry.event, starts_append, starts] using hst

theorem runProg_ranOn (J : JsonApi) (next : St → Outcome × St) (hs : HandlersChain) (j : Nat)
    (hcb : ∀ st, InHandler hs j st → clean st.trace = true → RanOn hs j (next st))
    (hext : ∀ st, St.Ext st (next st).2) (p : Prog) :
    ∀ st, InHandler hs j st → clean st.trace = true → RanOn hs j (runProg J next p st) := by
  induction p with
  | ret => intro st hI _; exact Or.inr ⟨rfl, hI⟩
  | panic v => intro st _ _; exact Or.inl (by simp [runProg, St.emit, clean_append, clean])
  | call op k ih =>
    intro st hI hc
    have hop := doOp_ranOn J next hs j hcb op st hI hc
    simp only [runProg]
    rcases hd : doOp J next op st with ⟨o, st1⟩
    rw [hd] at hop
    by_cases hc1 : clean st1.trace = true
    · obtain ⟨ho, hI1⟩ := hop.resolve_left (by simp [hc1])
      simp only at ho
      subst ho
      exact ih st1 hI1 hc1
    · have hu : clean st1.trace = false := by simpa using hc1
      cases o with
      | returned => exact Or.inl ((runProg_ext J next hext k st1).unclean hu)
      | panicked v => exact Or.inl hu
      | outOfFuel => exact Or.inl hu
  | read k ih =>
    intro st hI hc
    simp only [runProg]
    exact ih _ st hI hc
  | recover body k ihb ihk =>
    intro st hI hc
    have hb := ihb st hI hc
    simp only [runProg]
    rcases hd : runProg J next body st with ⟨o, st1⟩
    rw [hd] at hb
    by_cases hc1 : clean st1.trace = true
    · obtain ⟨ho, hI1⟩ := hb.resolve_left (by simp [hc1])
      simp only at ho
      subst ho
      exact ihk none st1 hI1 hc1
    · have hu : clean st1.trace = false := by simpa using hc1
      cases o with
      | returned => exact Or.inl ((runProg_ext J next hext (k none) st1).unclean hu)
      | panicked v => exact Or.inl ((runProg_ext J next hext (k (some v)) st1).unclean hu)
      | outOfFuel => exact Or.inl hu

/-- The step of the loop after a handler: the cursor moves on by one, or wraps
and the loop panics. -/
theorem NextLoop_after (J : JsonApi) (hs : HandlersChain) (fuel j : Nat) (st : St)
    (hfuel : 1 ≤ fuel)
    (ih : ∀ st m, AtLoop hs st m → clean st.trace = true → hs.length + 1 ≤ fuel + m →
      RanDone hs (NextLoop J (hs.length : Int) fuel st))
    (hfj : hs.length ≤ fuel + j)
    (hI : InHandler hs j st) (hc : clean st.trace = true) :
    RanDone hs (NextLoop J (hs.length : Int) fuel st.incIndex) := by
  obtain ⟨hh, m, hm, hj, h127, hst⟩ := hI
  by_cases h126 : m ≤ 126
  · refine ih st.incIndex (m + 1) ⟨hh, ?_, by omega, hst⟩ hc (by omega)
    simp only [St.incIndex, hm]
    exact wrap8_succ m h126
  · have hm127 : st.c.index = 127 := by
      rw [hm]
      have : m = 127 := by omega
      subst this
      rfl
    obtain ⟨f, rfl⟩ : ∃ f, fuel = f + 1 := ⟨fuel - 1, by omega⟩
    exact Or.inl (NextLoop_wrapped J hs.length f st hm127)

theorem NextLoop_ranDone (J : JsonApi) (hs : HandlersChain) (fuel : Nat) :
    ∀ st m, AtLoop hs st m → clean st.trace = true → hs.length + 1 ≤ fuel + m →
      RanDone hs (NextLoop J (hs.length : Int) fuel st) := by
  induction fuel with
  | zero =>
    intro st m hA _ hf
    obtain ⟨hh, hm, h127, hst⟩ := hA
    have hnlt : ¬ st.c.index < (hs.length : Int) := by
      rw [hm]
      omega
    simp only [NextLoop, hnlt, if_false]
    exact Or.inr ⟨rfl, hh, m, hm, by omega, h127, by rw [hst, Nat.min_eq_right (by omega)]⟩
  | succ n ih =>
    intro st m hA hc hf
    obtain ⟨hh, hm, h127, hst⟩ := hA
    by_cases hlt : st.c.index < (hs.length : Int)
    · have hmlt : m < hs.length := by
        rw [hm] at hlt
        omega
      rw [NextLoop]
      simp only [hlt, if_true]
      have hat : handlerAt st.c.handlers st.c.index = hs.get? m := by
        rw [hh, hm, handlerAt_nat]
      rw [hat]
      cases hg : hs.get? m with
      | none =>
        rw [List.get?_eq_none] at hg
        omega
      | some h =>
        simp only
        have hidx : st.c.index.toNat = m := by
          rw [hm]
          simp
        rw [hidx]
        have hI0 : InHandler hs m (st.emit (Event.start m)) := by
          refine ⟨hh, m, hm, le_refl m, h127, ?_⟩
          simp only [St.emit, starts_append, hst]
          rw [Nat.min_eq_left (by omega), Nat.min_eq_left (by omega), List.range_succ]
          rfl
        have hc0 : clean (st.emit (Event.start m)).trace = true := clean_emit st _ hc rfl
        have hcb : ∀ st2, InHandler hs m st2 → clean st2.trace = true →
            RanOn hs m ((fun st1 => NextLoop J (hs.length : Int) n st1.incIndex) st2) := by
          intro st2 hI2 hc2
          exact (NextLoop_after J hs n m st2 (by omega) ih (by omega) hI2 hc2).ranOn m
            (by omega)
        have hr := runProg_ranOn J (fun st1 => NextLoop J (hs.length : Int) n st1.incIndex) hs m
          hcb (fun st1 => (St.Ext.incIndex st1).trans (NextLoop_ext J _ n st1.incIndex)) h
          (st.emit (Event.start m)) hI0 hc0
        rcases hrun : runProg J (fun st1 => NextLoop J (hs.length : Int) n st1.incIndex) h
          (st.emit (Event.start m)) with ⟨o, st1⟩
        rw [hrun] at hr
        by_cases hc1 : clean st1.trace = true
        · obtain ⟨ho, hI1⟩ := hr.resolve_left (by simp [hc1])
          simp only at ho
          subst ho
          simp only
          have hI1f : InHandler hs m (st1.emit (Event.finish m)) := by
            obtain ⟨hh1, m1, hm1, hj1, h1271, hst1⟩ := hI1
            refine ⟨hh1, m1, hm1, hj1, h1271, ?_⟩
            simpa [St.emit, starts_append, starts] using hst1
          have hc1f : clean (st1.emit (Event.finish m)).trace = true :=
            clean_emit st1 _ hc1 rfl
          exact NextLoop_after J hs n m _ (by omega) ih (by omega) hI1f hc1f
        · have hu : clean st1.trace = false := by simpa using hc1
          cases o with
          | returned =>
            exact Or.inl ((((St.Ext.emit st1 _).trans (St.Ext.incIndex _)).trans
              (NextLoop_ext J _ n _)).unclean hu)
          | panicked v => exact Or.inl hu
          | outOfFuel => exact Or.inl hu
    · have hmge : hs.length ≤ m := by
        rw [hm] at hlt
        omega
      rw [NextLoop]
      simp only [hlt, if_false]
      exact Or.inr ⟨rfl, hh, m, hm, hmge, h127, by rw [hst, Nat.min_eq_right hmge]⟩

/-! ## Calls in which every handler invocation calls `Next()` at most once -/

theorem aborted_append (t evs : List Event) : aborted (t ++ evs) = (aborted t || aborted evs) := by
  simp [aborted, List.any_append]

theorem noPanic_append (t evs : List Event) : noPanic (t ++ evs) = (noPanic t && noPanic evs) := by
  simp [noPanic, List.all_append]

theorem finishes_append (t evs : List Event) :
    finishes (t ++ evs) = finishes t ++ finishes evs := by
  simp [finishes, List.filterMap_append]

theorem noStartAfterAbort_of_starts (evs : List Event) (h : starts evs = []) :
    noStartAfterAbort evs = true := by
  induction evs with
  | nil => rfl
  | cons e rest ih =>
    cases e with
    | start i => simp [starts] at h
    | abort =>
      have hr : starts rest = [] := by simpa [starts] using h
      simp [noStartAfterAbort, hr]
    | finish i => exact ih (by simpa [starts] using h)
    | panic v => exact ih (by simpa [starts] using h)
    | logError a b => exact ih (by simpa [starts] using h)
    | logInfo a b c d e => exact ih (by simpa [starts] using h)

theorem noStartAfterAbort_append_quiet (t evs : List Event) (ht : noStartAfterAbort t = true)
    (h : starts evs = []) : noStartAfterAbort (t ++ evs) = true := by
  induction t with
  | nil => exact noStartAfterAbort_of_starts evs h
  | cons e rest ih =>
    cases e with
    | abort =>
      have hr : starts rest = [] := by simpa [noStartAfterAbort] using ht
      simp [noStartAfterAbort, starts_append, hr, h]
    | start i => exact ih ht
    | finish i => exact ih ht
    | panic v => exact ih ht
    | logError a b => exact ih ht
    | logInfo a b c d e => exact ih ht

theorem noStartAfterAbort_append_fresh (t evs : List Event) (ht : aborted t = false) :
    noStartAfterAbort (t ++ evs) = noStartAfterAbort evs := by
  induction t with
  | nil => rfl
  | cons e rest ih =>
    cases e with
    | abort => simp [aborted] at ht
    | start i => exact ih (by simpa [aborted] using ht)
    | finish i => exact ih (by simpa [aborted] using ht)
    | panic v => exact ih (by simpa [aborted] using ht)
    | logError a b => exact ih (by simpa [aborted] using ht)
    | logInfo a b c d e => exact ih (by simpa [aborted] using ht)

/-- Appending events that start nothing, abort nothing and panic nowhere. -/
theorem TraceOK.append_quiet {t : List Event} (h : TraceOK t) (evs : List Event)
    (hs : starts evs = []) (hp : noPanic evs = true) :
    TraceOK (t ++ evs) := by
  obtain ⟨h1, h2, k, h4⟩ := h
  refine ⟨(by rw [noPanic_append, h1, hp]; rfl), noStartAfterAbort_append_quiet t evs h2 hs,
    k, (by rw [starts_append, h4, hs]; simp)⟩

theorem TraceOK.append_abort {t : List Event} (h : TraceOK t) :
    TraceOK (t ++ [Event.abort]) :=
  h.append_quiet [Event.abort] rfl rfl

theorem TraceOK.append_start {t : List Event} (h : TraceOK t) (m : Nat)
    (ha : aborted t = false) (hs : starts t = List.range m) :
    TraceOK (t ++ [Event.start m]) := by
  obtain ⟨h1, _, _, _⟩ := h
  refine ⟨(by rw [noPanic_append, h1]; rfl), ?_,
    m + 1, (by rw [starts_append, hs, List.range_succ]; rfl)⟩
  rw [noStartAfterAbort_append_fresh t _ ha]
  rfl

theorem aborted_emit_quiet (st : St) (e : Event) (ha : aborted [e] = false) :
    aborted (st.emit e).trace = aborted st.trace := by
  simp [St.emit, aborted_append, ha]

theorem Bool.both {b : Bool} (h1 : b = true) (h2 : b = false) : False := by
  rw [h1] at h2
  cases h2

theorem In1.vis1 {hs : HandlersChain} {K1 m : Nat} {st : St}
    (hn : hs.length ≤ 63) (hK : 2 * hs.length ≤ K1 + 1) (h : In1 hs m st) : Vis K1 st := by
  obtain ⟨_, ⟨hp, _⟩, hm, ha, hna⟩ := h
  rcases Bool.eq_false_or_eq_true (aborted st.trace) with hab | hab
  · exact ⟨63, ha hab, (by omega), hp, fun _ => le_refl _, fun h => (Bool.both hab h).elim⟩
  · exact ⟨m, (hna hab).1, (by omega), hp, fun h => (Bool.both h hab).elim,
      fun _ => (by omega)⟩

theorem In0.vis0 {hs : HandlersChain} {K1 m : Nat} {st : St}
    (hK1 : K1 ≤ 126) (h : In0 hs K1 m st) : Vis K1 st := by
  obtain ⟨_, ⟨hp, _⟩, hm, c, hc, ha, hna⟩ := h
  rcases Bool.eq_false_or_eq_true (aborted st.trace) with hab | hab
  · have := ha hab
    exact ⟨c, hc, (by omega), hp, fun _ => this.1, fun h => (Bool.both hab h).elim⟩
  · have := hna hab
    exact ⟨c, hc, (by omega), hp, fun h => (Bool.both h hab).elim, fun _ => (by omega)⟩

theorem LoopI.visL {hs : HandlersChain} {K1 B1 B2 c : Nat} {st : St}
    (hB1 : B1 ≤ K1 + 1) (hB2 : B2 ≤ 127) (hK1 : K1 ≤ 126) (h : LoopI hs K1 B1 B2 st c) :
    Vis K1 st := by
  obtain ⟨_, ⟨hp, _⟩, hc, ha, hna⟩ := h
  rcases Bool.eq_false_or_eq_true (aborted st.trace) with hab | hab
  · have := ha hab
    exact ⟨c, hc, (by omega), hp, fun _ => this.1, fun h => (Bool.both hab h).elim⟩
  · have := hna hab
    exact ⟨c, hc, (by omega), hp, fun h => (Bool.both h hab).elim, fun _ => (by omega)⟩

theorem In1.toIn0 {hs : HandlersChain} {K1 m : Nat} {st : St}
    (hn : hs.length ≤ 63) (hK : 2 * hs.length ≤ K1 + 1) (h : In1 hs m st) :
    In0 hs K1 m st := by
  obtain ⟨hh, ht, hm, ha, hna⟩ := h
  rcases Bool.eq_false_or_eq_true (aborted st.trace) with hab | hab
  · exact ⟨hh, ht, hm, 63, ha hab, fun _ => ⟨le_refl _, (by omega)⟩,
      fun h => (Bool.both hab h).elim⟩
  · obtain ⟨hi, hs1⟩ := hna hab
    refine ⟨hh, ht, hm, m, hi, fun h => (Bool.both h hab).elim,
      fun _ => ⟨le_refl _, (by omega), ?_⟩⟩
    rw [hs1, Nat.min_eq_left (by omega)]

theorem In1.closed1 (hs : HandlersChain) (K1 m : Nat) (P : St → Prop)
    (hn : hs.length ≤ 63) (hK : 2 * hs.length ≤ K1 + 1) (hP : ∀ st, Vis K1 st → P st) :
    Closed P (In1 hs m) := by
  refine ⟨fun st h => hP st (h.vis1 hn hK), ?_, ?_, ?_⟩
  · intro st c1 h hi hh
    obtain ⟨h1, h2, h3, h4, h5⟩ := h
    exact ⟨hh.trans h1, h2, h3, fun ha => hi.trans (h4 ha), fun ha => ⟨hi.trans (h5 ha).1, (h5 ha).2⟩⟩
  · intro st e h hs1 ha hp
    obtain ⟨h1, h2, h3, h4, h5⟩ := h
    have hab : aborted (st.emit e).trace = aborted st.trace := aborted_emit_quiet st e ha
    refine ⟨h1, h2.append_quiet [e] hs1 hp, h3, fun h => h4 (hab ▸ h), fun h => ?_⟩
    obtain ⟨hi, hst⟩ := h5 (hab ▸ h)
    refine ⟨hi, ?_⟩
    simp only [St.emit, starts_append, hs1, hst, List.append_nil]
  · intro st h
    obtain ⟨h1, h2, h3, _, _⟩ := h
    refine ⟨h1, h2.append_abort, h3, fun _ => rfl, fun h => ?_⟩
    simp [aborted_append, aborted] at h

theorem In0.closed0 (hs : HandlersChain) (K1 m : Nat) (P : St → Prop)
    (hn : hs.length ≤ 63) (hK1 : K1 ≤ 126) (hP : ∀ st, Vis K1 st → P st) :
    Closed P (In0 hs K1 m) := by
  refine ⟨fun st h => hP st (h.vis0 hK1), ?_, ?_, ?_⟩
  · intro st c1 h hi hh
    obtain ⟨h1, h2, h3, c, hc, h4, h5⟩ := h
    exact ⟨hh.trans h1, h2, h3, c, hi.trans hc, h4, h5⟩
  · intro st e h hs1 ha hp
    obtain ⟨h1, h2, h3, c, hc, h4, h5⟩ := h
    have hab : aborted (st.emit e).trace = aborted st.trace := aborted_emit_quiet st e ha
    refine ⟨h1, h2.append_quiet [e] hs1 hp, h3, c, hc, fun h => h4 (hab ▸ h), fun h => ?_⟩
    obtain ⟨hl, hu, hst⟩ := h5 (hab ▸ h)
    refine ⟨hl, hu, ?_⟩
    simp only [St.emit, starts_append, hs1, hst, List.append_nil]
  · intro st h
    obtain ⟨h1, h2, h3, _, _, _, _⟩ := h
    refine ⟨h1, h2.append_abort, h3, 63, rfl, fun _ => ⟨le_refl _, (by omega)⟩, fun h => ?_⟩
    simp [aborted_append, aborted] at h

theorem progTame_call (J : JsonApi) (next : St → Outcome × St) (nextOk : St → Bool)
    (op : Op) (k : Prog) (st : St) :
    progTame J next nextOk (Prog.call op k) st =
      (op.okAt nextOk st &&
      (match doOp J next op st with
        | (Outcome.returned, st1) => progTame J next nextOk k st1
        | _ => true)) := by
  rw [progTame]

theorem progTame_recover (J : JsonApi) (next : St → Outcome × St) (nextOk : St → Bool)
    (body : Prog) (k : Option String → Prog) (st : St) :
    progTame J next nextOk (Prog.recover body k) st =
      (progTame J next nextOk body st &&
        (match runProg J next body st with
          | (Outcome.returned, st1) => progTame J next nextOk (k none) st1
          | (Outcome.panicked v, st1) => progTame J next nextOk (k (some v)) st1
          | (Outcome.outOfFuel, _) => true)) := by
  rw [progTame]

/-- One call other than `Next()` that raises no panic returns and keeps a closed
predicate; it starts and finishes no handler. -/
theorem doOp_still (J : JsonApi) (next : St → Outcome × St) (nextOk : St → Bool)
    (P Inv : St → Prop) (hC : Closed P Inv) (op : Op) (hop : op ≠ Op.Next) (st : St)
    (hnp : op.okAt nextOk st = true) (hI : Inv st) :
    ∃ st1 evs, doOp J next op st = (Outcome.returned, st1) ∧ Inv st1 ∧
      st1.trace = st.trace ++ evs ∧ starts evs = [] ∧ finishes evs = [] := by
  cases op with
  | Next => exact absurd rfl hop
  | Abort => exact ⟨_, [Event.abort], rfl, hC.abort st hI, rfl, rfl, rfl⟩
  | Set key val => exact ⟨_, [], rfl, hC.ctx st _ hI rfl rfl, (by simp), rfl, rfl⟩
  | SuccessResponse v => exact ⟨_, [], rfl, hC.ctx st _ hI rfl rfl, (by simp), rfl, rfl⟩
  | ErrResponse code err =>
    cases err with
    | none => cases hnp
    | some msg => exact ⟨_, [], rfl, hC.ctx st _ hI rfl rfl, (by simp), rfl, rfl⟩
  | setData data => exact ⟨_, [], rfl, hC.ctx st _ hI rfl rfl, (by simp), rfl, rfl⟩
  | setKeys keys => exact ⟨_, [], rfl, hC.ctx st _ hI rfl rfl, (by simp), rfl, rfl⟩
  | log entry =>
    cases entry with
    | error a b => exact ⟨_, [_], rfl, hC.log st _ hI rfl rfl rfl, rfl, rfl, rfl⟩
    | info a b c d e f g => exact ⟨_, [_], rfl, hC.log st _ hI rfl rfl rfl, rfl, rfl, rfl⟩

theorem progTame_call_op (J : JsonApi) (next : St → Outcome × St) (nextOk : St → Bool)
    (op : Op) (k : Prog) (st : St)
    (h : progTame J next nextOk (Prog.call op k) st = true) : op.okAt nextOk st = true := by
  rw [progTame_call, Bool.and_eq_true] at h
  exact h.1

/-- A handler body that makes no call of `Next()` in its run and raises no
panic returns, and keeps a closed predicate in every state it passes through. -/
theorem runProg_still (J : JsonApi) (next : St → Outcome × St) (nextOk : St → Bool)
    (nextPts : St → Prop) (P Inv : St → Prop) (hC : Closed P Inv) (p : Prog) :
    ∀ st, Inv st → nextCalls J next p st = 0 → progTame J next nextOk p st = true →
      ∃ st1 evs, runProg J next p st = (Outcome.returned, st1) ∧ Inv st1 ∧
        st1.trace = st.trace ++ evs ∧ starts evs = [] ∧ finishes evs = [] ∧
        progPts J next nextPts P p st := by
  induction p with
  | ret => intro st hI _ _; exact ⟨st, [], rfl, hI, (by simp), rfl, rfl, hC.pt st hI⟩
  | panic v =>
    intro st _ _ ho
    simp [progTame] at ho
  | call op k ih =>
    intro st hI hc ho
    have hop : op ≠ Op.Next := by
      intro h
      subst h
      simp only [nextCalls] at hc
      omega
    obtain ⟨st0, evs0, hd, hI0, ht0, hs0, hf0⟩ :=
      doOp_still J next nextOk P Inv hC op hop st (progTame_call_op J next nextOk op k st ho) hI
    have hc0 : nextCalls J next k st0 = 0 := by
      simp only [nextCalls, hd] at hc
      omega
    have ho0 : progTame J next nextOk k st0 = true := by
      have h2 := ho
      rw [progTame_call, hd, Bool.and_eq_true] at h2
      exact h2.2
    obtain ⟨st1, evs1, hr, hI1, ht1, hs1, hf1, hp1⟩ := ih st0 hI0 hc0 ho0
    refine ⟨st1, evs0 ++ evs1, ?_, hI1, ?_, ?_, ?_, hC.pt st hI, ?_, ?_⟩
    · simp only [runProg, hd]
      exact hr
    · rw [ht1, ht0, List.append_assoc]
    · rw [starts_append, hs0, hs1]
      rfl
    · rw [finishes_append, hf0, hf1]
      rfl
    · cases op <;> trivial
    · simp only [hd]
      exact hp1
  | read k ih =>
    intro st hI hc ho
    obtain ⟨st1, evs1, hr, hI1, ht1, hs1, hf1, hpts⟩ := ih st.c.view st hI hc ho
    exact ⟨st1, evs1, (by simp only [runProg]; exact hr), hI1, ht1, hs1, hf1,
      hC.pt st hI, hpts⟩
  | recover body k ihb ihk =>
    intro st hI hc ho
    have hcb : nextCalls J next body st = 0 := by
      simp only [nextCalls] at hc
      omega
    have hob : progTame J next nextOk body st = true := by
      have h2 := ho
      rw [progTame_recover, Bool.and_eq_true] at h2
      exact h2.1
    obtain ⟨st0, evs0, hd, hI0, ht0, hs0, hf0, hp0⟩ := ihb st hI hcb hob
    have hc0 : nextCalls J next (k none) st0 = 0 := by
      have h2 := hc
      simp only [nextCalls] at h2
      rw [hd] at h2
      simp only at h2
      omega
    have ho0 : progTame J next nextOk (k none) st0 = true := by
      have h2 := ho
      rw [progTame_recover, hd, Bool.and_eq_true] at h2
      exact h2.2
    obtain ⟨st1, evs1, hr, hI1, ht1, hs1, hf1, hp1⟩ := ihk none st0 hI0 hc0 ho0
    refine ⟨st1, evs0 ++ evs1, ?_, hI1, ?_, ?_, ?_, ?_⟩
    · simp only [runProg, hd]
      exact hr
    · rw [ht1, ht0, List.append_assoc]
    · rw [starts_append, hs0, hs1]
      rfl
    · rw [finishes_append, hf0, hf1]
      rfl
    · simp only [progPts, hd]
      exact ⟨hp0, hp1⟩

/-- A handler body run inside handler `m` that makes at most one call of
`Next()` and raises no panic returns inside handler `m`, and the handlers started
in between have returned. -/
theorem runProg_upto1 (J : JsonApi) (next : St → Outcome × St) (nextOk : St → Bool)
    (nextPts : St → Prop) (P : St → Prop) (hs : HandlersChain) (K1 m : Nat)
    (hn : hs.length ≤ 63) (hK : 2 * hs.length ≤ K1 + 1) (hK1 : K1 ≤ 126)
    (hP : ∀ st, Vis K1 st → P st)
    (hcb : ∀ st, In1 hs m st → nextOk st = true →
      ∃ st1 evs, next st = (Outcome.returned, st1) ∧
        In0 hs K1 m st1 ∧ st1.trace = st.trace ++ evs ∧ (starts evs).Perm (finishes evs) ∧
        nextPts st)
    (p : Prog) :
    ∀ st, In1 hs m st → nextCalls J next p st ≤ 1 → progTame J next nextOk p st = true →
      ∃ st1 evs, runProg J next p st = (Outcome.returned, st1) ∧
        In0 hs K1 m st1 ∧ st1.trace = st.trace ++ evs ∧ (starts evs).Perm (finishes evs) ∧
        progPts J next nextPts P p st := by
  have hC1 := In1.closed1 hs K1 m P hn hK hP
  have hC0 := In0.closed0 hs K1 m P hn hK1 hP
  induction p with
  | ret =>
    intro st hI _ _
    exact ⟨st, [], rfl, hI.toIn0 hn hK, (by simp), List.Perm.refl _, hC1.pt st hI⟩
  | panic v =>
    intro st _ _ ho
    simp [progTame] at ho
  | call op k ih =>
    intro st hI hc ho
    by_cases hop : op = Op.Next
    · subst hop
      have ho2 := ho
      rw [progTame_call, Bool.and_eq_true] at ho2
      obtain ⟨st0, evs0, hd, hI0, ht0, hperm0, hnp⟩ := hcb st hI ho2.1
      have hd1 : doOp J next Op.Next st = (Outcome.returned, st0) := hd
      have hc0 : nextCalls J next k st0 = 0 := by
        have h2 := hc
        simp only [nextCalls] at h2
        rw [hd1] at h2
        simp only at h2
        omega
      have ho0 : progTame J next nextOk k st0 = true := by
        have h2 := ho2.2
        rw [hd1] at h2
        exact h2
      obtain ⟨st1, evs1, hr, hI1, ht1, hs1, hf1, hpts⟩ :=
        runProg_still J next nextOk nextPts P _ hC0 k st0 hI0 hc0 ho0
      refine ⟨st1, evs0 ++ evs1, ?_, hI1, ?_, ?_, ?_⟩
      · simp only [runProg, hd1]
        exact hr
      · rw [ht1, ht0, List.append_assoc]
      · rw [starts_append, finishes_append, hs1, hf1, List.append_nil, List.append_nil]
        exact hperm0
      · simp only [progPts, hd1]
        exact ⟨hC1.pt st hI, hnp, hpts⟩
    · obtain ⟨st0, evs0, hd, hI0, ht0, hs0, hf0⟩ :=
        doOp_still J next nextOk P _ hC1 op hop st (progTame_call_op J next nextOk op k st ho) hI
      have hc0 : nextCalls J next k st0 ≤ 1 := by
        have h2 := hc
        simp only [nextCalls] at h2
        rw [hd] at h2
        simp only at h2
        omega
      have ho0 : progTame J next nextOk k st0 = true := by
        have h2 := ho
        rw [progTame_call, hd, Bool.and_eq_true] at h2
        exact h2.2
      obtain ⟨st1, evs1, hr, hI1, ht1, hperm, hpts⟩ := ih st0 hI0 hc0 ho0
      refine ⟨st1, evs0 ++ evs1, ?_, hI1, ?_, ?_, ?_⟩
      · simp only [runProg, hd]
        exact hr
      · rw [ht1, ht0, List.append_assoc]
      · rw [starts_append, finishes_append, hs0, hf0]
        exact hperm
      · simp only [progPts, hd]
        exact ⟨hC1.pt st hI, (by cases op <;> trivial), hpts⟩
  | read k ih =>
    intro st hI hc ho
    obtain ⟨st1, evs1, hr, hI1, ht1, hperm, hpts⟩ := ih st.c.view st hI hc ho
    exact ⟨st1, evs1, (by simp only [runProg]; exact hr), hI1, ht1, hperm,
      (by simp only [progPts]; exact ⟨hC1.pt st hI, hpts⟩)⟩
  | recover body k ihb ihk =>
    intro st hI hc ho
    have ho2 := ho
    rw [progTame_recover, Bool.and_eq_true] at ho2
    by_cases hcb0 : nextCalls J next body st = 0
    · obtain ⟨st0, evs0, hd, hI0, ht0, hs0, hf0, hp0⟩ :=
        runProg_still J next nextOk nextPts P _ hC1 body st hI hcb0 ho2.1
      have hc0 : nextCalls J next (k none) st0 ≤ 1 := by
        have h2 := hc
        simp only [nextCalls] at h2
        rw [hd] at h2
        simp only at h2
        omega
      have ho0 : progTame J next nextOk (k none) st0 = true := by
        have h2 := ho2.2
        rw [hd] at h2
        exact h2
      obtain ⟨st1, evs1, hr, hI1, ht1, hperm, hp1⟩ := ihk none st0 hI0 hc0 ho0
      refine ⟨st1, evs0 ++ evs1, ?_, hI1, ?_, ?_, ?_⟩
      · simp only [runProg, hd]
        exact hr
      · rw [ht1, ht0, List.append_assoc]
      · rw [starts_append, finishes_append, hs0, hf0]
        exact hperm
      · simp only [progPts, hd]
        exact ⟨hp0, hp1⟩
    · have hcb1 : nextCalls J next body st ≤ 1 := by
        have h2 := hc
        simp only [nextCalls] at h2
        omega
      obtain ⟨st0, evs0, hd, hI0, ht0, hperm0, hp0⟩ := ihb st hI hcb1 ho2.1
      have hc0 : nextCalls J next (k none) st0 = 0 := by
        have h2 := hc
        simp only [nextCalls] at h2
        rw [hd] at h2
        simp only at h2
        omega
      have ho0 : progTame J next nextOk (k none) st0 = true := by
        have h2 := ho2.2
        rw [hd] at h2
        exact h2
      obtain ⟨st1, evs1, hr, hI1, ht1, hs1, hf1, hp1⟩ :=
        runProg_still J next nextOk nextPts P _ hC0 (k none) st0 hI0 hc0 ho0
      refine ⟨st1, evs0 ++ evs1, ?_, hI1, ?_, ?_, ?_⟩
      · simp only [runProg, hd]
        exact hr
      · rw [ht1, ht0, List.append_assoc]
      · rw [starts_append, finishes_append, hs1, hf1, List.append_nil, List.append_nil]
        exact hperm0
      · simp only [progPts, hd]
        exact ⟨hp0, hp1⟩

theorem NextLoop_exit (J : JsonApi) (n fuel c : Nat) (st : St) (hc : st.c.index = (c : Int))
    (hn : n ≤ c) : NextLoop J (n : Int) fuel st = (Outcome.returned, st) := by
  have hlt : ¬ st.c.index < (n : Int) := by
    rw [hc]
    omega
  cases fuel <;> simp [NextLoop, hlt]

theorem loopPts_exit (J : JsonApi) (n fuel c : Nat) (P : St → Prop) (st : St)
    (hc : st.c.index = (c : Int)) (hn : n ≤ c) (hP : P st) : loopPts J (n : Int) P fuel st := by
  have hlt : ¬ st.c.index < (n : Int) := by
    rw [hc]
    omega
  cases fuel <;> simp [loopPts, hlt, hP]

theorem LoopI.exitIn0 {hs : HandlersChain} {K1 m c : Nat} {st : St}
    (h : LoopI hs K1 (K1 - m) (126 - m) st c) (hm : m < hs.length) (hc : hs.length ≤ c) :
    In0 hs K1 m st := by
  obtain ⟨hh, ht, hi, ha, hna⟩ := h
  refine ⟨hh, ht, hm, c, hi, fun hab => ?_, fun hab => ?_⟩
  · have := ha hab
    omega
  · obtain ⟨h1, h2, _⟩ := hna hab
    refine ⟨by omega, by omega, ?_⟩
    rw [h2, Nat.min_eq_right hc, Nat.min_eq_right (by omega)]

theorem In1.incLoop1 {hs : HandlersChain} {K1 m : Nat} {st : St}
    (hK : 2 * hs.length ≤ K1 + 1) (hK1 : K1 ≤ 126)
    (h : In1 hs m st) :
    ∃ c, LoopI hs K1 (K1 - m) (126 - m) st.incIndex c ∧ m + 1 ≤ c := by
  obtain ⟨hh, ht, hm, ha, hna⟩ := h
  rcases Bool.eq_false_or_eq_true (aborted st.trace) with hab | hab
  · refine ⟨64, ⟨hh, ht, ?_, fun _ => ⟨by omega, by omega⟩, fun h => (Bool.both hab h).elim⟩,
      by omega⟩
    simp only [St.incIndex, ha hab]
    rfl
  · obtain ⟨hi, hst⟩ := hna hab
    refine ⟨m + 1, ⟨hh, ht, ?_, fun h => (Bool.both h hab).elim,
      fun _ => ⟨by omega, ?_, fun _ => ⟨by omega, by omega⟩⟩⟩, le_refl _⟩
    · simp only [St.incIndex, hi]
      exact wrap8_succ m (by omega)
    · show starts st.trace = _
      rw [hst, Nat.min_eq_left (by omega)]

theorem In0.incLoop0 {hs : HandlersChain} {K1 B1 B2 m : Nat} {st : St}
    (hn : hs.length ≤ 63) (hK1 : K1 ≤ 126) (hB1 : K1 + 1 ≤ m + B1) (hB2 : 127 ≤ m + B2)
    (h : In0 hs K1 m st) :
    ∃ c, LoopI hs K1 B1 B2 (st.emit (Event.finish m)).incIndex c ∧ m + 1 ≤ c := by
  obtain ⟨hh, ht, hm, c, hi, ha, hna⟩ := h
  have hab : aborted (st.emit (Event.finish m)).incIndex.trace = aborted st.trace :=
    aborted_emit_quiet st _ rfl
  have hidx : (st.emit (Event.finish m)).incIndex.c.index = ((c + 1 : Nat) : Int) := by
    simp only [St.incIndex, St.emit, hi]
    refine wrap8_succ c ?_
    rcases Bool.eq_false_or_eq_true (aborted st.trace) with hb | hb
    · have := ha hb
      omega
    · have := hna hb
      omega
  refine ⟨c + 1, ⟨hh, ht.append_quiet [Event.finish m] rfl rfl, hidx, fun hb => ?_,
    fun hb => ?_⟩, ?_⟩
  · have := ha (hab ▸ hb)
    omega
  · obtain ⟨h1, h2, h3⟩ := hna (hab ▸ hb)
    refine ⟨by omega, ?_, fun _ => ⟨by omega, by omega⟩⟩
    show starts (st.trace ++ [Event.finish m]) = _
    rw [starts_append, h3]
    simp [starts]
  · rcases Bool.eq_false_or_eq_true (aborted st.trace) with hb | hb
    · have := ha hb
      omega
    · have := hna hb
      omega

theorem LoopI.start {hs : HandlersChain} {K1 B1 B2 c : Nat} {st : St}
    (hn : hs.length ≤ 63) (h : LoopI hs K1 B1 B2 st c) (hc : c < hs.length) :
    In1 hs c (st.emit (Event.start c)) ∧ aborted st.trace = false := by
  obtain ⟨hh, ht, hi, ha, hna⟩ := h
  have hab : aborted st.trace = false := by
    rcases Bool.eq_false_or_eq_true (aborted st.trace) with hb | hb
    · have := ha hb
      omega
    · exact hb
  obtain ⟨_, hst, _⟩ := hna hab
  rw [Nat.min_eq_left (by omega)] at hst
  have hab1 : aborted (st.emit (Event.start c)).trace = false := by
    rw [aborted_emit_quiet st (Event.start c) rfl]
    exact hab
  refine ⟨⟨hh, ht.append_start c hab hst, hc, fun hb => (Bool.both hb hab1).elim,
    fun _ => ⟨hi, ?_⟩⟩, hab⟩
  show starts (st.trace ++ [Event.start c]) = _
  rw [starts_append, hst, List.range_succ]
  rfl

theorem loopTame_succ (J : JsonApi) (s : Int) (fuel : Nat) (st : St) (h : HandleFunc)
    (hlt : st.c.index < s) (hat : handlerAt st.c.handlers st.c.index = some h) :
    loopTame J s (fuel + 1) st =
      (decide (nextCalls J (fun st1 => NextLoop J s fuel st1.incIndex) h
          (st.emit (Event.start st.c.index.toNat)) ≤ 1) &&
        progTame J (fun st1 => NextLoop J s fuel st1.incIndex)
          (fun st1 => loopTame J s fuel st1.incIndex) h
          (st.emit (Event.start st.c.index.toNat)) &&
        (match runProg J (fun st1 => NextLoop J s fuel st1.incIndex) h
            (st.emit (Event.start st.c.index.toNat)) with
          | (Outcome.returned, st1) =>
            loopTame J s fuel (st1.emit (Event.finish st.c.index.toNat)).incIndex
          | _ => true)) := by
  rw [loopTame]
  simp only [hlt, if_true, hat]

/-- The loop of `Next` over a chain of at most 63 handlers, when every handler
invocation in the run calls `Next()` at most once and no handler raises a panic:
the loop returns with the cursor past the chain, no panic is on record, the
handlers it started have all returned, and every state on the way satisfies
`P`. -/
theorem NextLoop_tame (J : JsonApi) (P : St → Prop) (hs : HandlersChain) (K1 : Nat)
    (hn : hs.length ≤ 63) (hK : 2 * hs.length ≤ K1 + 1) (hK1 : K1 ≤ 126)
    (hP : ∀ st, Vis K1 st → P st) (fuel : Nat) :
    ∀ (B1 B2 : Nat) (st : St) (c : Nat), LoopI hs K1 B1 B2 st c → B1 ≤ K1 + 1 → B2 ≤ 127 →
      hs.length ≤ fuel + c → loopTame J (hs.length : Int) fuel st = true →
      ∃ st1 evs c1, NextLoop J (hs.length : Int) fuel st = (Outcome.returned, st1) ∧
        LoopI hs K1 B1 B2 st1 c1 ∧ hs.length ≤ c1 ∧ st1.trace = st.trace ++ evs ∧
        (starts evs).Perm (finishes evs) ∧ loopPts J (hs.length : Int) P fuel st := by
  induction fuel with
  | zero =>
    intro B1 B2 st c hI hB1 hB2 hf _
    exact ⟨st, [], c, NextLoop_exit J _ 0 c st hI.2.2.1 (by omega), hI, (by omega),
      (by simp), List.Perm.refl _,
      loopPts_exit J _ 0 c P st hI.2.2.1 (by omega) (hP st (hI.visL hB1 hB2 hK1))⟩
  | succ f ih =>
    intro B1 B2 st c hI hB1 hB2 hf ho
    by_cases hc : hs.length ≤ c
    · exact ⟨st, [], c, NextLoop_exit J _ _ c st hI.2.2.1 hc, hI, hc, (by simp),
        List.Perm.refl _,
        loopPts_exit J _ _ c P st hI.2.2.1 hc (hP st (hI.visL hB1 hB2 hK1))⟩
    · have hc1 : c < hs.length := by omega
      obtain ⟨hI1, hab⟩ := hI.start hn hc1
      have hPst := hP st (hI.visL hB1 hB2 hK1)
      obtain ⟨hh, ht, hi, ha, hna⟩ := hI
      obtain ⟨hcB1, hst, hcon⟩ := hna hab
      obtain ⟨hcon1, hcon2⟩ := hcon hc1
      have hlt : st.c.index < (hs.length : Int) := by
        rw [hi]
        omega
      have hnat : st.c.index.toNat = c := by
        rw [hi]
        rfl
      obtain ⟨h, hget⟩ : ∃ h, hs.get? c = some h := by
        cases hg : hs.get? c with
        | none =>
          rw [List.get?_eq_none] at hg
          omega
        | some h => exact ⟨h, rfl⟩
      have hat : handlerAt st.c.handlers st.c.index = some h := by
        rw [hh, hi, handlerAt_nat, hget]
      rw [loopTame_succ J _ f st h hlt hat, hnat] at ho
      simp only [Bool.and_eq_true, decide_eq_true_eq] at ho
      obtain ⟨⟨hcnt, hpo⟩, hrest⟩ := ho
      have hcb : ∀ st2, In1 hs c st2 →
          (fun st1 : St => loopTame J (hs.length : Int) f st1.incIndex) st2 = true →
          ∃ st3 evs,
            (fun st1 : St => NextLoop J (hs.length : Int) f st1.incIndex) st2 =
              (Outcome.returned, st3) ∧
            In0 hs K1 c st3 ∧ st3.trace = st2.trace ++ evs ∧
            (starts evs).Perm (finishes evs) ∧
            (fun st1 : St => loopPts J (hs.length : Int) P f st1.incIndex) st2 := by
        intro st2 h2 hok
        obtain ⟨c2, hL, hc2⟩ := h2.incLoop1 hK hK1
        obtain ⟨st3, evs, c3, hr, hL3, hc3, htr, hperm, hpts⟩ :=
          ih (K1 - c) (126 - c) st2.incIndex c2 hL (by omega) (by omega) (by omega) hok
        exact ⟨st3, evs, hr, hL3.exitIn0 hc1 hc3, htr, hperm, hpts⟩
      obtain ⟨st1, evs1, hrun, hI0, htr1, hperm1, hpp⟩ :=
        runProg_upto1 J _ _ _ P hs K1 c hn hK hK1 hP hcb h _ hI1 hcnt hpo
      obtain ⟨c4, hL4, hc4⟩ := hI0.incLoop0 hn hK1 hcon1 hcon2
      rw [hrun] at hrest
      obtain ⟨st5, evs5, c5, hr5, hL5, hc5, htr5, hperm5, hpts5⟩ :=
        ih B1 B2 _ c4 hL4 hB1 hB2 (by omega) hrest
      refine ⟨st5, Event.start c :: (evs1 ++ Event.finish c :: evs5), c5, ?_, hL5, hc5, ?_,
        ?_, ?_⟩
      · simp only [NextLoop, if_pos hlt, hat, hnat, hrun]
        exact hr5
      · rw [htr5]
        simp only [St.incIndex, St.emit, htr1, List.append_assoc, List.singleton_append,
          List.cons_append, List.nil_append]
      · have e1 : starts (Event.start c :: (evs1 ++ Event.finish c :: evs5)) =
            c :: (starts evs1 ++ starts evs5) := by
          rw [show Event.start c :: (evs1 ++ Event.finish c :: evs5) =
            [Event.start c] ++ (evs1 ++ ([Event.finish c] ++ evs5)) from rfl]
          simp only [starts_append]
          rfl
        have e2 : finishes (Event.start c :: (evs1 ++ Event.finish c :: evs5)) =
            finishes evs1 ++ c :: finishes evs5 := by
          rw [show Event.start c :: (evs1 ++ Event.finish c :: evs5) =
            [Event.start c] ++ (evs1 ++ ([Event.finish c] ++ evs5)) from rfl]
          simp only [finishes_append]
          rfl
        rw [e1, e2]
        exact (List.Perm.cons c (hperm1.append hperm5)).trans List.perm_middle.symm
      · simp only [loopPts, if_pos hlt, hat, hnat, hrun]
        exact ⟨hPst, hpp, hpts5⟩

/-- `Next()` called with the cursor at -1 on a chain of at most 63 handlers, when
every handler invocation in the run calls `Next()` at most once and no handler
raises a panic: it returns with the cursor past the chain, no panic is on record,
the handlers it started have all returned, and every state on the way satisfies
`P`. -/
theorem Next_tame (J : JsonApi) (P : St → Prop) (K1 : Nat) (st : St) (fuel : Nat)
    (hn : st.c.handlers.length ≤ 63) (hK : 2 * st.c.handlers.length ≤ K1 + 1) (hK1 : K1 ≤ 126)
    (hP : ∀ s, Vis K1 s → P s)
    (hidx : st.c.index = -1) (htr : st.trace = []) (hf : st.c.handlers.length ≤ fuel)
    (ho : NextTame J fuel st = true) :
    ∃ st1 c1, Next J fuel st = (Outcome.returned, st1) ∧
      LoopI st.c.handlers K1 (K1 + 1) 127 st1 c1 ∧ st.c.handlers.length ≤ c1 ∧
      (starts st1.trace).Perm (finishes st1.trace) ∧ NextPts J P fuel st := by
  have hi : st.incIndex.c.index = ((0 : Nat) : Int) := by
    simp only [St.incIndex, hidx]
    rfl
  have hL : LoopI st.c.handlers K1 (K1 + 1) 127 st.incIndex 0 := by
    refine ⟨rfl, ⟨?_, ?_, 0, ?_⟩, hi, fun hb => ?_, fun _ => ⟨by omega, ?_,
      fun _ => ⟨by omega, by omega⟩⟩⟩
    · show noPanic st.trace = true
      rw [htr]
      rfl
    · show noStartAfterAbort st.trace = true
      rw [htr]
      rfl
    · show starts st.trace = _
      rw [htr]
      rfl
    · have hb1 : aborted st.trace = true := hb
      rw [htr] at hb1
      cases hb1
    · show starts st.trace = _
      rw [htr, Nat.zero_min]
      rfl
  have hw : wrap8 (st.incIndex.c.handlers.length : Int) = (st.c.handlers.length : Int) :=
    wrap8_len _ (by show st.c.handlers.length ≤ 127; omega)
  have ho1 : loopTame J (st.c.handlers.length : Int) fuel st.incIndex = true := by
    have h2 := ho
    simp only [NextTame, hw] at h2
    exact h2
  obtain ⟨st1, evs, c1, hr, hL1, hc1, htr1, hperm, hpts⟩ :=
    NextLoop_tame J P st.c.handlers K1 hn hK hK1 hP fuel (K1 + 1) 127 st.incIndex 0 hL
      (le_refl _) (le_refl _) (by omega) ho1
  have htr2 : st1.trace = evs := by
    rw [htr1]
    show st.trace ++ evs = evs
    rw [htr]
    rfl
  refine ⟨st1, c1, ?_, hL1, hc1, (by rw [htr2]; exact hperm), ?_⟩
  · simp only [Next, hw]
    exact hr
  · simp only [NextPts, hw]
    exact hpts

/-! ## A handler that returns without calling `Next()` -/

theorem doOp_noNext (J : JsonApi) (next : St → Outcome × St) (op : Op) (hop : op ≠ Op.Next)
    (st : St) :
    ∃ evs, (doOp J next op st).2.trace = st.trace ++ evs ∧ starts evs = [] ∧
      (doOp J next op st).2.c.handlers = st.c.handlers ∧
      (aborted evs = false → (doOp J next op st).2.c.index = st.c.index) := by
  cases op with
  | Next => exact absurd rfl hop
  | Abort => exact ⟨[Event.abort], rfl, rfl, rfl, fun h => (by cases h)⟩
  | Set key val => exact ⟨[], (by simp [doOp]), rfl, rfl, fun _ => rfl⟩
  | SuccessResponse v => exact ⟨[], (by simp [doOp]), rfl, rfl, fun _ => rfl⟩
  | ErrResponse code err =>
    cases err with
    | none => exact ⟨[Event.panic _], rfl, rfl, rfl, fun _ => rfl⟩
    | some msg => exact ⟨[], (by simp [doOp, GRpcContext.ErrResponse]), rfl, rfl, fun _ => rfl⟩
  | setData data => exact ⟨[], (by simp [doOp]), rfl, rfl, fun _ => rfl⟩
  | setKeys keys => exact ⟨[], (by simp [doOp]), rfl, rfl, fun _ => rfl⟩
  | log entry =>
    cases entry with
    | error a b => exact ⟨[_], rfl, rfl, rfl, fun _ => rfl⟩
    | info a b c d e f g => exact ⟨[_], rfl, rfl, rfl, fun _ => rfl⟩

/-- A handler body that makes no call of `Next()` in its run starts no handler
and leaves the chain alone; it leaves the cursor alone unless it calls
`Abort()`. -/
theorem runProg_noNext (J : JsonApi) (next : St → Outcome × St) (p : Prog) :
    ∀ st, nextCalls J next p st = 0 →
      ∃ evs, (runProg J next p st).2.trace = st.trace ++ evs ∧ starts evs = [] ∧
        (runProg J next p st).2.c.handlers = st.c.handlers ∧
        (aborted evs = false → (runProg J next p st).2.c.index = st.c.index) := by
  induction p with
  | ret => intro st _; exact ⟨[], (by simp [runProg]), rfl, rfl, fun _ => rfl⟩
  | panic v => intro st _; exact ⟨[Event.panic v], rfl, rfl, rfl, fun _ => rfl⟩
  | call op k ih =>
    intro st hc
    have hop : op ≠ Op.Next := by
      intro h
      subst h
      simp only [nextCalls] at hc
      omega
    obtain ⟨evs0, ht0, hs0, hh0, hi0⟩ := doOp_noNext J next op hop st
    rcases hd : doOp J next op st with ⟨o, st0⟩
    rw [hd] at ht0 hh0 hi0
    cases o with
    | returned =>
      have hc0 : nextCalls J next k st0 = 0 := by
        have h2 := hc
        simp only [nextCalls] at h2
        rw [hd] at h2
        simp only at h2
        omega
      obtain ⟨evs1, ht1, hs1, hh1, hi1⟩ := ih st0 hc0
      refine ⟨evs0 ++ evs1, ?_, ?_, ?_, fun hab => ?_⟩
      · simp only [runProg, hd]
        rw [ht1, ht0, List.append_assoc]
      · rw [starts_append, hs0, hs1]
        rfl
      · simp only [runProg, hd]
        rw [hh1, hh0]
      · rw [aborted_append, Bool.or_eq_false_iff] at hab
        simp only [runProg, hd]
        rw [hi1 hab.2, hi0 hab.1]
    | panicked v =>
      refine ⟨evs0, ?_, hs0, ?_, fun hab => ?_⟩
      · simp only [runProg, hd]
        exact ht0
      · simp only [runProg, hd]
        exact hh0
      · simp only [runProg, hd]
        exact hi0 hab
    | outOfFuel =>
      refine ⟨evs0, ?_, hs0, ?_, fun hab => ?_⟩
      · simp only [runProg, hd]
        exact ht0
      · simp only [runProg, hd]
        exact hh0
      · simp only [runProg, hd]
        exact hi0 hab
  | read k ih =>
    intro st hc
    exact ih st.c.view st hc
  | recover body k ihb ihk =>
    intro st hc
    have hcb : nextCalls J next body st = 0 := by
      simp only [nextCalls] at hc
      omega
    obtain ⟨evs0, ht0, hs0, hh0, hi0⟩ := ihb st hcb
    rcases hd : runProg J next body st with ⟨o, st0⟩
    rw [hd] at ht0 hh0 hi0
    have hc2 := hc
    simp only [nextCalls] at hc2
    rw [hd] at hc2
    cases o with
    | returned =>
      obtain ⟨evs1, ht1, hs1, hh1, hi1⟩ := ihk none st0 (by simp only at hc2; omega)
      refine ⟨evs0 ++ evs1, ?_, ?_, ?_, fun hab => ?_⟩
      · simp only [runProg, hd]
        rw [ht1, ht0, List.append_assoc]
      · rw [starts_append, hs0, hs1]
        rfl
      · simp only [runProg, hd]
        rw [hh1, hh0]
      · rw [aborted_append, Bool.or_eq_false_iff] at hab
        simp only [runProg, hd]
        rw [hi1 hab.2, hi0 hab.1]
    | panicked v =>
      obtain ⟨evs1, ht1, hs1, hh1, hi1⟩ := ihk (some v) st0 (by simp only at hc2; omega)
      refine ⟨evs0 ++ evs1, ?_, ?_, ?_, fun hab => ?_⟩
      · simp only [runProg, hd]
        rw [ht1, ht0, List.append_assoc]
      · rw [starts_append, hs0, hs1]
        rfl
      · simp only [runProg, hd]
        rw [hh1, hh0]
      · rw [aborted_append, Bool.or_eq_false_iff] at hab
        simp only [runProg, hd]
        rw [hi1 hab.2, hi0 hab.1]
    | outOfFuel =>
      refine ⟨evs0, ?_, hs0, ?_, fun hab => ?_⟩
      · simp only [runProg, hd]
        exact ht0
      · simp only [runProg, hd]
        exact hh0
      · simp only [runProg, hd]
        exact hi0 hab

/-! ## The claims -/

/-- C1, the claim fails: with a first middleware that panics, no handler calls
`Abort()` and yet the route handler is never started; and with 127 global handlers
(a chain of 128, whose length is -128 as an `int8`) `DoRequest` returns without
starting any handler at all. -/
theorem DoRequest_skips_handlers :
    ((NewGRpcEngine "app").Use [Prog.panic "boom"]).RegisterFunc "a" "b" Prog.ret
      = Except.ok enginePanicFirst ∧
    (∀ k, (enginePanicFirst.DoRequest stdJson (1 + k) GRpcContext.zero 0 reqAB).trace
      = [Event.start 0, Event.panic "boom"]) ∧
    ((NewGRpcEngine "app").Use (List.replicate 127 Prog.ret)).RegisterFunc "a" "b" Prog.ret
      = Except.ok engine128 ∧
    (∀ k, (engine128.DoRequest stdJson k GRpcContext.zero 0 reqAB).outcome = Outcome.returned ∧
      (engine128.DoRequest stdJson k GRpcContext.zero 0 reqAB).trace = []) := by
  have ho : (enginePanicFirst.DoRequest stdJson 1 GRpcContext.zero 0 reqAB).outcome
      = Outcome.panicked "boom" := rfl
  have ho2 : (engine128.DoRequest stdJson 0 GRpcContext.zero 0 reqAB).outcome
      = Outcome.returned := by
    set_option maxRecDepth 8192 in rfl
  have ht2 : (engine128.DoRequest stdJson 0 GRpcContext.zero 0 reqAB).trace = [] := by
    set_option maxRecDepth 8192 in rfl
  have he2 : ((NewGRpcEngine "app").Use (List.replicate 127 Prog.ret)).RegisterFunc "a" "b"
      Prog.ret = Except.ok engine128 := by
    set_option maxRecDepth 8192 in rfl
  refine ⟨rfl, ?_, he2, ?_⟩
  · intro k
    rw [DoRequest_fuel_add stdJson 1 k _ _ _ _ (by rw [ho]; decide)]
    rfl
  · intro k
    have h2 := DoRequest_fuel_add stdJson 0 k engine128 GRpcContext.zero 0 reqAB
      (by rw [ho2]; decide)
    rw [Nat.zero_add] at h2
    rw [h2]
    exact ⟨ho2, ht2⟩

/-- C1: for an engine with at most 126 global handlers (a chain of at most 127)
and a handler registered under the key of the request, when the record of the call
shows no `Abort()` and no panic, `DoRequest` returns normally and the handlers it
started are those at positions 0, 1, ..., n of the chain made of the global
handlers, in the order of `Use`, followed by the registered handler: each once, in
that order, and no other. -/
theorem DoRequest_starts_chain (J : JsonApi) (e : GRpcEngine) (pooled : GRpcContext)
    (ctx : Nat) (req : Request) (h : HandleFunc) (k : Nat)
    (hreg : GoMap.find e.funcMap (req.Controller ++ "/" ++ req.Action) = some h)
    (hlen : e.handlers.length + 1 ≤ 127)
    (hclean : clean (e.DoRequest J (e.handlers.length + 2 + k) pooled ctx req).trace = true) :
    (e.newContext pooled ctx (req.Controller ++ "/" ++ req.Action) req).handlers
      = e.handlers ++ [h] ∧
    (e.DoRequest J (e.handlers.length + 2 + k) pooled ctx req).outcome = Outcome.returned ∧
    (e.DoRequest J (e.handlers.length + 2 + k) pooled ctx req).err = none ∧
    starts (e.DoRequest J (e.handlers.length + 2 + k) pooled ctx req).trace
      = List.range (e.handlers.length + 1) := by
  have hch : (e.newContext pooled ctx (req.Controller ++ "/" ++ req.Action) req).handlers
      = e.handlers ++ [h] := by
    simp [GRpcEngine.newContext, GRpcContext.reset, hreg]
  have hrun : e.DoRequest J (e.handlers.length + 2 + k) pooled ctx req
      = DoResult.ofRun (Next J (e.handlers.length + 2 + k)
          (St.init (e.newContext pooled ctx (req.Controller ++ "/" ++ req.Action) req))) := by
    simp [GRpcEngine.DoRequest, hreg]
  rw [hrun] at hclean ⊢
  rw [DoResult.ofRun_trace] at hclean ⊢
  rw [DoResult.ofRun_outcome]
  have hlenc : (e.handlers ++ [h]).length = e.handlers.length + 1 := by simp
  have hA : AtLoop (e.handlers ++ [h])
      (St.init (e.newContext pooled ctx (req.Controller ++ "/" ++ req.Action) req)).incIndex
      0 := by
    refine ⟨hch, ?_, by omega, ?_⟩
    · simp [St.init, St.incIndex, GRpcEngine.newContext, GRpcContext.reset, wrap8]
    · simp [St.init, St.incIndex, starts]
  have hN := NextLoop_ranDone J (e.handlers ++ [h]) (e.handlers.length + 2 + k) _ 0 hA rfl
    (by rw [hlenc]; omega)
  have hs : wrap8 (((St.init (e.newContext pooled ctx (req.Controller ++ "/" ++ req.Action)
      req)).incIndex.c.handlers.length : Nat) : Int) = ((e.handlers ++ [h]).length : Int) := by
    have : (St.init (e.newContext pooled ctx (req.Controller ++ "/" ++ req.Action)
        req)).incIndex.c.handlers = e.handlers ++ [h] := hch
    rw [this]
    exact wrap8_len _ (by rw [hlenc]; exact hlen)
  unfold Next at hclean ⊢
  simp only at hclean ⊢
  rw [hs] at hclean ⊢
  rcases hN with hN | ⟨ho, _, m, _, _, _, hst⟩
  · rw [hN] at hclean
    exact absurd hclean (by decide)
  · refine ⟨hch, ho, ?_, by rw [hst, hlenc]⟩
    rcases hr : NextLoop J ((e.handlers ++ [h]).length : Int) (e.handlers.length + 2 + k)
      (St.init (e.newContext pooled ctx (req.Controller ++ "/" ++ req.Action) req)).incIndex
      with ⟨o, st1⟩
    rw [hr] at ho
    simp only at ho
    subst ho
    rfl

theorem DoRequest_starts_chain_witness :
    GoMap.find exampleEngine.funcMap ((helloReq (GoString.ofString "bob")).Controller ++ "/" ++ (helloReq (GoString.ofString "bob")).Action)
      = some sayHi ∧
    clean (exampleEngine.DoRequest stdJson (exampleEngine.handlers.length + 2 + 0)
      GRpcContext.zero 0 (helloReq (GoString.ofString "bob"))).trace = true ∧
    (exampleEngine.DoRequest stdJson (exampleEngine.handlers.length + 2 + 0)
      GRpcContext.zero 0 (helloReq (GoString.ofString "bob"))).outcome = Outcome.returned ∧
    starts (exampleEngine.DoRequest stdJson (exampleEngine.handlers.length + 2 + 0)
      GRpcContext.zero 0 (helloReq (GoString.ofString "bob"))).trace = List.range (exampleEngine.handlers.length + 1) :=
  ⟨rfl, rfl,
   (DoRequest_starts_chain stdJson exampleEngine GRpcContext.zero 0 (helloReq (GoString.ofString "bob")) sayHi 0
      rfl (by decide) rfl).2.1,
   (DoRequest_starts_chain stdJson exampleEngine GRpcContext.zero 0 (helloReq (GoString.ofString "bob")) sayHi 0
      rfl (by decide) rfl).2.2.2⟩

/-- C2: for a request whose key controller + "/" + action is not in the routing
table, `DoRequest` returns normally with a nil `Response` and the non-nil error
"404", and the record of the call is empty: no handler, route handler or global
middleware, is started. -/
theorem DoRequest_unregistered (J : JsonApi) (fuel : Nat) (e : GRpcEngine)
    (pooled : GRpcContext) (ctx : Nat) (req : Request)
    (h : GoMap.find e.funcMap (req.Controller ++ "/" ++ req.Action) = none) :
    (e.DoRequest J fuel pooled ctx req).outcome = Outcome.returned ∧
    (e.DoRequest J fuel pooled ctx req).resp = none ∧
    (e.DoRequest J fuel pooled ctx req).err = some "404" ∧
    (e.DoRequest J fuel pooled ctx req).trace = [] := by
  simp [GRpcEngine.DoRequest, h]

theorem DoRequest_unregistered_witness :
    GoMap.find engineNoRoute.funcMap (reqFooBar.Controller ++ "/" ++ reqFooBar.Action) = none ∧
    (engineNoRoute.DoRequest stdJson 8 GRpcContext.zero 0 reqFooBar).resp = none ∧
    (engineNoRoute.DoRequest stdJson 8 GRpcContext.zero 0 reqFooBar).err = some "404" ∧
    (engineNoRoute.DoRequest stdJson 8 GRpcContext.zero 0 reqFooBar).trace = [] :=
  ⟨rfl, (DoRequest_unregistered stdJson 8 engineNoRoute GRpcContext.zero 0 reqFooBar rfl).2⟩

/-- C3: on a chain of 65 handlers (64 added with `Use`, then the route handler)
whose first handler calls `Abort()` and returns, the handler at position 64 is
started after the abort: the cursor value 63 set by `Abort()` is a real index of
the chain, and the loop of `Next` goes on from 64. -/
theorem Abort_long_chain_starts_pending (J : JsonApi) (k : Nat) :
    ((NewGRpcEngine "app").Use (abortFirst :: List.replicate 63 Prog.ret)).RegisterFunc
      "a" "b" Prog.ret = Except.ok engineLong ∧
    (engineLong.DoRequest J (2 + k) GRpcContext.zero 0 reqAB).outcome = Outcome.returned ∧
    (engineLong.DoRequest J (2 + k) GRpcContext.zero 0 reqAB).trace
      = [Event.start 0, Event.abort, Event.finish 0, Event.start 64, Event.finish 64] := by
  have ho : (engineLong.DoRequest J 2 GRpcContext.zero 0 reqAB).outcome = Outcome.returned := rfl
  have ht : (engineLong.DoRequest J 2 GRpcContext.zero 0 reqAB).trace
      = [Event.start 0, Event.abort, Event.finish 0, Event.start 64, Event.finish 64] := rfl
  refine ⟨rfl, ?_⟩
  rw [DoRequest_fuel_add J 2 k _ _ _ _ (by rw [ho]; decide)]
  exact ⟨ho, ht⟩

/-- C4, the claim fails: with one middleware that returns at once, without
calling `Next()` or `Abort()`, and a route handler, the route handler at
position 1 is started after the middleware at position 0 has returned. -/
theorem Next_not_needed :
    ((NewGRpcEngine "app").Use [Prog.ret]).RegisterFunc "a" "b" Prog.ret
      = Except.ok engineTwo ∧
    (∀ k, (engineTwo.DoRequest stdJson (2 + k) GRpcContext.zero 0 reqAB).outcome
        = Outcome.returned ∧
      (engineTwo.DoRequest stdJson (2 + k) GRpcContext.zero 0 reqAB).trace
        = [Event.start 0, Event.finish 0, Event.start 1, Event.finish 1]) := by
  have ho : (engineTwo.DoRequest stdJson 2 GRpcContext.zero 0 reqAB).outcome
      = Outcome.returned := rfl
  refine ⟨rfl, fun k => ?_⟩
  rw [DoRequest_fuel_add stdJson 2 k _ _ _ _ (by rw [ho]; decide)]
  exact ⟨ho, rfl⟩

/-- C4: on a chain of at most 127 handlers, when the handler at position `i`
returns, having made no call of `Next()` and none of `Abort()` in its run, and
there is a handler at position `i + 1`, the chain does not end there: the loop of
the `Next()` that called handler `i` records its return and starts the handler at
position `i + 1`; in between nothing is started. -/
theorem NextLoop_goes_on (J : JsonApi) (fuel : Nat) (st : St) (i : Nat) (p q : HandleFunc)
    (hlen : st.c.handlers.length ≤ 127) (hi : st.c.index = (i : Int))
    (hp : st.c.handlers.get? i = some p) (hq : st.c.handlers.get? (i + 1) = some q)
    (hret : (runProg J
      (fun st1 => NextLoop J (wrap8 (st.c.handlers.length : Int)) (fuel + 1) st1.incIndex)
      p (st.emit (Event.start i))).1 = Outcome.returned)
    (hnext : nextCalls J
      (fun st1 => NextLoop J (wrap8 (st.c.handlers.length : Int)) (fuel + 1) st1.incIndex)
      p (st.emit (Event.start i)) = 0)
    (habort : aborted (eventsFrom (st.emit (Event.start i)).trace.length (runProg J
      (fun st1 => NextLoop J (wrap8 (st.c.handlers.length : Int)) (fuel + 1) st1.incIndex)
      p (st.emit (Event.start i))).2.trace) = false) :
    ∃ evs rest, starts evs = [] ∧
      (NextLoop J (wrap8 (st.c.handlers.length : Int)) (fuel + 2) st).2.trace
        = st.trace ++ Event.start i :: evs
            ++ Event.finish i :: Event.start (i + 1) :: rest := by
  have hlt1 : i + 1 < st.c.handlers.length := by
    by_contra hcon
    rw [List.get?_eq_none.mpr (by omega)] at hq
    exact absurd hq (by simp)
  rw [wrap8_len _ hlen] at hret hnext habort ⊢
  obtain ⟨evs, ht1, hs1, hh1, hi1⟩ :=
    runProg_noNext J (fun st1 => NextLoop J (st.c.handlers.length : Int) (fuel + 1) st1.incIndex)
      p (st.emit (Event.start i)) hnext
  rcases hr : runProg J
    (fun st1 => NextLoop J (st.c.handlers.length : Int) (fuel + 1) st1.incIndex)
    p (st.emit (Event.start i)) with ⟨o, st1⟩
  rw [hr] at hret ht1 hh1 hi1 habort
  simp only at hret ht1 hh1 hi1 habort
  subst hret
  have hevs : aborted evs = false := by
    rw [ht1, eventsFrom, List.drop_left] at habort
    exact habort
  have hi1 := hi1 hevs
  have ht1 : st1.trace = st.trace ++ Event.start i :: evs := by
    rw [ht1]
    simp [St.emit]
  have hh1 : st1.c.handlers = st.c.handlers := hh1
  have hi1 : st1.c.index = st.c.index := hi1
  have hlt : st.c.index < (st.c.handlers.length : Int) := by
    rw [hi]
    omega
  have hidx : st.c.index.toNat = i := by
    rw [hi]
    simp
  rw [NextLoop]
  simp only [hlt, if_true]
  rw [hi, handlerAt_nat, hp]
  simp only
  rw [← hi, hidx, hr]
  simp only
  have hi2 : ((st1.emit (Event.finish i)).incIndex).c.index = ((i + 1 : Nat) : Int) := by
    simp only [St.incIndex, St.emit, hi1, hi]
    exact wrap8_succ i (by omega)
  have hh2 : ((st1.emit (Event.finish i)).incIndex).c.handlers = st.c.handlers := hh1
  have hlt2 : ((st1.emit (Event.finish i)).incIndex).c.index < (st.c.handlers.length : Int) := by
    rw [hi2]
    omega
  rw [NextLoop]
  simp only [hlt2, if_true]
  rw [hh2, hi2, handlerAt_nat, hq]
  simp only [Int.toNat_ofNat]
  have hext := runProg_ext J
    (fun st1 => NextLoop J (st.c.handlers.length : Int) fuel st1.incIndex)
    (fun st1 => (St.Ext.incIndex st1).trans (NextLoop_ext J _ fuel st1.incIndex)) q
    (((st1.emit (Event.finish i)).incIndex).emit (Event.start (i + 1)))
  rcases hrun : runProg J (fun st1 => NextLoop J (st.c.handlers.length : Int) fuel st1.incIndex)
    q (((st1.emit (Event.finish i)).incIndex).emit (Event.start (i + 1))) with ⟨o, st2⟩
  rw [hrun] at hext
  have hbase : (((st1.emit (Event.finish i)).incIndex).emit (Event.start (i + 1))).trace
      = st.trace ++ Event.start i :: evs ++ [Event.finish i, Event.start (i + 1)] := by
    simp [St.emit, St.incIndex, ht1]
  have hfin : ∀ st3 : St, St.Ext st2 st3 → ∃ rest, st3.trace
      = st.trace ++ Event.start i :: evs ++ Event.finish i :: Event.start (i + 1) :: rest := by
    intro st3 h3
    obtain ⟨⟨ev3, ht3⟩, _⟩ := hext.trans h3
    refine ⟨ev3, ?_⟩
    rw [ht3, hbase]
    simp
  cases o with
  | returned =>
    obtain ⟨rest, hrest⟩ := hfin _ (((St.Ext.emit st2 (Event.finish (i + 1))).trans
      (St.Ext.incIndex _)).trans (NextLoop_ext J (st.c.handlers.length : Int) fuel _))
    exact ⟨evs, rest, hs1, hrest⟩
  | panicked v =>
    obtain ⟨rest, hrest⟩ := hfin st2 (St.Ext.refl st2)
    exact ⟨evs, rest, hs1, hrest⟩
  | outOfFuel =>
    obtain ⟨rest, hrest⟩ := hfin st2 (St.Ext.refl st2)
    exact ⟨evs, rest, hs1, hrest⟩

theorem NextLoop_goes_on_witness :
    stGreet.c.handlers.get? 0 = some sayHi ∧ stGreet.c.handlers.get? (0 + 1) = some handlerOne ∧
    (runProg stdJson
      (fun st1 => NextLoop stdJson (wrap8 (stGreet.c.handlers.length : Int)) (0 + 1) st1.incIndex)
      sayHi (stGreet.emit (Event.start 0))).1 = Outcome.returned ∧
    nextCalls stdJson
      (fun st1 => NextLoop stdJson (wrap8 (stGreet.c.handlers.length : Int)) (0 + 1) st1.incIndex)
      sayHi (stGreet.emit (Event.start 0)) = 0 ∧
    aborted (eventsFrom (stGreet.emit (Event.start 0)).trace.length (runProg stdJson
      (fun st1 => NextLoop stdJson (wrap8 (stGreet.c.handlers.length : Int)) (0 + 1) st1.incIndex)
      sayHi (stGreet.emit (Event.start 0))).2.trace) = false ∧
    (NextLoop stdJson (wrap8 (stGreet.c.handlers.length : Int)) (0 + 2) stGreet).2.trace
      = [Event.start 0, Event.finish 0, Event.start 1, Event.finish 1] ∧
    ∃ evs rest, starts evs = [] ∧
      (NextLoop stdJson (wrap8 (stGreet.c.handlers.length : Int)) (0 + 2) stGreet).2.trace
        = stGreet.trace ++ Event.start 0 :: evs
            ++ Event.finish 0 :: Event.start (0 + 1) :: rest :=
  ⟨rfl, rfl, rfl, rfl, rfl, rfl,
   NextLoop_goes_on stdJson 0 stGreet 0 sayHi handlerOne (by decide) rfl rfl rfl rfl rfl rfl⟩

/-- C5: whatever context the pool hands out, `newContext` yields a context with
cursor -1, an empty data bag (`Get` is nil for every key), the chain made of the
global handlers followed by `funcMap[key]`, the request `in` and an empty
response; two earlier states give the same context. -/
theorem newContext_forgets (e : GRpcEngine) (old1 old2 : GRpcContext) (ctx : Nat)
    (key : String) (req : Request) :
    (e.newContext old1 ctx key req).index = -1 ∧
    (∀ k, (e.newContext old1 ctx key req).Get k = GoVal.nil) ∧
    (e.newContext old1 ctx key req).handlers
      = e.handlers ++ [(GoMap.find e.funcMap key).getD nilHandler] ∧
    (e.newContext old1 ctx key req).req = some req ∧
    (e.newContext old1 ctx key req).resp.Data = [] ∧
    e.newContext old1 ctx key req = e.newContext old2 ctx key req := by
  simp [GRpcEngine.newContext, GRpcContext.reset, GRpcContext.Get]

/-- C6: with `Recover` first in the chain, a middleware that panics and a route
handler that panics, `DoRequest` does not return: `Recover` absorbs the first
panic, the loop of the outer `Next` then starts the route handler outside of
`Recover`, and its panic leaves `DoRequest`. -/
theorem Recover_second_panic_escapes (J : JsonApi) (k : Nat) :
    ((NewGRpcEngine "app").Use [Recover, Prog.panic "boom"]).RegisterFunc
      "a" "b" (Prog.panic "bang") = Except.ok enginePanics ∧
    (enginePanics.DoRequest J (3 + k) GRpcContext.zero 0 reqAB).outcome
      = Outcome.panicked "bang" ∧
    (enginePanics.DoRequest J (3 + k) GRpcContext.zero 0 reqAB).trace
      = [Event.start 0, Event.start 1, Event.panic "boom", Event.logError "app" "boom",
         Event.finish 0, Event.start 2, Event.panic "bang"] := by
  have ho : (enginePanics.DoRequest J 3 GRpcContext.zero 0 reqAB).outcome
      = Outcome.panicked "bang" := rfl
  have ht : (enginePanics.DoRequest J 3 GRpcContext.zero 0 reqAB).trace
      = [Event.start 0, Event.start 1, Event.panic "boom", Event.logError "app" "boom",
         Event.finish 0, Event.start 2, Event.panic "bang"] := rfl
  refine ⟨rfl, ?_⟩
  rw [DoRequest_fuel_add J 3 k _ _ _ _ (by rw [ho]; decide)]
  exact ⟨ho, ht⟩

/-- C7, the claim fails: with `Recover` first and a route handler that panics,
`DoRequest` returns a `Response` with no bytes at all and a nil error, and the
empty bytes decode to nothing. -/
theorem Recover_writes_no_envelope :
    (∀ k, (engineRecoverPanic.DoRequest stdJson (2 + k) GRpcContext.zero 0 reqAB).outcome
        = Outcome.returned ∧
      (engineRecoverPanic.DoRequest stdJson (2 + k) GRpcContext.zero 0 reqAB).err = none ∧
      (engineRecoverPanic.DoRequest stdJson (2 + k) GRpcContext.zero 0 reqAB).resp
        = some { Data := [] }) ∧
    stdJson.Unmarshal [] = none := by
  have ho : (engineRecoverPanic.DoRequest stdJson 2 GRpcContext.zero 0 reqAB).outcome
      = Outcome.returned := rfl
  refine ⟨fun k => ?_, rfl⟩
  rw [DoRequest_fuel_add stdJson 2 k _ _ _ _ (by rw [ho]; decide)]
  exact ⟨rfl, rfl, rfl⟩

/-- C7: when the chain run by the `c.Next()` of `Recover` panics, `Recover`
returns normally, having logged the panic and nothing else: the context, response
bytes included, is as the panic left it. -/
theorem Recover_keeps_response (J : JsonApi) (next : St → Outcome × St) (st st1 : St)
    (v : String) (h : next st = (Outcome.panicked v, st1)) :
    runProg J next Recover st
      = (Outcome.returned, st1.emit (Event.logError st1.c.appName v)) ∧
    (runProg J next Recover st).2.c.resp = st1.c.resp := by
  simp [Recover, runProg, doOp, h, St.emit, LogEntry.event, GRpcContext.view]

theorem Recover_keeps_response_witness :
    Next stdJson 1 stRecover = (Outcome.panicked "boom", (Next stdJson 1 stRecover).2) ∧
    (runProg stdJson (Next stdJson 1) Recover stRecover).1 = Outcome.returned ∧
    (runProg stdJson (Next stdJson 1) Recover stRecover).2.c.resp
      = (Next stdJson 1 stRecover).2.c.resp :=
  ⟨rfl, congrArg Prod.fst (Recover_keeps_response stdJson (Next stdJson 1) stRecover
      (Next stdJson 1 stRecover).2 "boom" rfl).1,
    (Recover_keeps_response stdJson (Next stdJson 1) stRecover
      (Next stdJson 1 stRecover).2 "boom" rfl).2⟩

/-- C8: run on an environment that records the pool operations invoked,
`CallEndApi` returns what it returns without the record, and: when `pool.Get()`
fails, `Get` is the only pool operation invoked and its error is returned with nil
bytes; when it returns `conn` and the remote `DoRequest` fails, the operations
invoked are `Get` then `DelErrorClient(conn)`, once, and the remote error is
returned with nil bytes; when the remote call succeeds they are `Get` then
`Put(conn)`, once, and `resp.Data` is returned with a nil error. -/
theorem CallEndApi_put_or_del {W P Conn : Type} (env : ClientEnv W P Conn)
    (serverAddress controller action : String) (params : GoMap GoString) (w : W) :
    ((CallEndApi env.logged serverAddress controller action params (w, [])).data
        = (CallEndApi env serverAddress controller action params w).data ∧
      (CallEndApi env.logged serverAddress controller action params (w, [])).err
        = (CallEndApi env serverAddress controller action params w).err ∧
      (CallEndApi env.logged serverAddress controller action params (w, [])).world.1
        = (CallEndApi env serverAddress controller action params w).world) ∧
    (∀ err, (env.Get (env.GetPool serverAddress w).1 (env.GetPool serverAddress w).2).1
        = Except.error err →
      (CallEndApi env.logged serverAddress controller action params (w, [])).world.2
        = [PoolCall.Get] ∧
      (CallEndApi env serverAddress controller action params w).data = none ∧
      (CallEndApi env serverAddress controller action params w).err = some err) ∧
    (∀ conn, (env.Get (env.GetPool serverAddress w).1 (env.GetPool serverAddress w).2).1
        = Except.ok conn →
      (∀ err, (env.DoRequest conn
          { Controller := controller, Action := action, Params := params, Header := [],
            Files := [] }
          (env.Get (env.GetPool serverAddress w).1 (env.GetPool serverAddress w).2).2).1
          = Except.error err →
        (CallEndApi env.logged serverAddress controller action params (w, [])).world.2
          = [PoolCall.Get, PoolCall.DelErrorClient conn] ∧
        (CallEndApi env serverAddress controller action params w).data = none ∧
        (CallEndApi env serverAddress controller action params w).err = some err) ∧
      (∀ resp, (env.DoRequest conn
          { Controller := controller, Action := action, Params := params, Header := [],
            Files := [] }
          (env.Get (env.GetPool serverAddress w).1 (env.GetPool serverAddress w).2).2).1
          = Except.ok resp →
        (CallEndApi env.logged serverAddress controller action params (w, [])).world.2
          = [PoolCall.Get, PoolCall.Put conn] ∧
        (CallEndApi env serverAddress controller action params w).data = some resp.Data ∧
        (CallEndApi env serverAddress controller action params w).err = none)) := by
  unfold CallEndApi ClientEnv.logged
  rcases hg : env.Get (env.GetPool serverAddress w).1 (env.GetPool serverAddress w).2
    with ⟨r, w1⟩
  cases r with
  | error e =>
    refine ⟨?_, ?_, ?_⟩
    · simp [hg]
    · intro err h
      simp only [Except.error.injEq] at h
      subst h
      simp [hg]
    · intro conn h
      cases h
  | ok conn0 =>
    rcases hd : env.DoRequest conn0
        { Controller := controller, Action := action, Params := params, Header := [],
          Files := [] } w1 with ⟨r2, w2⟩
    cases r2 with
    | error e2 =>
      refine ⟨?_, ?_, ?_⟩
      · simp [hg, hd]
      · intro err h
        cases h
      · intro conn h
        simp only [Except.ok.injEq] at h
        subst h
        refine ⟨?_, ?_⟩
        · intro err h2
          rw [hd] at h2
          simp only [Except.error.injEq] at h2
          subst h2
          simp [hg, hd]
        · intro resp h2
          rw [hd] at h2
          cases h2
    | ok resp0 =>
      refine ⟨?_, ?_, ?_⟩
      · simp [hg, hd]
      · intro err h
        cases h
      · intro conn h
        simp only [Except.ok.injEq] at h
        subst h
        refine ⟨?_, ?_⟩
        · intro err h2
          rw [hd] at h2
          cases h2
        · intro resp h2
          rw [hd] at h2
          simp only [Except.ok.injEq] at h2
          subst h2
          simp [hg, hd]

theorem CallEndApi_put_or_del_witness :
    (CallEndApi (poolDouble false true).logged "127.0.0.1:1234" "hello" "world"
      (GoMap.ofStrings [("name", "jack")]) (0, [])).world.2 = [PoolCall.Get] ∧
    (CallEndApi (poolDouble true false).logged "127.0.0.1:1234" "hello" "world"
      (GoMap.ofStrings [("name", "jack")]) (0, [])).world.2 = [PoolCall.Get, PoolCall.DelErrorClient 0] ∧
    (CallEndApi (poolDouble true true).logged "127.0.0.1:1234" "hello" "world"
      (GoMap.ofStrings [("name", "jack")]) (0, [])).world.2 = [PoolCall.Get, PoolCall.Put 0] ∧
    (CallEndApi (poolDouble true true) "127.0.0.1:1234" "hello" "world" (GoMap.ofStrings [("name", "jack")]) 0).data
      = some "ok".data :=
  ⟨((CallEndApi_put_or_del (poolDouble false true) "127.0.0.1:1234" "hello" "world"
      (GoMap.ofStrings [("name", "jack")]) 0).2.1 "dial failed" rfl).1,
   (((CallEndApi_put_or_del (poolDouble true false) "127.0.0.1:1234" "hello" "world"
      (GoMap.ofStrings [("name", "jack")]) 0).2.2 0 rfl).1 "unavailable" rfl).1,
   (((CallEndApi_put_or_del (poolDouble true true) "127.0.0.1:1234" "hello" "world"
      (GoMap.ofStrings [("name", "jack")]) 0).2.2 0 rfl).2 _ rfl).1,
   (((CallEndApi_put_or_del (poolDouble true true) "127.0.0.1:1234" "hello" "world"
      (GoMap.ofStrings [("name", "jack")]) 0).2.2 0 rfl).2 _ rfl).2.1⟩

theorem StringParamDefault_name (name : GoString) :
    StringParamDefault (helloReq name) "name" (GoString.ofString "") = name := by
  by_cases h : name = []
  · subst h
    rfl
  · simp [StringParamDefault, StringParam, helloReq, GoMap.find, h]

theorem example_run (J : JsonApi) (name : GoString) (k : Nat) (pooled : GRpcContext)
    (ctx : Nat) :
    (exampleEngine.DoRequest J (3 + k) pooled ctx (helloReq name)).outcome = Outcome.returned ∧
    (exampleEngine.DoRequest J (3 + k) pooled ctx (helloReq name)).err = none ∧
    (exampleEngine.DoRequest J (3 + k) pooled ctx (helloReq name)).resp
      = some { Data := (J.Marshal (hiEnvelope name)).1 } := by
  have ho : (exampleEngine.DoRequest J 3 pooled ctx (helloReq name)).outcome
      = Outcome.returned := by
    set_option maxRecDepth 8192 in rfl
  have hr : (exampleEngine.DoRequest J 3 pooled ctx (helloReq name)).resp
      = some { Data := (J.Marshal
          (hiEnvelope (StringParamDefault (helloReq name) "name" (GoString.ofString "")))).1 } := by
    set_option maxRecDepth 8192 in rfl
  have he : (exampleEngine.DoRequest J 3 pooled ctx (helloReq name)).err = none := by
    set_option maxRecDepth 8192 in rfl
  rw [StringParamDefault_name] at hr
  have hne : (exampleEngine.DoRequest J 3 pooled ctx (helloReq name)).outcome
      ≠ Outcome.outOfFuel := by
    rw [ho]
    decide
  rw [DoRequest_fuel_add J 3 k _ _ _ _ hne]
  exact ⟨ho, he, hr⟩

/-- C9, the claim fails: for the name made of the one byte 0xff, which is not
valid UTF-8, the example server answers with a success envelope whose payload
reads "hi " followed by U+FFFD: json-iterator writes the escape of U+FFFD in the
place of the byte, so the payload is not "hi " + name. -/
theorem example_hello_bad_name :
    GoString.valid [GoUnit.byte 255] = false ∧
    newGRpcEngine = Except.ok exampleEngine ∧
    (∀ k, (exampleEngine.DoRequest stdJson (3 + k) GRpcContext.zero 0
        (helloReq [GoUnit.byte 255])).err = none ∧
      ∃ resp, (exampleEngine.DoRequest stdJson (3 + k) GRpcContext.zero 0
          (helloReq [GoUnit.byte 255])).resp = some resp ∧
        stdJson.Unmarshal resp.Data = some (Json.obj [("success", Json.bool true),
          ("payload", Json.str (String.mk ['h', 'i', ' ', Char.ofNat 0xFFFD]))])) ∧
    GoString.ofString (String.mk ['h', 'i', ' ', Char.ofNat 0xFFFD])
      ≠ GoString.ofString "hi " ++ [GoUnit.byte 255] := by
  refine ⟨rfl, rfl, fun k => ?_, by decide⟩
  obtain ⟨_, he, hr⟩ := example_run stdJson [GoUnit.byte 255] k GRpcContext.zero 0
  refine ⟨he, _, hr, ?_⟩
  exact (stdJson_decodes (hiEnvelope [GoUnit.byte 255]) _ rfl).2

/-- C9: on the example engine (`Recover`, `Logger`, route `hello/world` to
`sayHi`), for every `name` that is valid UTF-8, `DoRequest` for controller
"hello", action "world" and params `name: name` returns normally with a nil error
and a `Response` whose bytes are `json.Marshal` of `SResponse` with `Success` true
and `PayLoad` "hi " + name; decoded, they give success = true and a payload that
is the string "hi " + name. -/
theorem example_hello_world (name : GoString) (k : Nat) (pooled : GRpcContext) (ctx : Nat)
    (hname : name.valid = true) :
    ∃ e resp p, newGRpcEngine = Except.ok e ∧
      (e.DoRequest stdJson (3 + k) pooled ctx (helloReq name)).outcome = Outcome.returned ∧
      (e.DoRequest stdJson (3 + k) pooled ctx (helloReq name)).err = none ∧
      (e.DoRequest stdJson (3 + k) pooled ctx (helloReq name)).resp = some resp ∧
      resp.Data = (stdJson.Marshal (hiEnvelope name)).1 ∧
      stdJson.Unmarshal resp.Data
        = some (Json.obj [("success", Json.bool true), ("payload", Json.str p)]) ∧
      GoString.ofString p = GoString.ofString "hi " ++ name := by
  obtain ⟨ho, he, hr⟩ := example_run stdJson name k pooled ctx
  refine ⟨exampleEngine, { Data := (stdJson.Marshal (hiEnvelope name)).1 },
    (GoString.ofString "hi " ++ name).toValid, rfl, ho, he, hr, rfl, ?_, ?_⟩
  · exact (stdJson_decodes (hiEnvelope name) _ rfl).2
  · exact GoString.ofString_toValid _
      (GoString.valid_append _ _ (GoString.valid_ofString "hi ") hname)

theorem example_hello_world_witness :
    (GoString.ofString "bob").valid = true ∧
    (exampleEngine.DoRequest stdJson (3 + 0) GRpcContext.zero 0
      (helloReq (GoString.ofString "bob"))).resp
      = some { Data := lbrace :: (dquote :: "success".data ++ dquote :: ':' :: "true".data
          ++ ',' :: dquote :: "payload".data ++ dquote :: ':' :: dquote :: "hi bob".data
          ++ [dquote, rbrace]) } ∧
    ∃ e resp p, newGRpcEngine = Except.ok e ∧
      (e.DoRequest stdJson (3 + 0) GRpcContext.zero 0
        (helloReq (GoString.ofString "bob"))).outcome = Outcome.returned ∧
      (e.DoRequest stdJson (3 + 0) GRpcContext.zero 0
        (helloReq (GoString.ofString "bob"))).err = none ∧
      (e.DoRequest stdJson (3 + 0) GRpcContext.zero 0
        (helloReq (GoString.ofString "bob"))).resp = some resp ∧
      resp.Data = (stdJson.Marshal (hiEnvelope (GoString.ofString "bob"))).1 ∧
      stdJson.Unmarshal resp.Data
        = some (Json.obj [("success", Json.bool true), ("payload", Json.str p)]) ∧
      GoString.ofString p = GoString.ofString "hi " ++ GoString.ofString "bob" :=
  ⟨rfl, by decide,
   example_hello_world (GoString.ofString "bob") 0 GRpcContext.zero 0 rfl⟩

/-- C10, the claim fails: for a payload with no JSON encoding (a func value)
`json.Marshal` returns nil bytes and an error, `SuccessResponse` drops the error
and stores the nil bytes, which decode to nothing; a string payload holding the
byte 0xff decodes to the string U+FFFD, not to the payload; a nil
`map[string]string` decodes to null where the empty map decodes to the empty
object; an error whose message is the byte 0xff gives an envelope whose message
decodes to U+FFFD; and `ErrResponse` with a nil error does not set the response
at all (it panics in `err.Error()`). -/
theorem SuccessResponse_unencodable :
    (GRpcContext.zero.SuccessResponse stdJson (GoVal.func 0)).resp.Data = [] ∧
    stdJson.Unmarshal (GRpcContext.zero.SuccessResponse stdJson (GoVal.func 0)).resp.Data = none ∧
    stdJson.Unmarshal
        (GRpcContext.zero.SuccessResponse stdJson (GoVal.str [GoUnit.byte 255])).resp.Data
      = some (Json.obj [("success", Json.bool true),
          ("payload", Json.str (String.mk [Char.ofNat 0xFFFD]))]) ∧
    GoString.ofString (String.mk [Char.ofNat 0xFFFD]) ≠ [GoUnit.byte 255] ∧
    stdJson.Unmarshal (GRpcContext.zero.SuccessResponse stdJson GoVal.nilStrMap).resp.Data
      = some (Json.obj [("success", Json.bool true), ("payload", Json.null)]) ∧
    stdJson.Unmarshal (GRpcContext.zero.SuccessResponse stdJson (GoVal.strMap [])).resp.Data
      = some (Json.obj [("success", Json.bool true), ("payload", Json.obj [])]) ∧
    (∃ c1, GRpcContext.zero.ErrResponse stdJson 500 (some [GoUnit.byte 255]) = some c1 ∧
      stdJson.Unmarshal c1.resp.Data
        = some (Json.obj [("success", Json.bool false),
            ("error", Json.obj [("code", Json.num 500),
              ("message", Json.str (String.mk [Char.ofNat 0xFFFD]))])])) ∧
    GRpcContext.zero.ErrResponse stdJson 500 none = none :=
  ⟨rfl, rfl,
   (stdJson_decodes (MarshalArg.s { Success := true, PayLoad := GoVal.str [GoUnit.byte 255] })
     _ rfl).2,
   by decide,
   (stdJson_decodes (MarshalArg.s { Success := true, PayLoad := GoVal.nilStrMap }) _ rfl).2,
   (stdJson_decodes (MarshalArg.s { Success := true, PayLoad := GoVal.strMap [] }) _ rfl).2,
   ⟨_, rfl, (stdJson_decodes (MarshalArg.e
      { Success := false, Err := { Code := 500, Message := [GoUnit.byte 255] } }) _ rfl).2⟩,
   rfl⟩

/-- C10: `SuccessResponse(v)` stores the bytes `json.Marshal` returns for
`SResponse` with `Success` true and `PayLoad` v (the empty map for a nil v) and
drops its error, whatever the codec. With json-iterator: when v has no JSON
encoding (it is or holds a func), `Marshal` fails and the response data is nil;
otherwise `Marshal` succeeds and the stored bytes decode to success true with, as
payload, the document of v: v itself when its strings are valid UTF-8 and its
maps are made, with U+FFFD in the place of every byte that is not part of
well-formed UTF-8, null for a nil map and the empty object for a nil v. `ErrResponse(code, err)` with a
non-nil `err` stores bytes that decode to success false with the error code and,
as message, `err.Error()` with U+FFFD in the place of every byte that is not part
of well-formed UTF-8: `err.Error()` itself when it is valid UTF-8. With a nil
`err` it sets nothing: `err.Error()` panics. -/
theorem envelopes_decode (c : GRpcContext) (v : GoVal) (code : Int) (msg : GoString) :
    (∀ J : JsonApi, (c.SuccessResponse J v).resp.Data
      = (J.Marshal (MarshalArg.s { Success := true, PayLoad := v.orEmptyMap })).1) ∧
    (v.orEmptyMap.toJson = none →
      (stdJson.Marshal (MarshalArg.s { Success := true, PayLoad := v.orEmptyMap })).2 ≠ none ∧
      (c.SuccessResponse stdJson v).resp.Data = []) ∧
    (∀ d, v.orEmptyMap.toJson = some d →
      (stdJson.Marshal (MarshalArg.s { Success := true, PayLoad := v.orEmptyMap })).2 = none ∧
      stdJson.Unmarshal (c.SuccessResponse stdJson v).resp.Data
        = some (Json.obj [("success", Json.bool true), ("payload", d)])) ∧
    (GoVal.nil.orEmptyMap.toJson = some (Json.obj []) ∧
      (∀ s : String, (GoVal.str (GoString.ofString s)).orEmptyMap.toJson = some (Json.str s)) ∧
      (∀ m : List (String × String), (GoVal.strMap (GoMap.ofStrings m)).orEmptyMap.toJson
        = some (Json.obj (m.map (fun kv => (kv.1, Json.str kv.2)))))) ∧
    (∃ c1, c.ErrResponse stdJson code (some msg) = some c1 ∧
      stdJson.Unmarshal c1.resp.Data
        = some (Json.obj [("success", Json.bool false),
            ("error", Json.obj [("code", Json.num code),
              ("message", Json.str msg.toValid)])])) ∧
    (msg.valid = true → GoString.ofString msg.toValid = msg) ∧
    (∀ (J : JsonApi) (next : St → Outcome × St) (st : St),
      c.ErrResponse J code none = none ∧
      (doOp J next (Op.ErrResponse code none) st).1 = Outcome.panicked
        "runtime error: invalid memory address or nil pointer dereference" ∧
      (doOp J next (Op.ErrResponse code none) st).2.c = st.c) := by
  refine ⟨fun J => rfl, fun hn => ?_, fun d hd => ?_, ⟨rfl, fun s => ?_, fun m => ?_⟩,
    ⟨_, rfl, ?_⟩, fun hv => GoString.ofString_toValid msg hv, fun _ _ _ => ⟨rfl, rfl, rfl⟩⟩
  · have hf := stdJson_fails (MarshalArg.s { Success := true, PayLoad := v.orEmptyMap }) (by
      simp [MarshalArg.toJson, hn])
    refine ⟨by rw [hf]; simp, ?_⟩
    show (stdJson.Marshal (MarshalArg.s { Success := true, PayLoad := v.orEmptyMap })).1 = []
    rw [hf]
  · exact stdJson_decodes (MarshalArg.s { Success := true, PayLoad := v.orEmptyMap }) _ (by
      simp [MarshalArg.toJson, hd])
  · simp [GoVal.orEmptyMap, GoVal.toJson, GoString.toValid_ofString]
  · simp [GoVal.orEmptyMap, GoVal.toJson, GoMap.ofStrings, GoString.toValid_ofString,
      List.map_map, Function.comp_def]
  · exact (stdJson_decodes (MarshalArg.e
      { Success := false, Err := { Code := code, Message := msg } }) _ rfl).2

theorem envelopes_decode_witness :
    (GoVal.str (GoString.ofString "hi bob")).orEmptyMap.toJson = some (Json.str "hi bob") ∧
    stdJson.Unmarshal (GRpcContext.zero.SuccessResponse stdJson
        (GoVal.str (GoString.ofString "hi bob"))).resp.Data
      = some (Json.obj [("success", Json.bool true), ("payload", Json.str "hi bob")]) ∧
    (GRpcContext.zero.SuccessResponse stdJson (GoVal.anyMap [("f", GoVal.func 0)])).resp.Data
      = [] ∧
    (GoString.ofString "boom").toValid = "boom" ∧
    (∃ c1, GRpcContext.zero.ErrResponse stdJson 500 (some (GoString.ofString "boom")) = some c1 ∧
      stdJson.Unmarshal c1.resp.Data
        = some (Json.obj [("success", Json.bool false),
            ("error", Json.obj [("code", Json.num 500),
              ("message", Json.str (GoString.ofString "boom").toValid)])])) ∧
    GoString.ofString (GoString.ofString "boom").toValid = GoString.ofString "boom" :=
  ⟨rfl,
   ((envelopes_decode GRpcContext.zero (GoVal.str (GoString.ofString "hi bob")) 500
     (GoString.ofString "boom")).2.2.1 _ rfl).2,
   ((envelopes_decode GRpcContext.zero (GoVal.anyMap [("f", GoVal.func 0)]) 500
     (GoString.ofString "boom")).2.1 rfl).2,
   rfl,
   (envelopes_decode GRpcContext.zero (GoVal.str (GoString.ofString "hi bob")) 500
     (GoString.ofString "boom")).2.2.2.2.1,
   (envelopes_decode GRpcContext.zero (GoVal.str (GoString.ofString "hi bob")) 500
     (GoString.ofString "boom")).2.2.2.2.2.1 rfl⟩

/-- C11: `SuccessResponse(v)` and `ErrResponse(code, err)` leave the cursor, the
chain, the request and the data bag as they were, so `IsAbort()` is unchanged;
nothing is added to the record of the call (no abort); and when the call returns
(always for `SuccessResponse`, for every non-nil `err` for `ErrResponse`) the
handler goes on with its next statement from a state that differs in the response
bytes only, so the loop of `Next` sees the cursor and the chain it would have seen
without the call. -/
theorem response_frame (J : JsonApi) (next : St → Outcome × St) (st : St) (v : GoVal)
    (code : Int) (err : Option GoString) (msg : GoString) (k : Prog) :
    ((st.c.SuccessResponse J v).index = st.c.index ∧
      (st.c.SuccessResponse J v).handlers = st.c.handlers ∧
      (st.c.SuccessResponse J v).req = st.c.req ∧
      (st.c.SuccessResponse J v).Keys = st.c.Keys ∧
      (st.c.SuccessResponse J v).IsAbort = st.c.IsAbort) ∧
    ((doOp J next (Op.ErrResponse code err) st).2.c.index = st.c.index ∧
      (doOp J next (Op.ErrResponse code err) st).2.c.handlers = st.c.handlers ∧
      (doOp J next (Op.ErrResponse code err) st).2.c.req = st.c.req ∧
      (doOp J next (Op.ErrResponse code err) st).2.c.Keys = st.c.Keys ∧
      (doOp J next (Op.ErrResponse code err) st).2.c.IsAbort = st.c.IsAbort) ∧
    runProg J next (Prog.call (Op.SuccessResponse v) k) st
      = runProg J next k { c := st.c.SuccessResponse J v, trace := st.trace } ∧
    (∃ c1, st.c.ErrResponse J code (some msg) = some c1 ∧
      runProg J next (Prog.call (Op.ErrResponse code (some msg)) k) st
        = runProg J next k { c := c1, trace := st.trace }) := by
  refine ⟨⟨rfl, rfl, rfl, rfl, rfl⟩, ?_, rfl, _, rfl, rfl⟩
  cases err with
  | none => exact ⟨rfl, rfl, rfl, rfl, rfl⟩
  | some m => exact ⟨rfl, rfl, rfl, rfl, rfl⟩

/-- C12, the claim fails: a parameter that is present with the empty string as
its value is treated as absent: `StringParam` returns the header of the same key,
and `StringParamDefault` the default when there is no such header. -/
theorem StringParam_empty_is_absent :
    IsParamExist reqEmptyParam "k" = true ∧
    GoMap.find reqEmptyParam.Params "k" = some [] ∧
    StringParam reqEmptyParam "k" = GoString.ofString "h" ∧
    IsParamExist reqEmptyOnly "k" = true ∧
    StringParamDefault reqEmptyOnly "k" (GoString.ofString "d") = GoString.ofString "d" := by
  decide

/-- C12: with `p` the value `Params[key]` and `h` the value `Header[key]` (the
empty string when the key is absent): when `p` is not empty `StringParam` and
`StringParamDefault` return `p`; when `p` is empty and `h` is not they return `h`;
when both are empty `StringParam` returns the empty string and
`StringParamDefault` returns the default. -/
theorem StringParam_lookup (req : Request) (key : String) (d : GoString) :
    ((GoMap.find req.Params key).getD [] ≠ [] →
      StringParam req key = (GoMap.find req.Params key).getD [] ∧
      StringParamDefault req key d = (GoMap.find req.Params key).getD []) ∧
    ((GoMap.find req.Params key).getD [] = [] → (GoMap.find req.Header key).getD [] ≠ [] →
      StringParam req key = (GoMap.find req.Header key).getD [] ∧
      StringParamDefault req key d = (GoMap.find req.Header key).getD []) ∧
    ((GoMap.find req.Params key).getD [] = [] → (GoMap.find req.Header key).getD [] = [] →
      StringParam req key = [] ∧ StringParamDefault req key d = d) := by
  refine ⟨fun h => ?_, fun h1 h2 => ?_, fun h1 h2 => ?_⟩
  · simp [StringParam, StringParamDefault, h]
  · simp [StringParam, StringParamDefault, h1, h2]
  · simp [StringParam, StringParamDefault, h1, h2]

theorem StringParam_lookup_witness :
    (StringParam reqEmptyParam "n" = GoString.ofString "42" ∧
      StringParamDefault reqEmptyParam "n" (GoString.ofString "d") = GoString.ofString "42") ∧
    (StringParam reqEmptyParam "only" = GoString.ofString "7" ∧
      StringParamDefault reqEmptyParam "only" (GoString.ofString "d") = GoString.ofString "7") ∧
    (StringParam reqEmptyParam "none" = [] ∧
      StringParamDefault reqEmptyParam "none" (GoString.ofString "d") = GoString.ofString "d") :=
  ⟨(StringParam_lookup reqEmptyParam "n" (GoString.ofString "d")).1 (by decide),
   (StringParam_lookup reqEmptyParam "only" (GoString.ofString "d")).2.1 (by decide) (by decide),
   (StringParam_lookup reqEmptyParam "none" (GoString.ofString "d")).2.2 (by decide)
     (by decide)⟩

theorem signedRange (sd : Bool × List Char) (bitSize : Nat) (n : Int)
    (h : (match digitsValue sd.2 with
      | none => none
      | some un =>
        if sd.1 = true then (if un > 2 ^ (bitSize - 1) then none else some (-(un : Int)))
        else if un ≥ 2 ^ (bitSize - 1) then none else some (un : Int)) = some n) :
    -(2 ^ (bitSize - 1) : Int) ≤ n ∧ n < (2 ^ (bitSize - 1) : Int) := by
  cases hd : digitsValue sd.2 with
  | none => simp [hd] at h
  | some un =>
    rw [hd] at h
    simp only at h
    have hc : ((2 ^ (bitSize - 1) : Nat) : Int) = (2 ^ (bitSize - 1) : Int) := by push_cast; rfl
    have hpos : 0 < 2 ^ (bitSize - 1) := Nat.pow_pos (by decide)
    by_cases h1 : sd.1 = true
    · rw [if_pos h1] at h
      by_cases h2 : un > 2 ^ (bitSize - 1)
      · rw [if_pos h2] at h
        cases h
      · rw [if_neg h2] at h
        cases h
        rw [← hc]
        constructor <;> omega
    · rw [if_neg h1] at h
      by_cases h3 : un ≥ 2 ^ (bitSize - 1)
      · rw [if_pos h3] at h
        cases h
      · rw [if_neg h3] at h
        cases h
        rw [← hc]
        constructor <;> omega

theorem parseIntText_range (cs : List Char) (bitSize : Nat) (n : Int)
    (h : parseIntText cs bitSize = some n) :
    -(2 ^ (bitSize - 1) : Int) ≤ n ∧ n < (2 ^ (bitSize - 1) : Int) := by
  unfold parseIntText at h
  exact signedRange _ bitSize n h

theorem ParseInt_range (s : GoString) (bitSize : Nat) (n : Int) (h : ParseInt s bitSize = some n) :
    -(2 ^ (bitSize - 1) : Int) ≤ n ∧ n < (2 ^ (bitSize - 1) : Int) := by
  unfold ParseInt at h
  cases ht : s.text with
  | none => simp [ht] at h
  | some cs =>
    rw [ht] at h
    exact parseIntText_range cs bitSize n h

theorem ParseInt_empty (bitSize : Nat) : ParseInt [] bitSize = none := rfl

/-- C13: the integer getters are total. `IntParamDefault(key, d)` returns `n`
when `strconv.Atoi` accepts the string found by `StringParam(key)` with value `n`,
which then lies in the range of `int`, and `d` in every other case, the empty
string included; the same holds for `Int64ParamDefault` with `strconv.ParseInt`
at 64 bits; `IntParam(key)` is `IntParamDefault(key, 0)` and `Int64Param(key)` is
`Int64ParamDefault(key, 0)`. -/
theorem int_getters (req : Request) (key : String) (d : Int) :
    (∀ n, Atoi (StringParam req key) = some n →
      IntParamDefault req key d = n ∧ -(2 ^ 63 : Int) ≤ n ∧ n < (2 ^ 63 : Int)) ∧
    (Atoi (StringParam req key) = none → IntParamDefault req key d = d) ∧
    (∀ n, ParseInt (StringParam req key) 64 = some n →
      Int64ParamDefault req key d = n ∧ -(2 ^ 63 : Int) ≤ n ∧ n < (2 ^ 63 : Int)) ∧
    (ParseInt (StringParam req key) 64 = none → Int64ParamDefault req key d = d) ∧
    Atoi [] = none ∧
    IntParam req key = IntParamDefault req key 0 ∧
    Int64Param req key = Int64ParamDefault req key 0 := by
  refine ⟨fun n h => ⟨?_, ParseInt_range _ 64 n h⟩, fun h => ?_,
    fun n h => ⟨?_, ParseInt_range _ 64 n h⟩, fun h => ?_, rfl, rfl, rfl⟩
  · have hne : StringParam req key ≠ [] := by
      intro he
      rw [he] at h
      cases h
    simp [IntParamDefault, hne, h]
  · simp [IntParamDefault, h]
  · have hne : StringParam req key ≠ [] := by
      intro he
      rw [he] at h
      cases h
    simp [Int64ParamDefault, hne, h]
  · simp [Int64ParamDefault, h]

theorem int_getters_witness :
    (IntParamDefault reqEmptyParam "n" 5 = 42 ∧ -(2 ^ 63 : Int) ≤ 42 ∧ (42 : Int) < 2 ^ 63) ∧
    IntParamDefault reqEmptyParam "bad" 5 = 5 ∧
    (Int64ParamDefault reqEmptyParam "only" 5 = 7 ∧ -(2 ^ 63 : Int) ≤ 7 ∧ (7 : Int) < 2 ^ 63) ∧
    Int64ParamDefault reqEmptyParam "none" 5 = 5 :=
  ⟨(int_getters reqEmptyParam "n" 5).1 42 (by decide),
   (int_getters reqEmptyParam "bad" 5).2.1 (by decide),
   (int_getters reqEmptyParam "only" 5).2.2.1 7 (by decide),
   (int_getters reqEmptyParam "none" 5).2.2.2.1 (by decide)⟩

/-- C14: `RegisterFunc(controller, action, f)` panics exactly when the key
controller + "/" + action is already in the routing table, with the message
"func <key> already exists" and before the table is written; otherwise it returns
an engine whose table maps the key to `f` and every other key as before, with the
same global handlers and name. -/
theorem RegisterFunc_spec (e : GRpcEngine) (controller action : String) (f : HandleFunc) :
    ((∃ msg, e.RegisterFunc controller action f = Except.error msg) ↔
      (GoMap.find e.funcMap (controller ++ "/" ++ action)).isSome = true) ∧
    (∀ old, GoMap.find e.funcMap (controller ++ "/" ++ action) = some old →
      e.RegisterFunc controller action f
        = Except.error ("func " ++ (controller ++ "/" ++ action) ++ " already exists")) ∧
    (GoMap.find e.funcMap (controller ++ "/" ++ action) = none →
      ∃ e1, e.RegisterFunc controller action f = Except.ok e1 ∧
        GoMap.find e1.funcMap (controller ++ "/" ++ action) = some f ∧
        (∀ k1, k1 ≠ controller ++ "/" ++ action →
          GoMap.find e1.funcMap k1 = GoMap.find e.funcMap k1) ∧
        e1.handlers = e.handlers ∧ e1.appName = e.appName) := by
  refine ⟨?_, fun old h => ?_, fun h => ?_⟩
  · cases h : GoMap.find e.funcMap (controller ++ "/" ++ action) with
    | none => simp [GRpcEngine.RegisterFunc, h]
    | some old => simp [GRpcEngine.RegisterFunc, h]
  · simp [GRpcEngine.RegisterFunc, h]
  · refine ⟨{ e with funcMap := GoMap.put e.funcMap (controller ++ "/" ++ action) f }, ?_,
      GoMap.find_put_same _ _ _, fun k1 hk => GoMap.find_put_other _ _ _ _ hk, rfl, rfl⟩
    simp [GRpcEngine.RegisterFunc, h]

theorem RegisterFunc_spec_witness :
    exampleEngine.RegisterFunc "hello" "world" handlerOne
      = Except.error ("func " ++ ("hello" ++ "/" ++ "world") ++ " already exists") ∧
    ∃ e1, exampleEngine.RegisterFunc "hello" "moon" handlerOne = Except.ok e1 ∧
      GoMap.find e1.funcMap ("hello" ++ "/" ++ "moon") = some handlerOne ∧
      (∀ k1, k1 ≠ "hello" ++ "/" ++ "moon" →
        GoMap.find e1.funcMap k1 = GoMap.find exampleEngine.funcMap k1) ∧
      e1.handlers = exampleEngine.handlers ∧ e1.appName = exampleEngine.appName :=
  ⟨(RegisterFunc_spec exampleEngine "hello" "world" handlerOne).2.1 sayHi rfl,
   (RegisterFunc_spec exampleEngine "hello" "moon" handlerOne).2.2 rfl⟩

/-- C15: after `Set(k, v)`, also on a context whose `Keys` is nil, `Get(k)`
returns `v` and `Get` of any other key returns what it returned before; `Get` of
a key that is not in the bag, or on a nil bag, returns nil; `GetString(k)` returns
the string stored under `k` and the empty string when the key is not in the bag or
holds a value that is not a string. -/
theorem data_bag (c : GRpcContext) (k : String) (v : GoVal) :
    (c.Set k v).Get k = v ∧
    (∀ k1, k1 ≠ k → (c.Set k v).Get k1 = c.Get k1) ∧
    (c.Keys = none → c.Get k = GoVal.nil ∧ c.GetString k = []) ∧
    (∀ m, c.Keys = some m → GoMap.find m k = none → c.Get k = GoVal.nil ∧ c.GetString k = []) ∧
    (∀ s, v = GoVal.str s → (c.Set k v).GetString k = s) ∧
    ((∀ s, v ≠ GoVal.str s) → (c.Set k v).GetString k = []) := by
  refine ⟨?_, fun k1 hk => ?_, fun h => ?_, fun m h hf => ?_, fun s hs => ?_, fun hs => ?_⟩
  · simp [GRpcContext.Set, GRpcContext.Get, GoMap.find_put_same]
  · cases hK : c.Keys with
    | none =>
      simp [GRpcContext.Set, GRpcContext.Get, hK, GoMap.find_put_other _ _ _ _ hk]
      rfl
    | some m => simp [GRpcContext.Set, GRpcContext.Get, hK, GoMap.find_put_other _ _ _ _ hk]
  · simp [GRpcContext.Get, GRpcContext.GetString, h]
  · simp [GRpcContext.Get, GRpcContext.GetString, h, hf]
  · subst hs
    simp [GRpcContext.Set, GRpcContext.GetString, GoMap.find_put_same]
  · cases v with
    | str s => exact absurd rfl (hs s)
    | nil => simp [GRpcContext.Set, GRpcContext.GetString, GoMap.find_put_same]
    | bool b => simp [GRpcContext.Set, GRpcContext.GetString, GoMap.find_put_same]
    | int n => simp [GRpcContext.Set, GRpcContext.GetString, GoMap.find_put_same]
    | strMap m => simp [GRpcContext.Set, GRpcContext.GetString, GoMap.find_put_same]
    | anyMap m => simp [GRpcContext.Set, GRpcContext.GetString, GoMap.find_put_same]
    | nilStrMap => simp [GRpcContext.Set, GRpcContext.GetString, GoMap.find_put_same]
    | nilAnyMap => simp [GRpcContext.Set, GRpcContext.GetString, GoMap.find_put_same]
    | func f => simp [GRpcContext.Set, GRpcContext.GetString, GoMap.find_put_same]

theorem data_bag_witness :
    (GRpcContext.zero.Set "user" (GoVal.str (GoString.ofString "bob"))).GetString "user"
      = GoString.ofString "bob" ∧
    (GRpcContext.zero.Set "n" (GoVal.int 3)).GetString "n" = [] ∧
    (GRpcContext.zero.Get "user" = GoVal.nil ∧ GRpcContext.zero.GetString "user" = []) ∧
    ((GRpcContext.zero.Set "n" (GoVal.int 3)).Set "user"
        (GoVal.str (GoString.ofString "bob"))).Get "n"
      = (GRpcContext.zero.Set "n" (GoVal.int 3)).Get "n" :=
  ⟨(data_bag GRpcContext.zero "user" (GoVal.str (GoString.ofString "bob"))).2.2.2.2.1
     (GoString.ofString "bob") rfl,
   (data_bag GRpcContext.zero "n" (GoVal.int 3)).2.2.2.2.2 (fun s h => by cases h),
   (data_bag GRpcContext.zero "user" GoVal.nil).2.2.1 rfl,
   (data_bag (GRpcContext.zero.Set "n" (GoVal.int 3)) "user"
     (GoVal.str (GoString.ofString "bob"))).2.1 "n" (by decide)⟩

theorem Pool.Get_maxIdle (p : Pool) (now : Nat) (dialOk : Bool) :
    (p.Get now dialOk).2.maxIdle = p.maxIdle := by
  unfold Pool.Get
  split
  · rfl
  · split <;> rfl

theorem Pool.Get_idle (p : Pool) (now : Nat) (dialOk : Bool) (h : HandOut)
    (hp : 0 < p.maxIdle) (hg : (p.Get now dialOk).1 = Except.ok h) : h.idleFor < p.maxIdle := by
  unfold Pool.Get at hg
  split at hg
  · rename_i conn t rest hf
    simp only [Except.ok.injEq] at hg
    subst hg
    have hm : (conn, t) ∈ p.idle.filter (fun e => decide (now - e.2 < p.maxIdle)) := by
      rw [hf]
      exact List.mem_cons_self _ _
    simpa using (List.mem_filter.mp hm).2
  · split at hg
    · simp only [Except.ok.injEq] at hg
      subst hg
      exact hp
    · cases hg

/-- C16: on a pool with a positive max-idle-duration, such as the pool of
`InitClient` with its five minutes, for every sequence of `Get`, `Put` and
`DelErrorClient` calls at any clock readings, every connection handed out by
`Get` has been idle for strictly less than the max-idle-duration at that
moment. -/
theorem Pool_handOuts_idle (ops : List PoolOp) :
    ∀ p : Pool, 0 < p.maxIdle → ∀ h ∈ p.handOuts ops, h.idleFor < p.maxIdle := by
  induction ops with
  | nil => intro p _ h hm; simp [Pool.handOuts] at hm
  | cons op ops ih =>
    intro p hp h hm
    cases op with
    | Get now dialOk =>
      simp only [Pool.handOuts] at hm
      have hmax := Pool.Get_maxIdle p now dialOk
      have hidle := Pool.Get_idle p now dialOk
      rcases hg : p.Get now dialOk with ⟨r, p1⟩
      rw [hg] at hm hmax hidle
      simp only at hmax
      cases r with
      | error e =>
        simp only at hm
        rw [← hmax]
        exact ih p1 (by rw [hmax]; exact hp) h hm
      | ok h0 =>
        simp only [List.mem_cons] at hm
        rcases hm with hm | hm
        · subst hm
          exact hidle h hp rfl
        · rw [← hmax]
          exact ih p1 (by rw [hmax]; exact hp) h hm
    | Put conn now =>
      simp only [Pool.handOuts] at hm
      exact ih (p.Put conn now) hp h hm
    | DelErrorClient conn =>
      simp only [Pool.handOuts] at hm
      exact ih (p.DelErrorClient conn) hp h hm

theorem Pool_handOuts_idle_witness :
    0 < initClientPool.maxIdle ∧
    initClientPool.handOuts [PoolOp.Get 0 true, PoolOp.Put 0 10, PoolOp.Get 20 true,
        PoolOp.Put 0 30, PoolOp.Get (30 + 5 * 60 * 1000000000) true]
      = [{ conn := 0, idleFor := 0, fresh := true }, { conn := 0, idleFor := 10, fresh := false },
         { conn := 1, idleFor := 0, fresh := true }] ∧
    ∀ h ∈ initClientPool.handOuts [PoolOp.Get 0 true, PoolOp.Put 0 10, PoolOp.Get 20 true,
        PoolOp.Put 0 30, PoolOp.Get (30 + 5 * 60 * 1000000000) true],
      h.idleFor < initClientPool.maxIdle :=
  ⟨by decide, by decide,
   Pool_handOuts_idle [PoolOp.Get 0 true, PoolOp.Put 0 10, PoolOp.Get 20 true,
     PoolOp.Put 0 30, PoolOp.Get (30 + 5 * 60 * 1000000000) true] initClientPool (by decide)⟩

/-- C17, the claim fails: on the chain `[panic, return]`, whose handlers call
neither `Next()` nor `Abort()`, `Next()` started from the cursor -1 starts handler
0 only; the panic unwinds the loop and handler 1 is never started. -/
theorem Next_panic_leaves_rest :
    stPanicFirst.c.handlers = [Prog.panic "boom", Prog.ret] ∧
    stPanicFirst.c.index = -1 ∧
    (∀ k, (Next stdJson (k + 1) stPanicFirst).1 = Outcome.panicked "boom" ∧
      (Next stdJson (k + 1) stPanicFirst).2.trace = [Event.start 0, Event.panic "boom"] ∧
      starts (Next stdJson (k + 1) stPanicFirst).2.trace ≠ List.range 2) ∧
    starts (Next stdJson 0 stPanicFirst).2.trace ≠ List.range 2 := by
  refine ⟨rfl, rfl, fun k => ⟨rfl, rfl, ?_⟩, by decide⟩
  have h : (Next stdJson (k + 1) stPanicFirst).2.trace = [Event.start 0, Event.panic "boom"] :=
    rfl
  rw [h]
  decide

/-- C17: on a chain of at most 63 handlers, when in the run of `Next()` from the
cursor -1 with an empty record every handler invocation calls `Next()` at most
once, no handler raises a panic and no `Abort()` is recorded, `Next()` returns,
having started the handlers 0, 1, ..., n-1 each once in increasing order; no
panic is on record, so no access `c.handlers[c.index]` was out of range; and in
every state the call passes through the cursor is between 0 and 127: it never
wrapped around to a negative value. -/
theorem Next_starts_each_once (J : JsonApi) (st : St) (k : Nat)
    (hlen : st.c.handlers.length ≤ 63) (hidx : st.c.index = -1) (htr : st.trace = [])
    (htame : NextTame J (st.c.handlers.length + k) st = true)
    (hab : aborted (Next J (st.c.handlers.length + k) st).2.trace = false) :
    (Next J (st.c.handlers.length + k) st).1 = Outcome.returned ∧
    starts (Next J (st.c.handlers.length + k) st).2.trace = List.range st.c.handlers.length ∧
    noPanic (Next J (st.c.handlers.length + k) st).2.trace = true ∧
    NextPts J (fun s => 0 ≤ s.c.index ∧ s.c.index ≤ 127) (st.c.handlers.length + k) st := by
  have hP : ∀ s, Vis 125 s → (fun s : St => 0 ≤ s.c.index ∧ s.c.index ≤ 127) s := by
    intro s hv
    obtain ⟨c, hc, hle, _⟩ := hv
    exact ⟨(by rw [hc]; omega), (by rw [hc]; omega)⟩
  obtain ⟨st1, c1, hr, hL, hc1, _, hpts⟩ :=
    Next_tame J _ 125 st (st.c.handlers.length + k) hlen (by omega) (by omega) hP
      hidx htr (by omega) htame
  rw [hr] at hab ⊢
  obtain ⟨_, ⟨hnp, _⟩, _, _, hst⟩ := hL
  obtain ⟨_, hst1, _⟩ := hst hab
  rw [Nat.min_eq_right hc1] at hst1
  exact ⟨rfl, hst1, hnp, hpts⟩

theorem Next_starts_each_once_witness :
    stHello.c.handlers = [Recover, Logger, sayHi] ∧
    stHello.c.handlers.length ≤ 63 ∧ stHello.c.index = -1 ∧ stHello.trace = [] ∧
    NextTame stdJson (stHello.c.handlers.length + 0) stHello = true ∧
    aborted (Next stdJson (stHello.c.handlers.length + 0) stHello).2.trace = false ∧
    (Next stdJson (stHello.c.handlers.length + 0) stHello).1 = Outcome.returned ∧
    starts (Next stdJson (stHello.c.handlers.length + 0) stHello).2.trace
      = List.range stHello.c.handlers.length ∧
    noPanic (Next stdJson (stHello.c.handlers.length + 0) stHello).2.trace = true ∧
    NextPts stdJson (fun s => 0 ≤ s.c.index ∧ s.c.index ≤ 127)
      (stHello.c.handlers.length + 0) stHello :=
  ⟨rfl, by decide, rfl, rfl, rfl, rfl,
    Next_starts_each_once stdJson stHello 0 (by decide) rfl rfl rfl rfl⟩

/-- C18, the claim fails: on the chain made of a middleware that calls `Next()`
once and a handler that calls `Abort()` and then panics, the middleware, started
before the `Abort()`, never runs to its end: the panic unwinds it, and no handler
returns. -/
theorem Abort_then_panic_unwinds :
    stAbortPanic.c.handlers = [wrapNext, Prog.call Op.Abort (Prog.panic "boom")] ∧
    stAbortPanic.c.index = -1 ∧
    ∀ k, (Next stdJson (k + 2) stAbortPanic).1 = Outcome.panicked "boom" ∧
      (Next stdJson (k + 2) stAbortPanic).2.trace
        = [Event.start 0, Event.start 1, Event.abort, Event.panic "boom"] ∧
      finishes (Next stdJson (k + 2) stAbortPanic).2.trace = [] :=
  ⟨rfl, rfl, fun _ => ⟨rfl, rfl, rfl⟩⟩

/-- C18: on a chain of at most 63 handlers, when in the run of `Next()` from the
cursor -1 with an empty record every handler invocation calls `Next()` at most
once and no handler raises a panic (any of them may call `Abort()`, and call
`Next()` after it), `Next()` returns, and in its record no handler is started
after the first `Abort()`; the handlers started are exactly those that returned,
so each one started ran to its end; they are the positions 0, ..., m-1 for some m,
none twice; no panic is on record, so no access `c.handlers[c.index]` was out of
range; and in every state the call passes through the cursor is between 0 and
127: it never wrapped around. -/
theorem Next_abort_stops_chain (J : JsonApi) (st : St) (k : Nat)
    (hlen : st.c.handlers.length ≤ 63) (hidx : st.c.index = -1) (htr : st.trace = [])
    (htame : NextTame J (st.c.handlers.length + k) st = true) :
    (Next J (st.c.handlers.length + k) st).1 = Outcome.returned ∧
    noStartAfterAbort (Next J (st.c.handlers.length + k) st).2.trace = true ∧
    (starts (Next J (st.c.handlers.length + k) st).2.trace).Perm
      (finishes (Next J (st.c.handlers.length + k) st).2.trace) ∧
    (∃ m, starts (Next J (st.c.handlers.length + k) st).2.trace = List.range m) ∧
    noPanic (Next J (st.c.handlers.length + k) st).2.trace = true ∧
    NextPts J (fun s => 0 ≤ s.c.index ∧ s.c.index ≤ 127) (st.c.handlers.length + k) st := by
  have hP : ∀ s, Vis 125 s → (fun s : St => 0 ≤ s.c.index ∧ s.c.index ≤ 127) s := by
    intro s hv
    obtain ⟨c, hc, hle, _⟩ := hv
    exact ⟨(by rw [hc]; omega), (by rw [hc]; omega)⟩
  obtain ⟨st1, c1, hr, hL, hc1, hperm, hpts⟩ :=
    Next_tame J _ 125 st (st.c.handlers.length + k) hlen (by omega) (by omega) hP
      hidx htr (by omega) htame
  obtain ⟨_, ⟨hnp, hnsa, hm⟩, _⟩ := hL
  rw [hr]
  exact ⟨rfl, hnsa, hperm, hm, hnp, hpts⟩

theorem Next_abort_stops_chain_witness :
    stAbortNext.c.handlers = [Recover, Logger, abortThenNext, sayHi] ∧
    stAbortNext.c.handlers.length ≤ 63 ∧ stAbortNext.c.index = -1 ∧ stAbortNext.trace = [] ∧
    NextTame stdJson (stAbortNext.c.handlers.length + 0) stAbortNext = true ∧
    starts (Next stdJson (stAbortNext.c.handlers.length + 0) stAbortNext).2.trace
      = [0, 1, 2] ∧
    aborted (Next stdJson (stAbortNext.c.handlers.length + 0) stAbortNext).2.trace = true ∧
    (Next stdJson (stAbortNext.c.handlers.length + 0) stAbortNext).1 = Outcome.returned ∧
    noStartAfterAbort (Next stdJson (stAbortNext.c.handlers.length + 0) stAbortNext).2.trace
      = true ∧
    (starts (Next stdJson (stAbortNext.c.handlers.length + 0) stAbortNext).2.trace).Perm
      (finishes (Next stdJson (stAbortNext.c.handlers.length + 0) stAbortNext).2.trace) ∧
    (∃ m, starts (Next stdJson (stAbortNext.c.handlers.length + 0) stAbortNext).2.trace
      = List.range m) ∧
    noPanic (Next stdJson (stAbortNext.c.handlers.length + 0) stAbortNext).2.trace = true ∧
    NextPts stdJson (fun s => 0 ≤ s.c.index ∧ s.c.index ≤ 127)
      (stAbortNext.c.handlers.length + 0) stAbortNext :=
  ⟨rfl, by decide, rfl, rfl, rfl, rfl, rfl,
    Next_abort_stops_chain stdJson stAbortNext 0 (by decide) rfl rfl rfl⟩

/-- C19, the code departs from its contract: with 32 middlewares that each call
`Next()` once and a route handler, no handler calls `Abort()`, and yet the first
middleware, asking `c.IsAbort()` after its `Next()` has returned, is told true:
by then the increments of the loops of `Next` have taken the cursor to 64, past
the sentinel 63. -/
theorem IsAbort_without_Abort :
    ((NewGRpcEngine "app").Use (probeAbort :: List.replicate 31 wrapNext)).RegisterFunc "a" "b"
      Prog.ret = Except.ok engineProbe ∧
    (∀ k, (engineProbe.DoRequest stdJson (33 + k) GRpcContext.zero 0 reqAB).outcome
        = Outcome.returned ∧
      aborted (engineProbe.DoRequest stdJson (33 + k) GRpcContext.zero 0 reqAB).trace = false ∧
      (engineProbe.DoRequest stdJson (33 + k) GRpcContext.zero 0 reqAB).resp
        = some { Data := "aborted".data }) := by
  have ho : (engineProbe.DoRequest stdJson 33 GRpcContext.zero 0 reqAB).outcome
      = Outcome.returned := by
    set_option maxRecDepth 16384 in rfl
  have ha : aborted (engineProbe.DoRequest stdJson 33 GRpcContext.zero 0 reqAB).trace
      = false := by
    set_option maxRecDepth 16384 in rfl
  have hr : (engineProbe.DoRequest stdJson 33 GRpcContext.zero 0 reqAB).resp
      = some { Data := "aborted".data } := by
    set_option maxRecDepth 16384 in rfl
  have he : ((NewGRpcEngine "app").Use (probeAbort :: List.replicate 31 wrapNext)).RegisterFunc
      "a" "b" Prog.ret = Except.ok engineProbe := by
    set_option maxRecDepth 16384 in rfl
  refine ⟨he, fun k => ?_⟩
  rw [DoRequest_fuel_add stdJson 33 k _ _ _ _ (by rw [ho]; decide)]
  exact ⟨ho, ha, hr⟩

/-- C20, the claim fails: the pairs (`a/b`, `c`) and (`a`, `b/c`) differ in both
components and have the same key `a/b/c`: with the first registered,
`RegisterFunc` panics on the second, and `DoRequest` for controller `a`, action
`b/c` runs the handler registered for (`a/b`, `c`). -/
theorem routingKey_collision :
    (NewGRpcEngine "app").RegisterFunc "a/b" "c" handlerOne = Except.ok engineSlash ∧
    engineSlash.RegisterFunc "a" "b/c" handlerTwo
      = Except.error "func a/b/c already exists" ∧
    (∀ k, (engineSlash.DoRequest stdJson (1 + k) GRpcContext.zero 0 reqSlash).outcome
        = Outcome.returned ∧
      (engineSlash.DoRequest stdJson (1 + k) GRpcContext.zero 0 reqSlash).resp
        = some { Data := "one".data } ∧
      (engineSlash.DoRequest stdJson (1 + k) GRpcContext.zero 0 reqSlash).trace
        = [Event.start 0, Event.finish 0]) := by
  have ho : (engineSlash.DoRequest stdJson 1 GRpcContext.zero 0 reqSlash).outcome
      = Outcome.returned := rfl
  refine ⟨rfl, rfl, fun k => ?_⟩
  rw [DoRequest_fuel_add stdJson 1 k _ _ _ _ (by rw [ho]; decide)]
  exact ⟨ho, rfl, rfl⟩

/-- C20: for two pairs that differ in a component and whose controllers hold no
slash, on an engine where neither key is registered, `RegisterFunc` accepts both
registrations, and `DoRequest` for a request carrying the second pair runs the
chain made of the global handlers followed by the handler registered for the
second pair. -/
theorem distinct_routes (J : JsonApi) (fuel : Nat) (e : GRpcEngine) (c1 a1 c2 a2 : String)
    (f1 f2 : HandleFunc) (pooled : GRpcContext) (ctx : Nat) (req : Request)
    (hs1 : '/' ∉ c1.data) (hs2 : '/' ∉ c2.data) (hne : (c1, a1) ≠ (c2, a2))
    (hfree1 : GoMap.find e.funcMap (c1 ++ "/" ++ a1) = none)
    (hfree2 : GoMap.find e.funcMap (c2 ++ "/" ++ a2) = none)
    (hc : req.Controller = c2) (ha : req.Action = a2) :
    ∃ e1 e2, e.RegisterFunc c1 a1 f1 = Except.ok e1 ∧
      e1.RegisterFunc c2 a2 f2 = Except.ok e2 ∧
      GoMap.find e2.funcMap (c1 ++ "/" ++ a1) = some f1 ∧
      GoMap.find e2.funcMap (c2 ++ "/" ++ a2) = some f2 ∧
      (e2.newContext pooled ctx (c2 ++ "/" ++ a2) req).handlers = e.handlers ++ [f2] ∧
      e2.DoRequest J fuel pooled ctx req
        = DoResult.ofRun (Next J fuel (St.init (e2.newContext pooled ctx (c2 ++ "/" ++ a2) req))) := by
  have hk : c2 ++ "/" ++ a2 ≠ c1 ++ "/" ++ a1 := by
    intro h
    obtain ⟨h1, h2⟩ := routingKey_injective c2 a2 c1 a1 hs2 hs1 h
    exact hne (by rw [h1, h2])
  have hf1 : GoMap.find (GoMap.put e.funcMap (c1 ++ "/" ++ a1) f1) (c2 ++ "/" ++ a2) = none := by
    rw [GoMap.find_put_other _ _ _ _ hk, hfree2]
  have hf2 : GoMap.find (GoMap.put (GoMap.put e.funcMap (c1 ++ "/" ++ a1) f1)
      (c2 ++ "/" ++ a2) f2) (c2 ++ "/" ++ a2) = some f2 := GoMap.find_put_same _ _ _
  refine ⟨⟨GoMap.put e.funcMap (c1 ++ "/" ++ a1) f1, e.handlers, e.appName⟩,
    ⟨GoMap.put (GoMap.put e.funcMap (c1 ++ "/" ++ a1) f1) (c2 ++ "/" ++ a2) f2, e.handlers,
      e.appName⟩, ?_, ?_, ?_, hf2, ?_, ?_⟩
  · simp [GRpcEngine.RegisterFunc, hfree1]
  · simp [GRpcEngine.RegisterFunc, hf1]
  · rw [GoMap.find_put_other _ _ _ _ hk.symm]
    exact GoMap.find_put_same _ _ _
  · simp [GRpcEngine.newContext, GRpcContext.reset, hf2]
  · simp only [GRpcEngine.DoRequest, hc, ha, hf2]

theorem distinct_routes_witness :
    (("hello", "world") : String × String) ≠ ("hello", "moon") ∧
    ∃ e1 e2, (NewGRpcEngine "app").RegisterFunc "hello" "world" handlerOne = Except.ok e1 ∧
      e1.RegisterFunc "hello" "moon" handlerTwo = Except.ok e2 ∧
      GoMap.find e2.funcMap ("hello" ++ "/" ++ "world") = some handlerOne ∧
      GoMap.find e2.funcMap ("hello" ++ "/" ++ "moon") = some handlerTwo ∧
      (e2.newContext GRpcContext.zero 0 ("hello" ++ "/" ++ "moon")
        reqMoon).handlers
        = (NewGRpcEngine "app").handlers ++ [handlerTwo] ∧
      e2.DoRequest stdJson 4 GRpcContext.zero 0
          reqMoon
        = DoResult.ofRun (Next stdJson 4 (St.init (e2.newContext GRpcContext.zero 0
            ("hello" ++ "/" ++ "moon")
            reqMoon))) :=
  ⟨by decide,
   distinct_routes stdJson 4 (NewGRpcEngine "app") "hello" "world" "hello" "moon" handlerOne
     handlerTwo GRpcContext.zero 0
     reqMoon
     (by decide) (by decide) (by decide) rfl rfl rfl rfl⟩

end GrpcEnd
